import Mathlib

/-!
Verification of the message-layer networking core (yojimbo-rs).

This file gives a shallow embedding, in Lean 4, of the channel layer of the
repository: the wrapping 16-bit sequence arithmetic and the
`SequenceBuffer` ring (src/channel/sequence_buffer.rs), the
`ChannelPacketData` codec (src/channel/channel_packet_data.rs), the
unreliable and reliable channel processors (src/channel/unreliable.rs,
src/channel/reliable.rs), the channel wrapper (src/channel.rs) and the
connection layer (src/connection.rs), together with theorems about the
claims of the specification.

Modelling conventions:
* `u16` values are natural numbers; wrapping arithmetic is explicit
  (`% 65536`).  `usize` arithmetic that can wrap in a release build is
  modelled with explicit wrapping subtraction modulo `2 ^ 64`.
* Rust panics (failed `assert!`/`unwrap`/`expect`/out-of-bounds indexing)
  are modelled by returning `none` from the embedded operation.
* `f64` time values are modelled as integers; time is only ever compared
  (`time_last_sent + message_resend_time <= now`), never computed with, in
  the code paths relevant to the claims.
* User messages are a type parameter `α`; the user serializer is a
  parameter `ser : α → List Nat` producing the serialized bytes (the
  `MeasureSink` byte count of message `m` is `(ser m).length`).
-/

namespace YojimboRs

/-- Wrapping 16-bit addition (`u16::wrapping_add`). -/
def wrapAdd (a b : Nat) : Nat := (a + b) % 65536

/-- Wrapping 16-bit subtraction (`u16::wrapping_sub`); the second argument is
reduced mod 2^16 first, matching a `as u16` cast at call sites. -/
def wrapSub (a b : Nat) : Nat := (a + 65536 - b % 65536) % 65536

/-- Wrapping 64-bit subtraction, the release-build semantics of `usize`
subtraction (`a - b` wraps on underflow). -/
def wrapSub64 (a b : Nat) : Nat := (a + 18446744073709551616 - b % 18446744073709551616) % 18446744073709551616

/-- src/channel/sequence_buffer.rs `sequence_greater_than`:
`((s1 > s2) && (s1 - s2 <= 32768)) || ((s1 < s2) && (s2 - s1 > 32768))`. -/
def sequence_greater_than (s1 s2 : Nat) : Bool :=
  (decide (s1 > s2) && decide (s1 - s2 ≤ 32768)) || (decide (s1 < s2) && decide (s2 - s1 > 32768))

/-- src/channel/sequence_buffer.rs `sequence_less_than`. -/
def sequence_less_than (s1 s2 : Nat) : Bool :=
  sequence_greater_than s2 s1

/-- The sequence buffer of src/channel/sequence_buffer.rs: a fixed-capacity
ring indexed by a wrapping u16 key.  `entrySequence` is the Rust
`entry_sequence` vector, `entries` the `entries` vector; both always have
length equal to the capacity the buffer was created with. -/
structure SequenceBuffer (α : Type) where
  sequence : Nat
  entrySequence : List (Option Nat)
  entries : List (Option α)
deriving DecidableEq, Repr

namespace SequenceBuffer

/-- `SequenceBuffer::new(size)`. -/
def new (α : Type) (size : Nat) : SequenceBuffer α :=
  { sequence := 0
    entrySequence := List.replicate size none
    entries := List.replicate size none }

/-- `SequenceBuffer::capacity` (the length of the entries vector). -/
def capacity (b : SequenceBuffer α) : Nat := b.entries.length

/-- `SequenceBuffer::sequence_index`. -/
def sequence_index (b : SequenceBuffer α) (sequence : Nat) : Nat :=
  sequence % b.capacity

/-- `SequenceBuffer::reset`. -/
def reset (b : SequenceBuffer α) : SequenceBuffer α :=
  { b with sequence := 0, entrySequence := b.entrySequence.map fun _ => none }

/-- Clear `count` presence slots starting at sequence value `s` (the body of
the in-range loop of `remove_entries`). -/
def clearRange (es : List (Option Nat)) (cap s : Nat) : Nat → List (Option Nat)
  | 0 => es
  | count + 1 => clearRange (es.set (s % cap) none) cap (s + 1) count

/-- `SequenceBuffer::remove_entries`.  Note the source adds `u16::MAX`
(65535, not 65536) to `end_sequence` when it wrapped below
`start_sequence`. -/
def remove_entries (b : SequenceBuffer α) (start_sequence end_sequence : Nat) :
    SequenceBuffer α :=
  let endSeq := if end_sequence < start_sequence then end_sequence + 65535 else end_sequence
  if endSeq - start_sequence < b.capacity then
    { b with entrySequence := clearRange b.entrySequence b.capacity start_sequence (endSeq - start_sequence + 1) }
  else
    { b with entrySequence := b.entrySequence.map fun _ => none }

/-- Write the key and the entry at slot `sequence % capacity` (the common
tail of `insert_with`). -/
def place (b : SequenceBuffer α) (sequence : Nat) (v : α) : SequenceBuffer α :=
  let index := b.sequence_index sequence
  { b with
    entrySequence := b.entrySequence.set index (some sequence)
    entries := b.entries.set index (some v) }

/-- `SequenceBuffer::insert_with`.  The producer `f` is invoked only on the
success paths, mirroring the `FnOnce` closure that runs only when the
insert is not refused. -/
def insert_with (b : SequenceBuffer α) (sequence : Nat) (f : Unit → α) :
    Bool × SequenceBuffer α :=
  if sequence_greater_than (wrapAdd sequence 1) b.sequence then
    let b' := b.remove_entries b.sequence sequence
    let b' := { b' with sequence := wrapAdd sequence 1 }
    (true, b'.place sequence (f ()))
  else if sequence_less_than sequence (wrapSub b.sequence b.capacity) then
    (false, b)
  else
    (true, b.place sequence (f ()))

/-- `SequenceBuffer::exists`. -/
def existsAt (b : SequenceBuffer α) (sequence : Nat) : Bool :=
  b.entrySequence.getD (b.sequence_index sequence) none == some sequence

/-- `SequenceBuffer::available`. -/
def available (b : SequenceBuffer α) (sequence : Nat) : Bool :=
  (b.entrySequence.getD (b.sequence_index sequence) none).isNone

/-- `SequenceBuffer::get`. -/
def get (b : SequenceBuffer α) (sequence : Nat) : Option α :=
  if b.existsAt sequence then b.entries.getD (b.sequence_index sequence) none
  else none

/-- `SequenceBuffer::take`. -/
def take (b : SequenceBuffer α) (sequence : Nat) : Option α × SequenceBuffer α :=
  if b.existsAt sequence then
    let index := b.sequence_index sequence
    (b.entries.getD index none,
     { b with
       entrySequence := b.entrySequence.set index none
       entries := b.entries.set index none })
  else
    (none, b)

end SequenceBuffer

/-! ## Configuration (src/config.rs) -/

/-- src/config.rs `ChannelType`. -/
inductive ChannelType where
  | ReliableOrdered
  | UnreliableUnordered
deriving DecidableEq, Repr

/-- src/config.rs `ChannelConfig`.  The two `f64` resend times are modelled
as integers (they are only compared with the channel time). -/
structure ChannelConfig where
  kind : ChannelType
  sent_packet_buffer_size : Nat
  message_send_queue_size : Nat
  message_receive_queue_size : Nat
  max_messages_per_packet : Nat
  packet_budget : Option Nat
  message_resend_time : Int
  block_fragment_resend_time : Int
deriving DecidableEq, Repr

/-- src/config.rs `ChannelConfig::new`. -/
def ChannelConfig.new (kind : ChannelType) : ChannelConfig :=
  { kind := kind
    sent_packet_buffer_size := 1024
    message_send_queue_size := 1024
    message_receive_queue_size := 1024
    max_messages_per_packet := 256
    packet_budget := none
    message_resend_time := 1
    block_fragment_resend_time := 1 }

/-- src/config.rs `ConnectionConfig`. -/
structure ConnectionConfig where
  max_packet_size : Nat
  channels : List ChannelConfig
deriving DecidableEq, Repr

/-! ## Byte-stream primitives

The Rust code writes through a `Cursor` with `byteorder`'s little-endian
writers; every write failure or `try_into` failure is unwrapped (a panic).
Serialization is modelled as emission of a byte list; the enclosing
buffer-capacity check happens where the cursor lives
(`Connection::generate_packet`). -/

/-- Little-endian u16 emission (`write_u16::<LittleEndian>`). -/
def writeU16LE (x : Nat) : List Nat := [x % 256, x / 256 % 256]

/-- `read_u8().unwrap()`: panics (none) at end of stream. -/
def readU8 : List Nat → Option (Nat × List Nat)
  | [] => none
  | b :: rest => some (b, rest)

/-- `read_u16::<LittleEndian>().unwrap()`. -/
def readU16LE : List Nat → Option (Nat × List Nat)
  | b0 :: b1 :: rest => some (b0 % 256 + 256 * (b1 % 256), rest)
  | _ => none

/-- `usize::try_into::<u16>().unwrap()`. -/
def u16TryInto (x : Nat) : Option Nat := if x ≤ 65535 then some x else none

/-- `usize::try_into::<u8>().unwrap()`. -/
def u8TryInto (x : Nat) : Option Nat := if x ≤ 255 then some x else none

/-- Rust `usize::MAX`. -/
def USIZE_MAX : Nat := 18446744073709551615

/-! ## ChannelPacketData codec (src/channel/channel_packet_data.rs) -/

/-- src/channel/channel_packet_data.rs `ChannelPacketData`: one channel's
contribution to a packet, a list of `(message_id, message)` pairs. -/
structure ChannelPacketData (α : Type) where
  channel_index : Nat
  messages : List (Nat × α)
deriving DecidableEq, Repr

/-- `ChannelPacketData::empty` (note `channel_index = usize::MAX`). -/
def ChannelPacketData.empty (α : Type) : ChannelPacketData α :=
  { channel_index := USIZE_MAX, messages := [] }

/-- `ChannelPacketData::serialize_unordered` (serialize-check feature off):
just the concatenated user-serialized message bodies. -/
def ChannelPacketData.serialize_unordered (ser : α → List Nat)
    (d : ChannelPacketData α) : List Nat :=
  (d.messages.map fun p => ser p.2).flatten

/-- `ChannelPacketData::serialize_ordered`: the message ids (u16 LE each),
then the message bodies. -/
def ChannelPacketData.serialize_ordered (ser : α → List Nat)
    (d : ChannelPacketData α) : List Nat :=
  (d.messages.map fun p => writeU16LE p.1).flatten ++
    (d.messages.map fun p => ser p.2).flatten

/-- `ChannelPacketData::serialize`.  `none` models the panics: channel index
not a u16, `config.channels[...]` out of bounds, the message-count assert,
or a count that does not fit a byte. -/
def ChannelPacketData.serialize (config : ConnectionConfig) (ser : α → List Nat)
    (d : ChannelPacketData α) : Option (List Nat) := do
  let idx ← u16TryInto d.channel_index
  let cfg ← config.channels.get? d.channel_index
  if d.messages.isEmpty then
    return writeU16LE idx ++ [0]
  if ¬ d.messages.length ≤ cfg.max_messages_per_packet then
    none
  else do
    let cnt ← u8TryInto (d.messages.length - 1)
    let body :=
      match cfg.kind with
      | ChannelType.UnreliableUnordered => d.serialize_unordered ser
      | ChannelType.ReliableOrdered => d.serialize_ordered ser
    return writeU16LE idx ++ [1, cnt] ++ body

/-- Read `count` user messages (`ChannelPacketData::deserialize_unordered`
body); the deserializer `des` consumes bytes and may fail. -/
def readMessages (des : List Nat → Option (α × List Nat)) :
    Nat → List Nat → Option (List α × List Nat)
  | 0, src => some ([], src)
  | count + 1, src => do
    let (m, src) ← des src
    let (ms, src) ← readMessages des count src
    return (m :: ms, src)

/-- Read `count` u16 message ids (`ChannelPacketData::deserialize_ordered`,
first loop). -/
def readU16List : Nat → List Nat → Option (List Nat × List Nat)
  | 0, src => some ([], src)
  | count + 1, src => do
    let (id, src) ← readU16LE src
    let (ids, src) ← readU16List count src
    return (id :: ids, src)

/-- `ChannelPacketData::deserialize` (serialize-check feature off).
For unreliable channels every decoded message id is set to 0 (the
processor later replaces it by the packet sequence); for reliable channels
the ids are decoded from the stream.  The no-messages path returns
`ChannelPacketData::empty()` (whose channel index is `usize::MAX`, not the
decoded one), exactly as the source does. -/
def ChannelPacketData.deserialize (config : ConnectionConfig)
    (des : List Nat → Option (α × List Nat)) (src : List Nat) :
    Option (ChannelPacketData α × List Nat) := do
  let (ci, src) ← readU16LE src
  let cfg ← config.channels.get? ci
  let (hasByte, src) ← readU8 src
  if hasByte ≠ 1 then
    return (ChannelPacketData.empty α, src)
  let (cntM1, src) ← readU8 src
  let message_count := 1 + cntM1
  if ¬ message_count ≤ cfg.max_messages_per_packet then
    none
  else
    match cfg.kind with
    | ChannelType.UnreliableUnordered => do
      let (ms, src) ← readMessages des message_count src
      return ({ channel_index := ci, messages := ms.map fun m => (0, m) }, src)
    | ChannelType.ReliableOrdered => do
      let (ids, src) ← readU16List message_count src
      let (ms, src) ← readMessages des message_count src
      return ({ channel_index := ci, messages := ids.zip ms }, src)

/-! ## Unreliable channel processor (src/channel/unreliable.rs) -/

/-- src/channel/unreliable.rs `Unreliable`.  The two `VecDeque`s are lists
(front at the head).  Their capacities are computed at `new` from the
configured byte sizes divided by `size_of::<M>()` — a memory-layout
quantity — so they are carried as abstract fields here. -/
structure Unreliable (α : Type) where
  message_send_queue : List α
  message_receive_queue : List (Nat × α)
  send_capacity : Nat
  receive_capacity : Nat
deriving DecidableEq, Repr

/-- `Unreliable::has_messages_to_send` — note the source returns
`is_empty()` (true when the queue is empty). -/
def Unreliable.has_messages_to_send (u : Unreliable α) : Bool :=
  u.message_send_queue.isEmpty

/-- `Unreliable::can_send_message`. -/
def Unreliable.can_send_message (u : Unreliable α) : Bool :=
  u.message_send_queue.length < u.send_capacity

/-- `Unreliable::send_message` (`push_back`). -/
def Unreliable.send_message (u : Unreliable α) (message : α) : Unreliable α :=
  { u with message_send_queue := u.message_send_queue ++ [message] }

/-- `Unreliable::receive_message` (`pop_front`). -/
def Unreliable.receive_message (u : Unreliable α) :
    Option (Nat × α) × Unreliable α :=
  match u.message_send_queue, u.message_receive_queue with
  | _, [] => (none, u)
  | _, m :: rest => (some m, { u with message_receive_queue := rest })

/-- The pop-and-pack loop of `Unreliable::packet_data`.  Each iteration
pops the front message first; the give-up / max-messages breaks then
discard the popped message, and a message whose measured size exceeds the
remaining budget is discarded by the `continue`.  (The source's
`assert!(used_bits <= available_bits)` after an accepted message cannot
fire: acceptance is guarded by `used + bits <= available`.)  Returns the
packed `(packet_sequence, message)` pairs, the used bits, and the
remaining send queue. -/
def unreliablePackLoop (ser : α → List Nat) (max_messages_per_packet : Nat)
    (packet_sequence available_bits : Nat) :
    List α → Nat → List (Nat × α) → List (Nat × α) × Nat × List α
  | [], used, acc => (acc, used, [])
  | m :: rest, used, acc =>
    if available_bits - used < 32 then (acc, used, rest)
    else if acc.length == max_messages_per_packet then (acc, used, rest)
    else
      let message_bits := 8 * (ser m).length
      if used + message_bits > available_bits then
        unreliablePackLoop ser max_messages_per_packet packet_sequence available_bits
          rest used acc
      else
        unreliablePackLoop ser max_messages_per_packet packet_sequence available_bits
          rest (used + message_bits) (acc ++ [(packet_sequence, m)])

/-- `Unreliable::packet_data`.  `CONSERVATIVE_MESSAGE_HEADER_BITS = 32`
starts the bit count; the optional `packet_budget` caps the available
bits. -/
def Unreliable.packet_data (ser : α → List Nat) (u : Unreliable α)
    (config : ChannelConfig) (channel_index packet_sequence available_bits0 : Nat) :
    ChannelPacketData α × Nat × Unreliable α :=
  if u.message_send_queue.isEmpty then (ChannelPacketData.empty α, 0, u)
  else
    let available_bits :=
      match config.packet_budget with
      | some packet_budget => min (packet_budget * 8) available_bits0
      | none => available_bits0
    let (messages, used_bits, rest) :=
      unreliablePackLoop ser config.max_messages_per_packet packet_sequence
        available_bits u.message_send_queue 32 []
    let u' := { u with message_send_queue := rest }
    if messages.isEmpty then (ChannelPacketData.empty α, 0, u')
    else ({ channel_index := channel_index, messages := messages }, used_bits, u')

/-- `Unreliable::process_packet_data`: append each message to the receive
queue tagged with the packet sequence, dropping when full. -/
def Unreliable.process_packet_data (u : Unreliable α)
    (packet_data : ChannelPacketData α) (packet_sequence : Nat) : Unreliable α :=
  packet_data.messages.foldl
    (fun acc p =>
      if acc.message_receive_queue.length < acc.receive_capacity then
        { acc with message_receive_queue := acc.message_receive_queue ++ [(packet_sequence, p.2)] }
      else acc)
    u

/-! ## Reliable channel processor (src/channel/reliable.rs) -/

/-- `MessageSendQueueEntry`. -/
structure MessageSendQueueEntry (α : Type) where
  message_id : Nat
  message : α
  time_last_sent : Int
  measured_bits : Nat
deriving DecidableEq, Repr

/-- `MessageReceiveQueueEntry`. -/
structure MessageReceiveQueueEntry (α : Type) where
  message_id : Nat
  message : α
deriving DecidableEq, Repr

/-- `SentPacketEntry`; `message_ids` is the `(start index, run length)`
reference into the flat `sent_packet_message_ids` buffer. -/
structure SentPacketEntry where
  time_sent : Int
  message_ids : Nat × Nat
  acked : Bool
deriving DecidableEq, Repr

/-- src/channel/reliable.rs `Reliable`. -/
structure Reliable (α : Type) where
  time : Int
  config : ChannelConfig
  send_message_id : Nat
  receive_message_id : Nat
  oldest_unacked_message_id : Nat
  sent_packet_message_ids : List Nat
  sent_packets : SequenceBuffer SentPacketEntry
  message_send_queue : SequenceBuffer (MessageSendQueueEntry α)
  message_receive_queue : SequenceBuffer (MessageReceiveQueueEntry α)
deriving DecidableEq, Repr

/-- `Reliable::new`. -/
def Reliable.new (α : Type) (config : ChannelConfig) (time : Int) : Reliable α :=
  { time := time
    config := config
    send_message_id := 0
    receive_message_id := 0
    oldest_unacked_message_id := 0
    sent_packet_message_ids :=
      List.replicate (config.max_messages_per_packet * config.sent_packet_buffer_size) 0
    sent_packets := SequenceBuffer.new _ config.sent_packet_buffer_size
    message_send_queue := SequenceBuffer.new _ config.message_send_queue_size
    message_receive_queue := SequenceBuffer.new _ config.message_receive_queue_size }

/-- `Reliable::has_messages_to_send`. -/
def Reliable.has_messages_to_send (s : Reliable α) : Bool :=
  s.oldest_unacked_message_id != s.send_message_id

/-- `Reliable::can_send_message`. -/
def Reliable.can_send_message (s : Reliable α) : Bool :=
  s.message_send_queue.available s.send_message_id

/-- `Reliable::send_message`.  `none` models the two asserts
(`can_send_message` and the insert result). -/
def Reliable.send_message (ser : α → List Nat) (s : Reliable α) (message : α) :
    Option (Reliable α) :=
  if ¬ s.can_send_message then none
  else
    let measured_bits := 8 * (ser message).length
    let (ok, q') := s.message_send_queue.insert_with s.send_message_id fun _ =>
      { message_id := s.send_message_id
        message := message
        measured_bits := measured_bits
        time_last_sent := -1 }
    if ok then
      some { s with
        message_send_queue := q'
        send_message_id := wrapAdd s.send_message_id 1 }
    else none

/-- `Reliable::receive_message`.  The outer `Option` is the
`assert_eq!(entry.message_id, receive_message_id)` panic; the inner one is
the no-message-ready result. -/
def Reliable.receive_message (s : Reliable α) :
    Option (Option (Nat × α) × Reliable α) :=
  let (entry, q') := s.message_receive_queue.take s.receive_message_id
  match entry with
  | none => some (none, s)
  | some entry =>
    if entry.message_id ≠ s.receive_message_id then none
    else
      some (some (entry.message_id, entry.message),
        { s with
          message_receive_queue := q'
          receive_message_id := wrapAdd s.receive_message_id 1 })

/-- `entry.time_last_sent = now` through `get_mut` (used by
`get_messages_to_send`). -/
def touchTimeLastSent (q : SequenceBuffer (MessageSendQueueEntry α))
    (sequence : Nat) (now : Int) : SequenceBuffer (MessageSendQueueEntry α) :=
  if q.existsAt sequence then
    let index := q.sequence_index sequence
    let entry' := (q.entries.getD index none).map fun e => { e with time_last_sent := now }
    { q with entries := q.entries.set index entry' }
  else q

/-- The scan loop of `Reliable::get_messages_to_send`.  `i` is the loop
variable, `count` the remaining iterations (initially
`min(send capacity, receive capacity)`).  The budget comparison
`available_bits - used_bits` is a release-build `usize` subtraction and
may wrap (`wrapSub64`).  The max-messages check sits at the tail of every
iteration that did not `continue`, as in the source. -/
def gmtsLoop (resend_time : Int) (now : Int) (send_capacity max_messages_per_packet : Nat)
    (oldest available_bits : Nat) :
    Nat → Nat → SequenceBuffer (MessageSendQueueEntry α) → List Nat → Nat → Nat →
    List Nat × Nat × SequenceBuffer (MessageSendQueueEntry α)
  | _, 0, q, ids, used, _ => (ids, used, q)
  | i, count + 1, q, ids, used, giveUp =>
    if wrapSub64 available_bits used < 32 then (ids, used, q)
    else if giveUp > send_capacity then (ids, used, q)
    else
      let message_id := wrapAdd oldest i
      match q.get message_id with
      | none =>
        gmtsLoop resend_time now send_capacity max_messages_per_packet oldest
          available_bits (i + 1) count q ids used giveUp
      | some entry =>
        if entry.time_last_sent + resend_time ≤ now ∧ available_bits ≥ entry.measured_bits then
          let message_bits := entry.measured_bits + 16
          if used + message_bits > available_bits then
            gmtsLoop resend_time now send_capacity max_messages_per_packet oldest
              available_bits (i + 1) count q ids used (giveUp + 1)
          else
            let q' := touchTimeLastSent q message_id now
            let ids' := ids ++ [message_id]
            let used' := used + message_bits
            if ids'.length ≥ max_messages_per_packet then (ids', used', q')
            else
              gmtsLoop resend_time now send_capacity max_messages_per_packet oldest
                available_bits (i + 1) count q' ids' used' giveUp
        else
          if ids.length ≥ max_messages_per_packet then (ids, used, q)
          else
            gmtsLoop resend_time now send_capacity max_messages_per_packet oldest
              available_bits (i + 1) count q ids used giveUp

/-- `Reliable::get_messages_to_send`.  `none` is the entry assert
(`has_messages_to_send`).  Starts at
`used_bits = CONSERVATIVE_MESSAGE_HEADER_BITS = 32`. -/
def Reliable.get_messages_to_send (s : Reliable α) (available_bits0 : Nat) :
    Option ((List Nat × Nat) × Reliable α) :=
  if ¬ s.has_messages_to_send then none
  else
    let available_bits :=
      match s.config.packet_budget with
      | some packet_budget => min (packet_budget * 8) available_bits0
      | none => available_bits0
    let message_limit :=
      min s.message_receive_queue.capacity s.message_send_queue.capacity
    let (ids, used, q') :=
      gmtsLoop s.config.message_resend_time s.time s.message_send_queue.capacity
        s.config.max_messages_per_packet s.oldest_unacked_message_id available_bits
        0 message_limit s.message_send_queue [] 32 0
    some ((ids, used), { s with message_send_queue := q' })

/-- `Reliable::get_message_packet_data`: clone each listed message out of
the send queue (`none` models the `.unwrap()` on a missing id). -/
def Reliable.get_message_packet_data (s : Reliable α) (channel_index : Nat)
    (message_ids : List Nat) : Option (ChannelPacketData α) := do
  let messages ← message_ids.mapM fun id =>
    (s.message_send_queue.get id).map fun e => (id, e.message)
  return { channel_index := channel_index, messages := messages }

/-- Write `ids` into the flat buffer starting at `start` (the body of the
`insert_with` closure in `add_message_packet_entry`). -/
def writeIdsAt (l : List Nat) (start : Nat) : List Nat → List Nat
  | [] => l
  | id :: rest => writeIdsAt (l.set start id) (start + 1) rest

/-- `Reliable::add_message_packet_entry`.  The closure passed to
`insert_with` writes the flat id buffer; it runs exactly when the insert
succeeds, modelled by conditioning the write on the returned flag. -/
def Reliable.add_message_packet_entry (s : Reliable α) (message_ids : List Nat)
    (packet_sequence : Nat) : Reliable α :=
  let message_ids_index :=
    (packet_sequence % s.config.sent_packet_buffer_size) * s.config.max_messages_per_packet
  let (ok, sp') := s.sent_packets.insert_with packet_sequence fun _ =>
    { acked := false
      time_sent := s.time
      message_ids := (message_ids_index, message_ids.length) }
  { s with
    sent_packets := sp'
    sent_packet_message_ids :=
      if ok then writeIdsAt s.sent_packet_message_ids message_ids_index message_ids
      else s.sent_packet_message_ids }

/-- `Reliable::packet_data` (`Processor` impl).  `none` propagates the
`get_message_packet_data` unwrap panic. -/
def Reliable.packet_data (s : Reliable α) (channel_index packet_sequence available_bits : Nat) :
    Option (ChannelPacketData α × Nat × Reliable α) :=
  if ¬ s.has_messages_to_send then some (ChannelPacketData.empty α, 0, s)
  else
    match s.get_messages_to_send available_bits with
    | none => none
    | some ((message_ids, message_bits), s') =>
      if message_ids.isEmpty then some (ChannelPacketData.empty α, 0, s')
      else
        match s'.get_message_packet_data channel_index message_ids with
        | none => none
        | some packet_data =>
          some (packet_data, message_bits, s'.add_message_packet_entry message_ids packet_sequence)

/-- The per-message loop of `Reliable::process_packet_data`.  `none`
models the two `panic!` calls: an id beyond the receive window
("TODO: return a desync error (1)") and a refused receive-queue insert
("TODO: return a desync error (2)"). -/
def rppLoop (minId maxId : Nat) :
    SequenceBuffer (MessageReceiveQueueEntry α) → List (Nat × α) →
    Option (SequenceBuffer (MessageReceiveQueueEntry α))
  | q, [] => some q
  | q, (id, message) :: rest =>
    if sequence_less_than id minId then rppLoop minId maxId q rest
    else if sequence_greater_than id maxId then none
    else
      let (ok, q') := q.insert_with id fun _ => { message_id := id, message := message }
      if ok then rppLoop minId maxId q' rest else none

/-- `Reliable::process_packet_data`.  `max_message_id` is
`receive_message_id + (capacity - 1)` where the `usize` subtraction wraps
in release and is then cast to u16. -/
def Reliable.process_packet_data (s : Reliable α) (packet_data : ChannelPacketData α)
    (_packet_sequence : Nat) : Option (Reliable α) :=
  let min_message_id := s.receive_message_id
  let max_message_id :=
    wrapAdd s.receive_message_id (wrapSub64 s.message_receive_queue.capacity 1 % 65536)
  (rppLoop min_message_id max_message_id s.message_receive_queue packet_data.messages).map
    fun q' => { s with message_receive_queue := q' }

/-- `update_oldest_unacked_message_id` (free function in reliable.rs).
The source loop always terminates within one wrap of the id space; `fuel`
is 65536 at the call site, enough to reach `stop_message_id`. -/
def update_oldest_unacked_message_id (q : SequenceBuffer (MessageSendQueueEntry α)) :
    Nat → Nat → Nat
  | 0, oldest => oldest
  | fuel + 1, oldest =>
    if oldest == q.sequence || q.existsAt oldest then oldest
    else update_oldest_unacked_message_id q fuel (wrapAdd oldest 1)

/-- The per-id loop of `Reliable::process_ack`: take each acked id out of
the send queue and advance `oldest_unacked_message_id` after each
successful take.  `none` models the `assert_eq!(entry.message_id, id)`
panic and the trailing
`assert!(!sequence_greater_than(oldest, stop))` of
`update_oldest_unacked_message_id`. -/
def ackLoop : SequenceBuffer (MessageSendQueueEntry α) → Nat → List Nat →
    Option (SequenceBuffer (MessageSendQueueEntry α) × Nat)
  | q, oldest, [] => some (q, oldest)
  | q, oldest, message_id :: rest =>
    let (taken, q') := q.take message_id
    match taken with
    | none => ackLoop q oldest rest
    | some entry =>
      if entry.message_id ≠ message_id then none
      else
        let oldest' := update_oldest_unacked_message_id q' 65536 oldest
        if sequence_greater_than oldest' q'.sequence then none
        else ackLoop q' oldest' rest

/-- Mark a sent-packet entry acked through `get_mut`. -/
def markAcked (sp : SequenceBuffer SentPacketEntry) (sequence : Nat) :
    SequenceBuffer SentPacketEntry :=
  if sp.existsAt sequence then
    let index := sp.sequence_index sequence
    let entry' := (sp.entries.getD index none).map fun e => { e with acked := true }
    { sp with entries := sp.entries.set index entry' }
  else sp

/-- `Reliable::process_ack`.  `none` models the `assert!(!entry.acked)`
panic, a slice out of range on the flat id buffer, and the panics of
`ackLoop`. -/
def Reliable.process_ack (s : Reliable α) (ack : Nat) : Option (Reliable α) :=
  match s.sent_packets.get ack with
  | none => some s
  | some entry =>
    if entry.acked then none
    else
      let sp' := markAcked s.sent_packets ack
      let (first_message, message_count) := entry.message_ids
      if s.sent_packet_message_ids.length < first_message + message_count then none
      else
        let ids := (s.sent_packet_message_ids.drop first_message).take message_count
        match ackLoop s.message_send_queue s.oldest_unacked_message_id ids with
        | none => none
        | some (q', oldest') =>
          some { s with
            sent_packets := sp'
            message_send_queue := q'
            oldest_unacked_message_id := oldest' }

/-- `Reliable::advance_time`. -/
def Reliable.advance_time (s : Reliable α) (new_time : Int) : Reliable α :=
  { s with time := new_time }

/-! ## Channel wrapper (src/channel.rs) -/

/-- src/channel.rs `ChannelErrorLevel`. -/
inductive ChannelErrorLevel where
  | None
  | Desync
  | SendQueueFull
  | BlocksDisabled
  | FailedToSerialize
  | OutOfMemory
deriving DecidableEq, Repr

/-- The channel processor: either the reliable or the unreliable
implementation of the `Processor` trait (src/channel/processor.rs).  The
`Channel` in src/channel.rs wires in only the unreliable processor (its
constructor is `unimplemented!` for reliable channels); the dispatch over
both processors is the composition the connection layer
(src/connection.rs) relies on. -/
inductive Proc (α : Type) where
  | reliable : Reliable α → Proc α
  | unreliable : Unreliable α → Proc α
deriving DecidableEq, Repr

/-- src/channel.rs `Channel`. -/
structure Channel (α : Type) where
  config : ChannelConfig
  channel_index : Nat
  error_level : ChannelErrorLevel
  processor : Proc α
deriving DecidableEq, Repr

/-- Processor dispatch for `can_send_message`. -/
def Channel.can_send_message (ch : Channel α) : Bool :=
  match ch.processor with
  | Proc.reliable s => s.can_send_message
  | Proc.unreliable u => u.can_send_message

/-- Processor dispatch for `has_messages_to_send`. -/
def Channel.has_messages_to_send (ch : Channel α) : Bool :=
  match ch.processor with
  | Proc.reliable s => s.has_messages_to_send
  | Proc.unreliable u => u.has_messages_to_send

/-- `Channel::send_message` (src/channel.rs lines 111-124): refuse when the
channel is in error; transition to `SendQueueFull` (without enqueueing)
when `can_send_message` is false; otherwise forward to the processor.
`none` models a processor panic (unreachable through this guard). -/
def Channel.send_message (ser : α → List Nat) (ch : Channel α) (message : α) :
    Option (Channel α) :=
  if ch.error_level ≠ ChannelErrorLevel.None then some ch
  else if ¬ ch.can_send_message then
    some { ch with error_level := ChannelErrorLevel.SendQueueFull }
  else
    match ch.processor with
    | Proc.reliable s =>
      (s.send_message ser message).map fun s' => { ch with processor := Proc.reliable s' }
    | Proc.unreliable u =>
      some { ch with processor := Proc.unreliable (u.send_message message) }

/-- `Channel::receive_message`: `None` when the channel is in error, else
the processor result.  The outer `Option` is a processor panic. -/
def Channel.receive_message (ch : Channel α) :
    Option (Option (Nat × α) × Channel α) :=
  if ch.error_level ≠ ChannelErrorLevel.None then some (none, ch)
  else
    match ch.processor with
    | Proc.reliable s =>
      (s.receive_message).map fun (r, s') => (r, { ch with processor := Proc.reliable s' })
    | Proc.unreliable u =>
      let (r, u') := u.receive_message
      some (r, { ch with processor := Proc.unreliable u' })

/-- `Channel::packet_data`: forward to the processor with the channel's
config and index. -/
def Channel.packet_data (ser : α → List Nat) (ch : Channel α)
    (packet_sequence available_bits : Nat) :
    Option (ChannelPacketData α × Nat × Channel α) :=
  match ch.processor with
  | Proc.reliable s =>
    (s.packet_data ch.channel_index packet_sequence available_bits).map
      fun (pd, bits, s') => (pd, bits, { ch with processor := Proc.reliable s' })
  | Proc.unreliable u =>
    let (pd, bits, u') :=
      u.packet_data ser ch.config ch.channel_index packet_sequence available_bits
    some (pd, bits, { ch with processor := Proc.unreliable u' })

/-- `Channel::process_packet_data`: ignore when in error, else forward.
`none` models a processor panic. -/
def Channel.process_packet_data (ch : Channel α) (packet_data : ChannelPacketData α)
    (packet_sequence : Nat) : Option (Channel α) :=
  if ch.error_level ≠ ChannelErrorLevel.None then some ch
  else
    match ch.processor with
    | Proc.reliable s =>
      (s.process_packet_data packet_data packet_sequence).map
        fun s' => { ch with processor := Proc.reliable s' }
    | Proc.unreliable u =>
      some { ch with processor := Proc.unreliable (u.process_packet_data packet_data packet_sequence) }

/-- `Channel::process_ack`.  src/channel.rs leaves this wrapper as a
`TODO` no-op (only the unreliable processor is wired there); the dispatch
to `Reliable::process_ack` follows spec section 4.5 ("forward acks to
every channel") and the `Processor` implementation in
src/channel/reliable.rs. -/
def Channel.process_ack (ch : Channel α) (packet_sequence : Nat) : Option (Channel α) :=
  match ch.processor with
  | Proc.reliable s =>
    (s.process_ack packet_sequence).map fun s' => { ch with processor := Proc.reliable s' }
  | Proc.unreliable _ => some ch

/-- `Channel::advance_time`. -/
def Channel.advance_time (ch : Channel α) (time : Int) : Channel α :=
  match ch.processor with
  | Proc.reliable s => { ch with processor := Proc.reliable (s.advance_time time) }
  | Proc.unreliable u => { ch with processor := Proc.unreliable u }

/-! ## Connection (src/connection.rs) -/

/-- src/connection.rs `ConnectionErrorLevel`. -/
inductive ConnectionErrorLevel where
  | None
  | Channel
  | ReadPacketFailed
deriving DecidableEq, Repr

/-- src/connection.rs `Connection`. -/
structure Connection (α : Type) where
  config : ConnectionConfig
  channels : List (Channel α)
  error_level : ConnectionErrorLevel
deriving DecidableEq, Repr

/-- `ConnectionPacket::serialize`: u16 channel count followed by each
channel's data.  (The source's `assert!(position < 16)` compares the
2-byte position against the header-bit constant and always holds.)
Returns the emitted bytes; the caller checks them against the buffer. -/
def ConnectionPacket.serialize (config : ConnectionConfig) (ser : α → List Nat)
    (channel_data : List (ChannelPacketData α)) : Option (List Nat) :=
  if ¬ channel_data.length < 65535 then none
  else if channel_data.isEmpty then some (writeU16LE channel_data.length)
  else
    (channel_data.mapM (ChannelPacketData.serialize config ser)).map
      fun bodies => writeU16LE channel_data.length ++ bodies.flatten

/-- Read `count` `ChannelPacketData` entries
(`ConnectionPacket::deserialize` loop). -/
def readChannelData (config : ConnectionConfig)
    (des : List Nat → Option (α × List Nat)) :
    Nat → List Nat → Option (List (ChannelPacketData α))
  | 0, _ => some []
  | count + 1, src => do
    let (d, src) ← ChannelPacketData.deserialize config des src
    let ds ← readChannelData config des count src
    return d :: ds

/-- `ConnectionPacket::deserialize`. -/
def ConnectionPacket.deserialize (config : ConnectionConfig)
    (des : List Nat → Option (α × List Nat)) (bytes : List Nat) :
    Option (List (ChannelPacketData α)) := do
  let (channels, src) ← readU16LE bytes
  readChannelData config des channels src

/-- The channel loop of `Connection::generate_packet`: ask each channel
for its packet data, and when it contributed subtract
`CONSERVATIVE_CHANNEL_HEADER_BITS (32)` and the reported bits from the
running budget — both release-build `usize` subtractions that wrap. -/
def generateLoop (ser : α → List Nat) (packet_sequence : Nat) :
    List (Channel α) → Nat → List (ChannelPacketData α) →
    Option (List (Channel α) × List (ChannelPacketData α))
  | [], _, acc => some ([], acc)
  | ch :: rest, available_bits, acc => do
    let (pd, bits, ch') ← ch.packet_data ser packet_sequence available_bits
    let available_bits' :=
      if bits > 0 then wrapSub64 (wrapSub64 available_bits 32) bits else available_bits
    let acc' := if bits > 0 then acc ++ [pd] else acc
    let (rest', acc'') ← generateLoop ser packet_sequence rest available_bits' acc'
    return (ch' :: rest', acc'')

/-- `Connection::generate_packet` into a buffer of `buf_len` bytes.
`none` models a panic: the empty-buffer assert, a processor panic, or a
cursor write running past the end of the buffer (every write is
`unwrap`ed).  On success returns the number of bytes written and the
updated connection. -/
def Connection.generate_packet (ser : α → List Nat) (conn : Connection α)
    (packet_sequence buf_len : Nat) : Option (Nat × Connection α) :=
  if conn.channels.isEmpty then some (0, conn)
  else if buf_len == 0 then none
  else
    let available_bits := wrapSub64 (buf_len * 8) 16
    match generateLoop ser packet_sequence conn.channels available_bits [] with
    | none => none
    | some (channels', channel_data) =>
      let conn' := { conn with channels := channels' }
      if channel_data.isEmpty then some (0, conn')
      else
        match ConnectionPacket.serialize conn.config ser channel_data with
        | none => none
        | some bytes =>
          if bytes.length > buf_len then none
          else some (bytes.length, conn')

/-- The entry loop of `Connection::process_packet`.  The guard is the
source's `channel_index > self.channels.len()` (note: `>`, not `>=`);
an index equal to the channel count passes the guard and the subsequent
`self.channels[...]` indexing panics (`none`). -/
def processEntries (packet_sequence : Nat) :
    List (Channel α) → List (ChannelPacketData α) →
    Option (Bool × List (Channel α))
  | channels, [] => some (true, channels)
  | channels, entry :: rest =>
    if entry.channel_index > channels.length then
      processEntries packet_sequence channels rest
    else
      match channels.get? entry.channel_index with
      | none => none
      | some ch =>
        match ch.process_packet_data entry packet_sequence with
        | none => none
        | some ch' =>
          let channels' := channels.set entry.channel_index ch'
          if ch'.error_level ≠ ChannelErrorLevel.None then some (false, channels')
          else processEntries packet_sequence channels' rest

/-- `Connection::process_packet`.  `none` models panics: the
`packet_bytes > 0` assert, the deserialize `expect`, and
out-of-bounds channel indexing in the entry loop. -/
def Connection.process_packet (des : List Nat → Option (α × List Nat))
    (conn : Connection α) (packet_sequence : Nat) (bytes : List Nat) :
    Option (Bool × Connection α) :=
  if conn.error_level ≠ ConnectionErrorLevel.None then some (false, conn)
  else if bytes.isEmpty then none
  else
    match ConnectionPacket.deserialize conn.config des bytes with
    | none => none
    | some entries =>
      (processEntries packet_sequence conn.channels entries).map
        fun (ok, channels') => (ok, { conn with channels := channels' })

/-- `Connection::has_messages_to_send` (`self.channels[channel]` panics
out of range, hence the `Option`). -/
def Connection.has_messages_to_send (conn : Connection α) (channel : Nat) :
    Option Bool :=
  (conn.channels.get? channel).map Channel.has_messages_to_send

/-- `Client::has_messages_to_send` (src/client.rs): map over the optional
connection, defaulting to `false` when there is none. -/
def Client.has_messages_to_send (connection : Option (Connection α)) (channel : Nat) :
    Option Bool :=
  match connection with
  | none => some false
  | some c => c.has_messages_to_send channel

/-! ## Single-channel execution semantics (for the reliable ordering claim)

An execution drives one reliable-ordered channel on the sender and one on
the receiver.  Packets produced by the sender's `packet_data` are kept in
a pool; a deliver event feeds any pool element (so packets may be lost,
duplicated, and reordered arbitrarily), an ack event feeds the sender's
`process_ack`.  `sent` records every message passed to `send_message`;
`delivered` records every message returned by `receive_message`.  Any
modelled panic halts the execution (`halted` absorbs all later events). -/

structure Exec (α : Type) where
  sender : Channel α
  receiver : Channel α
  pool : List (ChannelPacketData α)
  sent : List α
  delivered : List α
  halted : Bool
deriving DecidableEq, Repr

/-- Execution events. -/
inductive Ev (α : Type) where
  | send (m : α)
  | gen (bits seq : Nat)
  | deliver (i seq : Nat)
  | ack (seq : Nat)
  | recv
  | time (ts tr : Int)
deriving DecidableEq, Repr

/-- A fresh reliable-ordered channel (the `Channel` around
`Reliable::new`; src/channel.rs constructs only unreliable processors, so
the reliable wiring follows the spec's channel creation and
src/channel/reliable.rs `Reliable::new`). -/
def Channel.newReliable (α : Type) (config : ChannelConfig) (time : Int) : Channel α :=
  { config := config
    channel_index := 0
    error_level := ChannelErrorLevel.None
    processor := Proc.reliable (Reliable.new α config time) }

/-- Initial execution state. -/
def Exec.init (α : Type) (config : ChannelConfig) (t0 : Int) : Exec α :=
  { sender := Channel.newReliable α config t0
    receiver := Channel.newReliable α config t0
    pool := []
    sent := []
    delivered := []
    halted := false }

/-- One execution step. -/
def Exec.step (ser : α → List Nat) (st : Exec α) (ev : Ev α) : Exec α :=
  if st.halted then st
  else
    match ev with
    | Ev.send m =>
      match st.sender.send_message ser m with
      | none => { st with sent := st.sent ++ [m], halted := true }
      | some ch' => { st with sender := ch', sent := st.sent ++ [m] }
    | Ev.gen bits seq =>
      match st.sender.packet_data ser (seq % 65536) bits with
      | none => { st with halted := true }
      | some (pd, pdBits, ch') =>
        { st with
          sender := ch'
          pool := if pdBits > 0 then st.pool ++ [pd] else st.pool }
    | Ev.deliver i seq =>
      match st.pool.get? i with
      | none => st
      | some pd =>
        match st.receiver.process_packet_data pd (seq % 65536) with
        | none => { st with halted := true }
        | some ch' => { st with receiver := ch' }
    | Ev.ack seq =>
      match st.sender.process_ack (seq % 65536) with
      | none => { st with halted := true }
      | some ch' => { st with sender := ch' }
    | Ev.recv =>
      match st.receiver.receive_message with
      | none => { st with halted := true }
      | some (none, ch') => { st with receiver := ch' }
      | some (some (_, m), ch') =>
        { st with receiver := ch', delivered := st.delivered ++ [m] }
    | Ev.time ts tr =>
      { st with
        sender := st.sender.advance_time ts
        receiver := st.receiver.advance_time tr }

/-- Run an execution from the initial state. -/
def Exec.run (ser : α → List Nat) (config : ChannelConfig) (t0 : Int)
    (evs : List (Ev α)) : Exec α :=
  evs.foldl (Exec.step ser) (Exec.init α config t0)

/-- The number of send events in an event list. -/
def sendCount : List (Ev α) → Nat
  | [] => 0
  | Ev.send _ :: rest => sendCount rest + 1
  | _ :: rest => sendCount rest

/-! ## Invariants for the reliable-ordering claim -/

/-- Structural well-formedness of a sequence buffer: the two parallel
vectors have equal length (always true of buffers built by `new`). -/
def QWF (b : SequenceBuffer α) : Prop :=
  b.entrySequence.length = b.entries.length

/-- Send-queue invariant: every retrievable entry carries its own key as
`message_id` and the `k`-th message ever passed to `send_message`. -/
def SQInv (sent : List α) (q : SequenceBuffer (MessageSendQueueEntry α)) : Prop :=
  ∀ k e, q.get k = some e → e.message_id = k ∧ sent.get? k = some e.message

/-- Receive-queue invariant: every retrievable entry carries its own key
and the `k`-th sent message. -/
def RQInv (sent : List α) (q : SequenceBuffer (MessageReceiveQueueEntry α)) : Prop :=
  ∀ k e, q.get k = some e → e.message_id = k ∧ sent.get? k = some e.message

/-- Pool invariant: every pair of every generated packet pairs the id `k`
with the `k`-th sent message. -/
def PoolInv (sent : List α) (pool : List (ChannelPacketData α)) : Prop :=
  ∀ pd ∈ pool, ∀ p ∈ pd.messages, sent.get? p.1 = some p.2

/-- Sender-side invariant. -/
def SendSide (sent : List α) (err : ChannelErrorLevel) (s : Reliable α) : Prop :=
  (err = ChannelErrorLevel.None → s.send_message_id = sent.length) ∧
  QWF s.message_send_queue ∧ SQInv sent s.message_send_queue

/-- Receiver-side invariant. -/
def RecvSide (sent delivered : List α) (r : Reliable α) : Prop :=
  r.receive_message_id = delivered.length ∧
  QWF r.message_receive_queue ∧ RQInv sent r.message_receive_queue

/-- The reachable-state invariant of single-channel executions: the
delivered list is the prefix of the sent list of its own length, and (as
long as no panic halted the run) both processors are reliable and the
queue/pool invariants hold. -/
def C1Inv (st : Exec α) : Prop :=
  st.delivered = st.sent.take st.delivered.length ∧
  st.delivered.length ≤ st.sent.length ∧
  (st.halted = false →
    ∃ s r, st.sender.processor = Proc.reliable s ∧
      st.receiver.processor = Proc.reliable r ∧
      SendSide st.sent st.sender.error_level s ∧
      RecvSide st.sent st.delivered r ∧
      PoolInv st.sent st.pool)

/-! ## Fixtures: the wrap-aliasing execution (claim C1 counterexample)

A reliable channel with all capacities 1 and one message per packet.  Each
round sends one message, packs it, delivers the packet, receives it and
acks it; after 65536 rounds the receiver's `receive_message_id` has
wrapped to 0 and a duplicate of the very first packet (id 0) passes every
window check and is delivered a second time. -/

/-- Capacity-1 reliable channel configuration. -/
def cfgCE : ChannelConfig :=
  { kind := ChannelType.ReliableOrdered
    sent_packet_buffer_size := 1
    message_send_queue_size := 1
    message_receive_queue_size := 1
    max_messages_per_packet := 1
    packet_budget := none
    message_resend_time := 0
    block_fragment_resend_time := 0 }

/-- Messages are naturals; every message serializes to one byte. -/
def serCE : Nat → List Nat := fun _ => [0]

/-- The events of round `k`. -/
def roundCE (k : Nat) : List (Ev Nat) :=
  [Ev.send k, Ev.gen 10000 k, Ev.deliver k k, Ev.recv, Ev.ack k]

/-- The counterexample event list: 65536 complete rounds, then a duplicate
delivery of packet 0 followed by one receive. -/
def evsCE : List (Ev Nat) :=
  ((List.range 65536).map roundCE).flatten ++ [Ev.deliver 0 0, Ev.recv]

/-- The packet generated in round `i`. -/
def packetCE (i : Nat) : ChannelPacketData Nat :=
  { channel_index := 0, messages := [(i % 65536, i)] }

/-- A capacity-1 sequence buffer with no present entry and the given
cursor. -/
def emptyBuf1 (α : Type) (seq : Nat) : SequenceBuffer α :=
  { sequence := seq, entrySequence := [none], entries := [none] }

/-- Closed form of the execution state after `k` complete rounds. -/
def stateCE : Nat → Exec Nat
  | 0 => Exec.init Nat cfgCE 0
  | k + 1 =>
    { sender :=
        { config := cfgCE
          channel_index := 0
          error_level := ChannelErrorLevel.None
          processor := Proc.reliable
            { time := 0
              config := cfgCE
              send_message_id := (k + 1) % 65536
              receive_message_id := 0
              oldest_unacked_message_id := (k + 1) % 65536
              sent_packet_message_ids := [k % 65536]
              sent_packets :=
                { sequence := (k + 1) % 65536
                  entrySequence := [some (k % 65536)]
                  entries := [some { time_sent := 0, message_ids := (0, 1), acked := true }] }
              message_send_queue := emptyBuf1 _ ((k + 1) % 65536)
              message_receive_queue := emptyBuf1 _ 0 } }
      receiver :=
        { config := cfgCE
          channel_index := 0
          error_level := ChannelErrorLevel.None
          processor := Proc.reliable
            { time := 0
              config := cfgCE
              send_message_id := 0
              receive_message_id := (k + 1) % 65536
              oldest_unacked_message_id := 0
              sent_packet_message_ids := [0]
              sent_packets := emptyBuf1 _ 0
              message_send_queue := emptyBuf1 _ 0
              message_receive_queue := emptyBuf1 _ ((k + 1) % 65536) } }
      pool := (List.range (k + 1)).map packetCE
      sent := List.range (k + 1)
      delivered := List.range (k + 1)
      halted := false }

/-- Round start of counterexample round `j+1`: `stateCE (j+1)` with the
16-bit reductions carried out (all ids below the wrap). -/
def stRound (j : Nat) : Exec Nat :=
  { sender :=
      { config := cfgCE, channel_index := 0, error_level := ChannelErrorLevel.None,
        processor := Proc.reliable
          { time := 0, config := cfgCE, send_message_id := j + 1,
            receive_message_id := 0, oldest_unacked_message_id := j + 1,
            sent_packet_message_ids := [j],
            sent_packets :=
              { sequence := j + 1, entrySequence := [some j],
                entries := [some { time_sent := 0, message_ids := (0, 1), acked := true }] },
            message_send_queue := emptyBuf1 _ (j + 1),
            message_receive_queue := emptyBuf1 _ 0 } }
    receiver :=
      { config := cfgCE, channel_index := 0, error_level := ChannelErrorLevel.None,
        processor := Proc.reliable
          { time := 0, config := cfgCE, send_message_id := 0,
            receive_message_id := j + 1, oldest_unacked_message_id := 0,
            sent_packet_message_ids := [0],
            sent_packets := emptyBuf1 _ 0,
            message_send_queue := emptyBuf1 _ 0,
            message_receive_queue := emptyBuf1 _ (j + 1) } }
    pool := (List.range (j + 1)).map packetCE
    sent := List.range (j + 1)
    delivered := List.range (j + 1)
    halted := false }

/-- Counterexample round `j+1` after `send (j+1)`. -/
def stA (j : Nat) : Exec Nat :=
  { stRound j with
      sender :=
        { config := cfgCE, channel_index := 0, error_level := ChannelErrorLevel.None,
          processor := Proc.reliable
            { time := 0, config := cfgCE, send_message_id := (j + 1 + 1) % 65536,
              receive_message_id := 0, oldest_unacked_message_id := j + 1,
              sent_packet_message_ids := [j],
              sent_packets :=
                { sequence := j + 1, entrySequence := [some j],
                  entries := [some { time_sent := 0, message_ids := (0, 1), acked := true }] },
              message_send_queue :=
                { sequence := (j + 1 + 1) % 65536, entrySequence := [some (j + 1)],
                  entries := [some
                    { message_id := j + 1, message := j + 1,
                      measured_bits := 8, time_last_sent := -1 }] },
              message_receive_queue := emptyBuf1 _ 0 } }
      sent := List.range (j + 1) ++ [j + 1] }

/-- Counterexample round `j+1` after `gen`. -/
def stB (j : Nat) : Exec Nat :=
  { stA j with
      sender :=
        { config := cfgCE, channel_index := 0, error_level := ChannelErrorLevel.None,
          processor := Proc.reliable
            { time := 0, config := cfgCE, send_message_id := (j + 1 + 1) % 65536,
              receive_message_id := 0, oldest_unacked_message_id := j + 1,
              sent_packet_message_ids := [j + 1],
              sent_packets :=
                { sequence := (j + 1 + 1) % 65536, entrySequence := [some (j + 1)],
                  entries := [some { time_sent := 0, message_ids := (0, 1), acked := false }] },
              message_send_queue :=
                { sequence := (j + 1 + 1) % 65536, entrySequence := [some (j + 1)],
                  entries := [some
                    { message_id := j + 1, message := j + 1,
                      measured_bits := 8, time_last_sent := 0 }] },
              message_receive_queue := emptyBuf1 _ 0 } }
      pool := (List.range (j + 1)).map packetCE ++
        [{ channel_index := 0, messages := [(j + 1, j + 1)] }] }

/-- Counterexample round `j+1` after `deliver`. -/
def stC (j : Nat) : Exec Nat :=
  { stB j with
      receiver :=
        { config := cfgCE, channel_index := 0, error_level := ChannelErrorLevel.None,
          processor := Proc.reliable
            { time := 0, config := cfgCE, send_message_id := 0,
              receive_message_id := j + 1, oldest_unacked_message_id := 0,
              sent_packet_message_ids := [0],
              sent_packets := emptyBuf1 _ 0,
              message_send_queue := emptyBuf1 _ 0,
              message_receive_queue :=
                { sequence := (j + 1 + 1) % 65536, entrySequence := [some (j + 1)],
                  entries := [some { message_id := j + 1, message := j + 1 }] } } } }

/-- Counterexample round `j+1` after `recv`. -/
def stD (j : Nat) : Exec Nat :=
  { stC j with
      receiver :=
        { config := cfgCE, channel_index := 0, error_level := ChannelErrorLevel.None,
          processor := Proc.reliable
            { time := 0, config := cfgCE, send_message_id := 0,
              receive_message_id := (j + 1 + 1) % 65536, oldest_unacked_message_id := 0,
              sent_packet_message_ids := [0],
              sent_packets := emptyBuf1 _ 0,
              message_send_queue := emptyBuf1 _ 0,
              message_receive_queue := emptyBuf1 _ ((j + 1 + 1) % 65536) } }
      delivered := List.range (j + 1) ++ [j + 1] }

/-- Counterexample round `j+1` after `ack` — the next round start. -/
def stE (j : Nat) : Exec Nat :=
  { stD j with
      sender :=
        { config := cfgCE, channel_index := 0, error_level := ChannelErrorLevel.None,
          processor := Proc.reliable
            { time := 0, config := cfgCE, send_message_id := (j + 1 + 1) % 65536,
              receive_message_id := 0, oldest_unacked_message_id := (j + 1 + 1) % 65536,
              sent_packet_message_ids := [j + 1],
              sent_packets :=
                { sequence := (j + 1 + 1) % 65536, entrySequence := [some (j + 1)],
                  entries := [some { time_sent := 0, message_ids := (0, 1), acked := true }] },
              message_send_queue := emptyBuf1 _ ((j + 1 + 1) % 65536),
              message_receive_queue := emptyBuf1 _ 0 } } }

/-! ## Fixtures: claims C2-C9 -/

/-- One-channel unreliable config used by the budget-safety
counterexample. -/
def cfgC2 : ChannelConfig :=
  { ChannelConfig.new ChannelType.UnreliableUnordered with message_resend_time := 0 }

/-- Messages serialize to four bytes. -/
def serC2 : Nat → List Nat := fun _ => [0, 0, 0, 0]

/-- A connection whose `max_packet_size` is 1, with a single unreliable
channel holding one queued 4-byte message. -/
def connC2 : Connection Nat :=
  { config := { max_packet_size := 1, channels := [cfgC2] }
    channels :=
      [{ config := cfgC2
         channel_index := 0
         error_level := ChannelErrorLevel.None
         processor := Proc.unreliable
           { message_send_queue := [7]
             message_receive_queue := []
             send_capacity := 16
             receive_capacity := 16 } }]
    error_level := ConnectionErrorLevel.None }

/-- Two-channel connection showing why budget safety needs the
single-channel restriction: `max_packet_size` is 10, and each unreliable
channel holds one queued 4-byte message.  Channel 0's contribution
(64 bits against the 64-bit budget) makes the inter-channel
`available_bits -= 32; available_bits -= bits` subtraction wrap, so
channel 1 packs against a near-`2^64` budget and the 18-byte serialized
packet overflows the 10-byte buffer. -/
def connC2b : Connection Nat :=
  { config := { max_packet_size := 10, channels := [cfgC2, cfgC2] }
    channels :=
      [{ config := cfgC2
         channel_index := 0
         error_level := ChannelErrorLevel.None
         processor := Proc.unreliable
           { message_send_queue := [7]
             message_receive_queue := []
             send_capacity := 16
             receive_capacity := 16 } },
       { config := cfgC2
         channel_index := 1
         error_level := ChannelErrorLevel.None
         processor := Proc.unreliable
           { message_send_queue := [7]
             message_receive_queue := []
             send_capacity := 16
             receive_capacity := 16 } }]
    error_level := ConnectionErrorLevel.None }

/-- Reliable config with receive-queue capacity 4 (claim C4). -/
def cfgC4 : ChannelConfig :=
  { ChannelConfig.new ChannelType.ReliableOrdered with
      sent_packet_buffer_size := 4
      message_send_queue_size := 4
      message_receive_queue_size := 4
      max_messages_per_packet := 4
      message_resend_time := 0 }

/-- The single (unreliable, empty-queue) channel of `connC5`. -/
def chC5 : Channel Nat :=
  { config := cfgC2
    channel_index := 0
    error_level := ChannelErrorLevel.None
    processor := Proc.unreliable
      { message_send_queue := []
        message_receive_queue := []
        send_capacity := 16
        receive_capacity := 16 } }

/-- One-channel connection (claim C5). -/
def connC5 : Connection Nat :=
  { config := { max_packet_size := 8192, channels := [cfgC2] }
    channels := [chC5]
    error_level := ConnectionErrorLevel.None }

/-- A serialized connection packet carrying one entry whose channel index
is 1 (one past the single configured channel): u16 count = 1, u16
channel_index = 1, has_messages = 0. -/
def bytesC5 : List Nat := [1, 0, 1, 0, 0]

/-- Trivial message deserializer for inputs that never reach message
bodies. -/
def desC5 : List Nat → Option (Nat × List Nat) := readU8

/-- Single-byte message codec used by the codec round-trip claim:
a message `n < 256` serializes to the byte `n`. -/
def serByte : Nat → List Nat := fun n => [n % 256]

/-- Inverse of `serByte`. -/
def desByte : List Nat → Option (Nat × List Nat) := readU8

/-- Connection config with one unreliable channel (claim C8
counterexample). -/
def configC8 : ConnectionConfig :=
  { max_packet_size := 8192, channels := [cfgC2] }

/-- An unreliable `ChannelPacketData` whose single message carries the
(nonzero) id 5. -/
def pdC8 : ChannelPacketData Nat := { channel_index := 0, messages := [(5, 9)] }

/-- Byte-valued messages with an exact inverse pair of codecs (used to
instantiate the round-trip theorem). -/
def serFin : Fin 256 → List Nat := fun n => [n.val]

/-- Inverse of `serFin`. -/
def desFin : List Nat → Option (Fin 256 × List Nat)
  | [] => none
  | b :: rest => some (⟨b % 256, Nat.mod_lt _ (by omega)⟩, rest)

/-- Reliable connection config for the round-trip witness. -/
def configR8 : ConnectionConfig :=
  { max_packet_size := 8192
    channels := [{ ChannelConfig.new ChannelType.ReliableOrdered with message_resend_time := 0 }] }

/-- A reliable `ChannelPacketData` with two messages (round-trip witness). -/
def pdR8 : ChannelPacketData (Fin 256) := { channel_index := 0, messages := [(7, 9), (65535, 200)] }

/-- Messages are naturals serialized as that many zero bytes (so message
`n` measures `8 * n` bits; claim C9). -/
def serC9 : Nat → List Nat := fun n => List.replicate n 0

/-- Unreliable channel state with a 13-byte message in front of a 2-byte
message. -/
def unrelC9 : Unreliable Nat :=
  { message_send_queue := [13, 2]
    message_receive_queue := []
    send_capacity := 16
    receive_capacity := 16 }

/-- Reliable channel whose send queue holds an entry in the slot of
`send_message_id` (claim C3 witness): the state right after one
`send_message` on a capacity-1 channel. -/
def chC3 : Channel Nat :=
  { config := cfgCE
    channel_index := 0
    error_level := ChannelErrorLevel.None
    processor := Proc.reliable
      { time := 0
        config := cfgCE
        send_message_id := 1
        receive_message_id := 0
        oldest_unacked_message_id := 0
        sent_packet_message_ids := [0]
        sent_packets := emptyBuf1 _ 0
        message_send_queue :=
          { sequence := 1
            entrySequence := [some 0]
            entries := [some { message_id := 0, message := 5, time_last_sent := -1, measured_bits := 8 }] }
        message_receive_queue := emptyBuf1 _ 0 } }

/-! ## Fixtures: consecutive-insert runs (claim C7) -/

/-- Insert keys `(k0 + i) % 65536` with values `v i`, for `i = 0 .. n-1`,
into a fresh buffer of capacity `N`; the flag records whether every
insert returned true. -/
def runInserts (α : Type) (N k0 : Nat) (v : Nat → α) : Nat → Bool × SequenceBuffer α
  | 0 => (true, SequenceBuffer.new α N)
  | n + 1 =>
    let (ok, b) := runInserts α N k0 v n
    let (ok', b') := b.insert_with ((k0 + n) % 65536) fun _ => v n
    (ok && ok', b')

/-- Invariant of a consecutive-insert run: the slots of the last
`min n N` inserted keys hold exactly those keys and values; every other
slot is empty. -/
def ShapeC7 (N k0 : Nat) (v : Nat → α) (n : Nat) (b : SequenceBuffer α) : Prop :=
  b.entrySequence.length = N ∧ b.entries.length = N ∧
  (∀ i, i < n → n ≤ i + N →
    b.entrySequence.getD ((k0 + i) % N) none = some ((k0 + i) % 65536) ∧
    b.entries.getD ((k0 + i) % N) none = some (v i)) ∧
  (∀ s, s < N →
    b.entrySequence.getD s none = none ∨
    ∃ i, i < n ∧ n ≤ i + N ∧ s = (k0 + i) % N)

/-- Cursor of a consecutive-insert run: stays 0 while every key of a
stale-start run (`k0 ≥ 32768`) is still before the wrap, else one past
the last key. -/
def cursorC7 (k0 n : Nat) : Nat :=
  if 32768 ≤ k0 ∧ k0 + n ≤ 65536 then 0 else (k0 + n) % 65536

/-! ## Bit accounting for the budget-safety claim -/

/-- Total user-serialized bytes of a packed message list. -/
def msgBytes (ser : α → List Nat) (messages : List (Nat × α)) : Nat :=
  ((messages.map fun p => ser p.2).flatten).length

/-- The bits accounted by `get_messages_to_send` for a list of picked ids:
each contributes its entry's `measured_bits` plus 16 bits of id header. -/
def idsBits (q : SequenceBuffer (MessageSendQueueEntry α)) (ids : List Nat) : Nat :=
  (ids.map fun id => (((q.get id).map fun e => e.measured_bits + 16).getD 0)).sum

/-- Kind consistency between a channel's processor and a channel config. -/
def procMatches (p : Proc α) (cfg : ChannelConfig) : Prop :=
  match p, cfg.kind with
  | Proc.reliable _, ChannelType.ReliableOrdered => True
  | Proc.unreliable _, ChannelType.UnreliableUnordered => True
  | _, _ => False

/-- Well-formedness of a channel for the amended budget-safety claim: the
channel is at index 0, and (for a reliable processor) the send queue is
structurally well-formed with every entry's `measured_bits` equal to the
measured size of its message — the relation `send_message` establishes. -/
def WFC2 (ser : α → List Nat) (ch : Channel α) : Prop :=
  ch.channel_index = 0 ∧
  match ch.processor with
  | Proc.unreliable _ => True
  | Proc.reliable s =>
    QWF s.message_send_queue ∧
    ∀ k e, s.message_send_queue.get k = some e →
      e.measured_bits = 8 * (ser e.message).length

/-- A reliable processor carries the channel's own config (the relation
`Channel::new` establishes: the processor is built from the same
`ChannelConfig`). -/
def procConfig (p : Proc α) (cfg : ChannelConfig) : Prop :=
  match p with
  | Proc.reliable s => s.config = cfg
  | Proc.unreliable _ => True

/-! # Theorems -/

/-! ## Generic sequence-buffer lemmas -/

namespace SequenceBuffer

theorem get_new (α : Type) (size k : Nat) : (new α size).get k = none := by
  simp only [get, existsAt, new, sequence_index, capacity, List.getD_eq_getElem?_getD,
    List.getElem?_replicate]
  split <;> simp_all

theorem length_clearRange (es : List (Option Nat)) (cap s count : Nat) :
    (clearRange es cap s count).length = es.length := by
  induction count generalizing es s with
  | zero => rfl
  | succ n ih => simp [clearRange, ih, List.length_set]

theorem getElem_clearRange (es : List (Option Nat)) (cap s count i : Nat) :
    (clearRange es cap s count)[i]? = es[i]? ∨
      (clearRange es cap s count)[i]? = some none := by
  induction count generalizing es s with
  | zero => left; rfl
  | succ n ih =>
    rcases ih (es.set (s % cap) none) (s + 1) with h | h
    · rw [clearRange, h, List.getElem?_set]
      split
      · split
        · right; rfl
        · next hi hlen =>
          left
          exact (List.getElem?_eq_none (by omega)).symm
      · left; rfl
    · right; exact h

theorem remove_entries_entries (b : SequenceBuffer α) (a c : Nat) :
    (b.remove_entries a c).entries = b.entries := by
  unfold remove_entries
  dsimp only
  split <;> (split <;> rfl)

theorem remove_entries_sequence (b : SequenceBuffer α) (a c : Nat) :
    (b.remove_entries a c).sequence = b.sequence := by
  unfold remove_entries
  dsimp only
  split <;> (split <;> rfl)

theorem remove_entries_capacity (b : SequenceBuffer α) (a c : Nat) :
    (b.remove_entries a c).capacity = b.capacity := by
  simp [capacity, remove_entries_entries]

theorem remove_entries_es_length (b : SequenceBuffer α) (a c : Nat) :
    (b.remove_entries a c).entrySequence.length = b.entrySequence.length := by
  unfold remove_entries
  dsimp only
  split <;> (split <;> simp [length_clearRange])

theorem remove_entries_es_getElem (b : SequenceBuffer α) (a c i : Nat) :
    (b.remove_entries a c).entrySequence[i]? = b.entrySequence[i]? ∨
      (b.remove_entries a c).entrySequence[i]? = some none := by
  unfold remove_entries
  dsimp only
  split <;> split
  · exact getElem_clearRange _ _ _ _ _
  · simp only [List.getElem?_map]
    cases h : b.entrySequence[i]? with
    | none => left; simp [h]
    | some v => right; simp [h]
  · exact getElem_clearRange _ _ _ _ _
  · simp only [List.getElem?_map]
    cases h : b.entrySequence[i]? with
    | none => left; simp [h]
    | some v => right; simp [h]

theorem existsAt_remove_entries (b : SequenceBuffer α) (a c j : Nat) :
    (b.remove_entries a c).existsAt j = true → b.existsAt j = true := by
  simp only [existsAt, sequence_index, List.getD_eq_getElem?_getD, beq_iff_eq]
  rw [remove_entries_capacity]
  rcases remove_entries_es_getElem b a c (j % b.capacity) with h | h <;>
    rw [h] <;> intro hx
  · exact hx
  · simp at hx

theorem get_remove_entries (b : SequenceBuffer α) (a c j : Nat) (e : α) :
    (b.remove_entries a c).get j = some e → b.get j = some e := by
  unfold get
  intro h
  split at h
  · next hex =>
    rw [existsAt_remove_entries b a c j hex]
    simp only [sequence_index, remove_entries_capacity, remove_entries_entries] at h ⊢
    exact h
  · exact absurd h (by simp)

theorem QWF_remove_entries (b : SequenceBuffer α) (a c : Nat) (h : QWF b) :
    QWF (b.remove_entries a c) := by
  simp only [QWF, remove_entries_es_length, remove_entries_entries]
  exact h

theorem capacity_place (b : SequenceBuffer α) (k : Nat) (v : α) :
    (b.place k v).capacity = b.capacity := by
  simp [place, capacity, List.length_set]

theorem QWF_place (b : SequenceBuffer α) (k : Nat) (v : α) (h : QWF b) :
    QWF (b.place k v) := by
  simp only [QWF, place, List.length_set]
  exact h

theorem get_place (b : SequenceBuffer α) (hwf : QWF b) (k : Nat) (v : α) (j : Nat) (e : α) :
    (b.place k v).get j = some e → (j = k ∧ e = v) ∨ b.get j = some e := by
  rcases Nat.eq_zero_or_pos b.entries.length with hlen | hlen
  · have h2 : b.entries = [] := List.eq_nil_of_length_eq_zero hlen
    have h1 : b.entrySequence = [] := List.eq_nil_of_length_eq_zero (by rw [hwf, hlen])
    intro h
    unfold get existsAt place sequence_index at h
    simp [capacity, h1, h2] at h
  · intro h
    unfold get existsAt place sequence_index at h
    simp only [capacity, List.length_set, List.getD_eq_getElem?_getD, beq_iff_eq] at h
    by_cases hidx : j % b.entries.length = k % b.entries.length
    · rw [hidx, List.getElem?_set_self (by rw [hwf]; exact Nat.mod_lt _ hlen),
        List.getElem?_set_self (Nat.mod_lt _ hlen)] at h
      simp only [Option.getD_some] at h
      split at h
      · next hkey =>
        obtain rfl : k = j := Option.some.inj hkey
        left
        exact ⟨rfl, (Option.some.inj h).symm⟩
      · exact absurd h (by simp)
    · rw [List.getElem?_set_ne (fun hh => hidx hh.symm),
        List.getElem?_set_ne (fun hh => hidx hh.symm)] at h
      right
      unfold get existsAt sequence_index
      simp only [capacity, List.getD_eq_getElem?_getD, beq_iff_eq]
      exact h

theorem get_place_self (b : SequenceBuffer α) (hwf : QWF b) (hcap : 0 < b.capacity)
    (k : Nat) (v : α) : (b.place k v).get k = some v := by
  unfold get existsAt place sequence_index
  simp only [capacity, List.length_set, List.getD_eq_getElem?_getD]
  have hlt : k % b.entries.length < b.entries.length := Nat.mod_lt _ hcap
  rw [List.getElem?_set_self (by rw [hwf]; exact hlt), List.getElem?_set_self hlt]
  simp

theorem insert_with_snd_capacity (b : SequenceBuffer α) (k : Nat) (f : Unit → α) :
    ((b.insert_with k f).2).capacity = b.capacity := by
  unfold insert_with
  split
  · rw [capacity_place]
    simp [capacity, remove_entries_entries]
  · split
    · rfl
    · rw [capacity_place]

theorem QWF_insert_with (b : SequenceBuffer α) (k : Nat) (f : Unit → α) (h : QWF b) :
    QWF ((b.insert_with k f).2) := by
  unfold insert_with
  split
  · exact QWF_place _ _ _ (by
      simp only [QWF, remove_entries_es_length, remove_entries_entries]
      exact h)
  · split
    · exact h
    · exact QWF_place _ _ _ h

theorem get_place_seq (X : SequenceBuffer α) (s k : Nat) (v : α) (j : Nat) :
    (SequenceBuffer.place
      { sequence := s, entrySequence := X.entrySequence, entries := X.entries } k v).get j =
      (X.place k v).get j := by
  unfold place get existsAt sequence_index capacity
  rfl

theorem get_insert_with (b : SequenceBuffer α) (hwf : QWF b) (k : Nat) (f : Unit → α)
    (j : Nat) (e : α) :
    ((b.insert_with k f).2).get j = some e → (j = k ∧ e = f ()) ∨ b.get j = some e := by
  unfold insert_with
  split
  · intro h
    dsimp only at h
    rw [get_place_seq] at h
    have hwf' : QWF (b.remove_entries b.sequence k) := QWF_remove_entries _ _ _ hwf
    rcases get_place _ hwf' k (f ()) j e h with h2 | h2
    · exact Or.inl h2
    · exact Or.inr (get_remove_entries _ _ _ _ _ h2)
  · split
    · intro h
      exact Or.inr h
    · intro h
      rcases get_place _ hwf k (f ()) j e h with h2 | h2
      · exact Or.inl h2
      · exact Or.inr h2

theorem take_fst (b : SequenceBuffer α) (k : Nat) : (b.take k).1 = b.get k := by
  unfold take get
  split <;> rfl

theorem QWF_take (b : SequenceBuffer α) (k : Nat) (h : QWF b) : QWF ((b.take k).2) := by
  unfold take
  split
  · simp only [QWF, List.length_set]
    exact h
  · exact h

theorem take_snd_sequence (b : SequenceBuffer α) (k : Nat) :
    ((b.take k).2).sequence = b.sequence := by
  unfold take
  split <;> rfl

theorem get_take (b : SequenceBuffer α) (hwf : QWF b) (k j : Nat) (e : α) :
    ((b.take k).2).get j = some e → b.get j = some e := by
  unfold take
  split
  · intro h
    unfold get existsAt sequence_index at h
    simp only [capacity, List.length_set, List.getD_eq_getElem?_getD, beq_iff_eq] at h
    by_cases hidx : j % b.entries.length = k % b.entries.length
    · rcases Nat.eq_zero_or_pos b.entries.length with hlen | hlen
      · have h2 : b.entries = [] := List.eq_nil_of_length_eq_zero hlen
        have h1 : b.entrySequence = [] := List.eq_nil_of_length_eq_zero (by rw [hwf, hlen])
        simp [h1, h2] at h
      · rw [hidx, List.getElem?_set_self (by rw [hwf]; exact Nat.mod_lt _ hlen)] at h
        simp at h
    · rw [List.getElem?_set_ne (fun hh => hidx hh.symm)] at h
      split at h
      · next hkey =>
        rw [List.getElem?_set_ne (fun hh => hidx hh.symm)] at h
        unfold get existsAt sequence_index
        simp only [capacity, List.getD_eq_getElem?_getD, beq_iff_eq]
        rw [if_pos hkey]
        exact h
      · exact absurd h (by simp)
  · exact fun h => h

end SequenceBuffer

/-- `touchTimeLastSent` rewrites the entry at exactly the touched key,
leaving every other key's entry unchanged. -/
theorem get_touchTimeLastSent (q : SequenceBuffer (MessageSendQueueEntry α))
    (hwf : QWF q) (s : Nat) (now : Int) (j : Nat) :
    (touchTimeLastSent q s now).get j =
      if j = s then (q.get s).map fun e => { e with time_last_sent := now }
      else q.get j := by
  unfold touchTimeLastSent
  split
  · next hex =>
    unfold SequenceBuffer.existsAt SequenceBuffer.sequence_index SequenceBuffer.capacity at hex
    simp only [List.getD_eq_getElem?_getD, beq_iff_eq] at hex
    have hlen : 0 < q.entries.length := by
      by_contra h0
      have h1 : q.entrySequence = [] := List.eq_nil_of_length_eq_zero (by rw [hwf]; omega)
      rw [h1] at hex
      simp at hex
    unfold SequenceBuffer.get SequenceBuffer.existsAt SequenceBuffer.sequence_index
      SequenceBuffer.capacity
    simp only [List.length_set, List.getD_eq_getElem?_getD, beq_iff_eq]
    by_cases hjs : j = s
    · subst hjs
      rw [if_pos rfl, if_pos hex, if_pos hex,
        List.getElem?_set_self (Nat.mod_lt _ hlen)]
      simp
    · rw [if_neg hjs]
      by_cases hidx : j % q.entries.length = s % q.entries.length
      · rw [hidx, hex, if_neg (fun hh => hjs (Option.some.inj hh).symm),
          if_neg (fun hh => hjs (Option.some.inj hh).symm)]
      · rw [List.getElem?_set_ne (fun hh => hidx hh.symm)]
  · next hex =>
    by_cases hjs : j = s
    · subst hjs
      rw [if_pos rfl]
      unfold SequenceBuffer.get
      rw [if_neg hex]
      simp
    · rw [if_neg hjs]

/-- `touchTimeLastSent` does not change presence, cursor, or lengths. -/
theorem touchTimeLastSent_es (q : SequenceBuffer (MessageSendQueueEntry α))
    (s : Nat) (now : Int) :
    (touchTimeLastSent q s now).entrySequence = q.entrySequence ∧
    (touchTimeLastSent q s now).sequence = q.sequence ∧
    (touchTimeLastSent q s now).capacity = q.capacity ∧
    (QWF q → QWF (touchTimeLastSent q s now)) := by
  unfold touchTimeLastSent
  split
  · refine ⟨rfl, rfl, by simp [SequenceBuffer.capacity, List.length_set], ?_⟩
    intro h
    simp only [QWF, List.length_set]
    exact h
  · exact ⟨rfl, rfl, rfl, fun h => h⟩

end YojimboRs

namespace YojimboRs

/-! ## Claim C6: insert_with contract -/

/-- C6 (amended): `insert_with(k, f)` returns false exactly when `k+1` is
not wrap-greater than the cursor AND `k` is wrap-aware less than
`cursor - capacity`; on false the buffer is unchanged and the producer is
never consulted (the result is the same for every producer); on true the
entry is placed at slot `k mod capacity` after the cursor advance and
range-clear, so the newly placed entry survives the clear and is
retrievable. -/
theorem c6_insert_with_contract (b : SequenceBuffer α) (k : Nat) (f : Unit → α)
    (hwf : QWF b) :
    ((b.insert_with k f).1 = false ↔
      (sequence_greater_than (wrapAdd k 1) b.sequence = false ∧
        sequence_less_than k (wrapSub b.sequence b.capacity) = true)) ∧
    ((b.insert_with k f).1 = false →
      (b.insert_with k f).2 = b ∧ ∀ g : Unit → α, b.insert_with k g = b.insert_with k f) ∧
    ((b.insert_with k f).1 = true → 0 < b.capacity →
      ((b.insert_with k f).2).get k = some (f ())) := by
  unfold SequenceBuffer.insert_with
  by_cases h1 : sequence_greater_than (wrapAdd k 1) b.sequence = true
  · rw [if_pos h1]
    refine ⟨?_, ?_, ?_⟩
    · simp [h1]
    · simp
    · intro _ hcap
      dsimp only
      rw [SequenceBuffer.get_place_seq]
      exact SequenceBuffer.get_place_self _
        (SequenceBuffer.QWF_remove_entries _ _ _ hwf)
        (by rw [SequenceBuffer.remove_entries_capacity]; exact hcap) _ _
  · rw [if_neg h1]
    by_cases h2 : sequence_less_than k (wrapSub b.sequence b.capacity) = true
    · rw [if_pos h2]
      refine ⟨?_, ?_, ?_⟩
      · simp [Bool.not_eq_true] at h1
        simp [h1, h2]
      · intro _
        refine ⟨rfl, fun g => ?_⟩
        rw [if_neg h1, if_pos h2]
      · intro h
        exact absurd h (by simp)
    · rw [if_neg h2]
      refine ⟨?_, ?_, ?_⟩
      · simp [Bool.not_eq_true] at h2
        simp [h2]
      · simp
      · intro _ hcap
        exact SequenceBuffer.get_place_self _ hwf hcap _ _
  
/-- C6 (counterexample): on a fresh capacity-4 buffer, inserting key 32767
succeeds (the cursor-advance branch wins) even though 32767 is wrap-aware
less than `cursor - capacity`; the claim's "returns false exactly when k
is wrap-aware less than cursor - capacity" is refuted at this input. -/
theorem c6_counterexample :
    ((SequenceBuffer.new Nat 4).insert_with 32767 fun _ => 0).1 = true ∧
    sequence_less_than 32767
      (wrapSub (SequenceBuffer.new Nat 4).sequence (SequenceBuffer.new Nat 4).capacity) = true := by
  decide

/-- C6 witness: the contract applied to a concrete insert. -/
theorem c6_contract_witness :
    ((SequenceBuffer.new Nat 4).insert_with 3 fun _ => (7 : Nat)).2.get 3 = some 7 :=
  (c6_insert_with_contract (SequenceBuffer.new Nat 4) 3 (fun _ => (7 : Nat))
    (by simp [QWF, SequenceBuffer.new])).2.2 (by decide) (by decide)

/-! ## Claim C3: send on a full reliable send queue -/

/-- C3: when a reliable-ordered channel's send queue already holds an
entry in the slot of `send_message_id` (so `can_send_message` is false)
and the channel is not already in an error state, `Channel::send_message`
returns normally, transitions the channel to `SendQueueFull`, and leaves
the processor (hence the send queue) untouched. -/
theorem c3_send_queue_full (ser : α → List Nat) (ch : Channel α) (s : Reliable α) (m : α)
    (hproc : ch.processor = Proc.reliable s)
    (herr : ch.error_level = ChannelErrorLevel.None)
    (hslot : s.message_send_queue.available s.send_message_id = false) :
    Channel.send_message ser ch m =
      some { ch with error_level := ChannelErrorLevel.SendQueueFull } := by
  unfold Channel.send_message
  rw [if_neg (by simp [herr])]
  rw [if_pos]
  simp only [Channel.can_send_message, hproc, Reliable.can_send_message, hslot]
  simp

/-- C3 witness: a capacity-1 reliable channel whose single slot is
occupied. -/
theorem c3_send_queue_full_witness :
    Channel.send_message serCE chC3 5 =
      some { chC3 with error_level := ChannelErrorLevel.SendQueueFull } :=
  c3_send_queue_full serCE chC3 _ 5 rfl rfl (by decide)

/-! ## Claim C4: reliable process_packet_data beyond the receive window -/

/-- C4 (code bug): feeding a reliable channel a message whose id is
wrap-greater than `receive_message_id + capacity - 1` makes
`process_packet_data` panic (the source's
`panic!("TODO: return a desync error (1)...")`), modelled as `none` —
instead of transitioning the channel to `Desync` and returning normally
as the specification states. -/
theorem c4_desync_panics :
    Reliable.process_packet_data (Reliable.new Nat cfgC4 0)
      { channel_index := 0, messages := [(4, 9)] } 0 = none := by
  decide

/-! ## Claim C5: packet entry with an out-of-range channel index -/

/-- C5 (code bug): a decoded packet entry whose channel index equals the
number of configured channels is not dropped: deserialization indexes
`config.channels[channel_index]` and the entry loop's guard uses `>`
instead of `>=`, so `Connection::process_packet` panics (modelled as
`none`) instead of skipping the entry silently. -/
theorem c5_out_of_range_entry_panics :
    Connection.process_packet desC5 connC5 0 bytesC5 = none := by
  decide

/-! ## Claim C9 (counterexample part): unreliable packet_data discards -/

/-- C9 (counterexample): with a 100-bit budget, a queued 13-byte message
followed by a 2-byte message: `packet_data` packs only the 2-byte
message, yet the send queue comes back empty — the 13-byte message was
popped and silently discarded, refuting "every queued message that is not
packed remains in the send queue". -/
theorem c9_counterexample :
    (Unreliable.packet_data serC9 unrelC9 cfgC2 0 5 100).1.messages = [(5, 2)] ∧
    (Unreliable.packet_data serC9 unrelC9 cfgC2 0 5 100).2.2.message_send_queue = [] := by
  decide

/-! ## Claim C10: has_messages_to_send -/

/-- C10: `Unreliable::has_messages_to_send` returns true exactly when the
send queue is empty (the source literally returns `is_empty()`), and the
value is exposed unchanged through `Connection::has_messages_to_send` and
the client delegate when a connection is present. -/
theorem c10_has_messages_to_send (conn : Connection α) (i : Nat) (ch : Channel α)
    (u : Unreliable α) (hch : conn.channels.get? i = some ch)
    (hproc : ch.processor = Proc.unreliable u) :
    conn.has_messages_to_send i = some u.message_send_queue.isEmpty ∧
    (u.has_messages_to_send = true ↔ u.message_send_queue = []) ∧
    Client.has_messages_to_send (some conn) i = conn.has_messages_to_send i := by
  refine ⟨?_, ?_, rfl⟩
  · unfold Connection.has_messages_to_send
    rw [hch]
    simp [Channel.has_messages_to_send, hproc, Unreliable.has_messages_to_send]
  · simp [Unreliable.has_messages_to_send, List.isEmpty_iff]

/-- C10 witness. -/
theorem c10_witness :
    connC5.has_messages_to_send 0 = some true ∧
    Client.has_messages_to_send (some connC5) 0 = connC5.has_messages_to_send 0 := by
  have h := c10_has_messages_to_send connC5 0
    { config := cfgC2
      channel_index := 0
      error_level := ChannelErrorLevel.None
      processor := Proc.unreliable
        { message_send_queue := [], message_receive_queue := []
          send_capacity := 16, receive_capacity := 16 } }
    { message_send_queue := [], message_receive_queue := []
      send_capacity := 16, receive_capacity := 16 } (by decide) rfl
  exact ⟨h.1, h.2.2⟩

end YojimboRs

namespace YojimboRs

/-! ## Claim C9 (amended): unreliable packing conservation -/

/-- The pop loop removes a prefix of the queue and packs a subsequence of
that removed prefix (tagged with the packet sequence), never more than
`max_messages_per_packet` messages in total. -/
theorem unreliablePackLoop_spec (ser : α → List Nat) (maxm seq avail : Nat) :
    ∀ (q : List α) (used : Nat) (acc : List (Nat × α)), acc.length ≤ maxm →
      ∃ n tail, n ≤ q.length ∧
        (unreliablePackLoop ser maxm seq avail q used acc).2.2 = q.drop n ∧
        (unreliablePackLoop ser maxm seq avail q used acc).1 = acc ++ tail ∧
        List.Sublist (tail.map Prod.snd) (q.take n) ∧
        (∀ p ∈ tail, p.1 = seq) ∧
        (unreliablePackLoop ser maxm seq avail q used acc).1.length ≤ maxm := by
  intro q
  induction q with
  | nil =>
    intro used acc hacc
    exact ⟨0, [], by simp [unreliablePackLoop, hacc]⟩
  | cons m rest ih =>
    intro used acc hacc
    rw [unreliablePackLoop]
    by_cases h1 : avail - used < 32
    · rw [if_pos h1]
      exact ⟨1, [], by simp [hacc]⟩
    · rw [if_neg h1]
      by_cases h2 : (acc.length == maxm) = true
      · rw [if_pos h2]
        exact ⟨1, [], by simp [hacc]⟩
      · rw [if_neg h2]
        by_cases h3 : used + 8 * (ser m).length > avail
        · rw [if_pos h3]
          obtain ⟨n, tail, hn, hq, hm, hsub, hseq, hlen⟩ := ih used acc hacc
          exact ⟨n + 1, tail, by rw [List.length_cons]; omega, hq, hm,
            List.Sublist.cons m hsub, hseq, hlen⟩
        · rw [if_neg h3]
          have hlt : acc.length < maxm := by
            rcases Nat.lt_or_ge acc.length maxm with h | h
            · exact h
            · exact absurd (by omega : acc.length = maxm) (by simpa using h2)
          obtain ⟨n, tail, hn, hq, hm, hsub, hseq, hlen⟩ :=
            ih (used + 8 * (ser m).length) (acc ++ [(seq, m)]) (by simp; omega)
          refine ⟨n + 1, (seq, m) :: tail, by rw [List.length_cons]; omega, hq, ?_, ?_, ?_, hlen⟩
          · rw [hm, List.append_assoc]
            rfl
          · simpa using List.Sublist.cons₂ m hsub
          · intro p hp
            rcases List.mem_cons.mp hp with hp | hp
            · subst hp; rfl
            · exact hseq p hp

/-- C9 (amended): on an unreliable channel, `packet_data` removes a
prefix of the send queue (popping front messages one at a time) and packs
a subsequence of that removed prefix: it stops popping when the queue is
empty, when fewer than 32 bits of budget remain, or when
`max_messages_per_packet` messages are packed (in the latter two cases
the just-popped message is discarded), and a popped message whose
measured size exceeds the remaining budget is discarded rather than
packed.  The remaining send queue is the corresponding suffix; popped but
unpacked messages are dropped, not kept. -/
theorem c9_packet_data_conservation (ser : α → List Nat) (u : Unreliable α)
    (cfg : ChannelConfig) (ci seq avail : Nat) :
    ∃ n, n ≤ u.message_send_queue.length ∧
      (u.packet_data ser cfg ci seq avail).2.2.message_send_queue =
        u.message_send_queue.drop n ∧
      List.Sublist ((u.packet_data ser cfg ci seq avail).1.messages.map Prod.snd)
        (u.message_send_queue.take n) ∧
      (u.packet_data ser cfg ci seq avail).1.messages.length ≤ cfg.max_messages_per_packet ∧
      ∀ p ∈ (u.packet_data ser cfg ci seq avail).1.messages, p.1 = seq := by
  unfold Unreliable.packet_data
  by_cases h0 : u.message_send_queue.isEmpty = true
  · rw [if_pos h0]
    exact ⟨0, by simp [ChannelPacketData.empty]⟩
  · rw [if_neg h0]
    dsimp only
    generalize (match cfg.packet_budget with
      | some packet_budget => min (packet_budget * 8) avail
      | none => avail) = avail'
    obtain ⟨n, tail, hn, hq, hm, hsub, hseq, hlen⟩ :=
      unreliablePackLoop_spec ser cfg.max_messages_per_packet seq avail'
        u.message_send_queue 32 [] (by simp)
    rcases hloop : unreliablePackLoop ser cfg.max_messages_per_packet seq avail'
        u.message_send_queue 32 [] with ⟨msgs, used, rest⟩
    rw [hloop] at hq hm hlen
    dsimp only at hq hm hlen ⊢
    rw [List.nil_append] at hm
    subst hm
    by_cases hmsgs : msgs.isEmpty = true
    · refine ⟨n, hn, ?_⟩
      simp only [if_pos hmsgs]
      have htail : msgs = [] := by simpa [List.isEmpty_iff] using hmsgs
      subst htail
      exact ⟨hq, by simp [ChannelPacketData.empty], by simp [ChannelPacketData.empty],
        by simp [ChannelPacketData.empty]⟩
    · refine ⟨n, hn, ?_⟩
      simp only [if_neg hmsgs]
      exact ⟨hq, hsub, hlen, hseq⟩

/-! ## Claim C8: channel packet data round trip -/

theorem readU16LE_writeU16LE (x : Nat) (hx : x < 65536) (rest : List Nat) :
    readU16LE (writeU16LE x ++ rest) = some (x, rest) := by
  simp only [writeU16LE, List.cons_append, List.nil_append, readU16LE]
  congr 1
  congr 1
  omega

theorem readMessages_append (des : List Nat → Option (α × List Nat))
    (ser : α → List Nat) (hinv : ∀ (m : α) rest, des (ser m ++ rest) = some (m, rest))
    (ms : List α) (rest : List Nat) :
    readMessages des ms.length ((ms.map ser).flatten ++ rest) = some (ms, rest) := by
  induction ms with
  | nil => simp [readMessages]
  | cons m ms ih =>
    simp only [List.length_cons, List.map_cons, List.flatten_cons, List.append_assoc]
    rw [readMessages, hinv m _, Option.bind_eq_bind]
    simp [ih]

theorem readU16List_append (ids : List Nat) (hids : ∀ id ∈ ids, id < 65536)
    (rest : List Nat) :
    readU16List ids.length ((ids.map writeU16LE).flatten ++ rest) = some (ids, rest) := by
  induction ids with
  | nil => simp [readU16List]
  | cons id ids ih =>
    simp only [List.length_cons, List.map_cons, List.flatten_cons, List.append_assoc]
    rw [readU16List, readU16LE_writeU16LE id (hids id (by simp)) _]
    simp only [Option.bind_eq_bind, Option.some_bind]
    rw [ih (fun j hj => hids j (by simp [hj]))]
    simp

theorem zip_fst_snd (l : List (Nat × α)) :
    (l.map Prod.fst).zip (l.map Prod.snd) = l := by
  induction l with
  | nil => rfl
  | cons p l ih => simp [ih]

/-- C8 (amended): serializing a `ChannelPacketData` holding between 1 and
`max_messages_per_packet` (at most 256) messages over a config and
deserializing the produced bytes over the same config yields the original
channel index and messages for both channel kinds, and the original
message ids for reliable-ordered channels; for unreliable-unordered
channels the decoded message ids are all 0 (the processor later replaces
them by the packet sequence), not the original ids. -/
theorem c8_roundtrip (ser : α → List Nat) (des : List Nat → Option (α × List Nat))
    (hinv : ∀ (m : α) rest, des (ser m ++ rest) = some (m, rest))
    (config : ConnectionConfig) (cfg : ChannelConfig) (i : Nat)
    (hci : config.channels.get? i = some cfg) (hi : i ≤ 65535)
    (d : ChannelPacketData α) (hidx : d.channel_index = i)
    (hlen1 : 1 ≤ d.messages.length)
    (hlen2 : d.messages.length ≤ cfg.max_messages_per_packet)
    (hmax : cfg.max_messages_per_packet ≤ 256)
    (hids : ∀ p ∈ d.messages, p.1 < 65536) (rest : List Nat) :
    ∃ bytes, d.serialize config ser = some bytes ∧
      ChannelPacketData.deserialize config des (bytes ++ rest) =
        some (if cfg.kind = ChannelType.ReliableOrdered then d
          else { channel_index := i, messages := d.messages.map fun p => (0, p.2) }, rest) := by
  have hne : d.messages.isEmpty = false := by
    cases hm : d.messages with
    | nil => rw [hm] at hlen1; simp at hlen1
    | cons a l => simp [hm]
  have hcnt : d.messages.length - 1 ≤ 255 := by omega
  refine ⟨writeU16LE i ++ [1, d.messages.length - 1] ++
    (match cfg.kind with
      | ChannelType.UnreliableUnordered => d.serialize_unordered ser
      | ChannelType.ReliableOrdered => d.serialize_ordered ser), ?_, ?_⟩
  · unfold ChannelPacketData.serialize
    rw [hidx]
    simp only [u16TryInto, if_pos hi, Option.bind_eq_bind, Option.some_bind,
      List.get?_eq_getElem?] at *
    rw [show config.channels[i]? = some cfg from (List.get?_eq_getElem? _ _) ▸ hci]
    simp only [Option.some_bind, hne, Bool.false_eq_true, if_false]
    rw [if_neg (by omega)]
    simp only [u8TryInto, if_pos hcnt, Option.some_bind]
    rfl
  · unfold ChannelPacketData.deserialize
    rw [List.append_assoc, List.append_assoc, readU16LE_writeU16LE i (by omega)]
    simp only [Option.bind_eq_bind, Option.some_bind]
    rw [show config.channels.get? i = some cfg from hci]
    simp only [List.cons_append, readU8, Option.some_bind]
    rw [if_neg (by omega : ¬ (1 : Nat) ≠ 1)]
    rw [if_neg (by omega : ¬ ¬ 1 + (d.messages.length - 1) ≤ cfg.max_messages_per_packet)]
    have hcount : 1 + (d.messages.length - 1) = d.messages.length := by omega
    rcases hkind : cfg.kind with _ | _
    · -- ReliableOrdered
      simp only [ChannelPacketData.serialize_ordered, List.append_assoc]
      have h1 : (d.messages.map fun p => writeU16LE p.1) = (d.messages.map Prod.fst).map writeU16LE := by
        simp [List.map_map]
      have h2 : (d.messages.map fun p => ser p.2) = (d.messages.map Prod.snd).map ser := by
        simp [List.map_map]
      rw [hcount, h1, h2]
      rw [show d.messages.length = (d.messages.map Prod.fst).length by simp]
      simp only [List.nil_append, Option.pure_def, Option.bind_eq_bind, Option.some_bind]
      rw [readU16List_append (d.messages.map Prod.fst)
        (by intro id hid; obtain ⟨p, hp, hep⟩ := List.mem_map.mp hid; exact hep ▸ hids p hp)]
      simp only [Option.some_bind]
      rw [show (d.messages.map Prod.fst).length = (d.messages.map Prod.snd).length by simp]
      rw [readMessages_append des ser hinv (d.messages.map Prod.snd)]
      simp only [Option.some_bind]
      rw [zip_fst_snd]
      simp only [if_pos trivial, ite_true]
      rw [show ({ channel_index := i, messages := d.messages } : ChannelPacketData α) = d by
        rw [← hidx]]
    · -- UnreliableUnordered
      simp only [ChannelPacketData.serialize_unordered, List.append_assoc]
      have h2 : (d.messages.map fun p => ser p.2) = (d.messages.map Prod.snd).map ser := by
        simp [List.map_map]
      rw [hcount, h2]
      rw [show d.messages.length = (d.messages.map Prod.snd).length by simp]
      simp only [List.nil_append, Option.pure_def, Option.bind_eq_bind, Option.some_bind]
      rw [readMessages_append des ser hinv (d.messages.map Prod.snd)]
      simp [List.map_map]

/-- C8 (counterexample): an unreliable `ChannelPacketData` whose single
message has id 5 round-trips to id 0 — the original message ids are not
recovered for unreliable channels, refuting the claim's "for both ...
channel kinds". -/
theorem c8_counterexample :
    (pdC8.serialize configC8 serByte).bind
      (fun bytes => ChannelPacketData.deserialize configC8 desByte bytes) =
      some ({ channel_index := 0, messages := [(0, 9)] }, []) ∧
    ({ channel_index := 0, messages := [(0, 9)] } : ChannelPacketData Nat) ≠ pdC8 := by
  decide

/-- C8 witness: the round trip applied to a concrete reliable packet. -/
theorem c8_roundtrip_witness :
    ∃ bytes, pdR8.serialize configR8 serFin = some bytes ∧
      ChannelPacketData.deserialize configR8 desFin (bytes ++ []) =
        some (if ({ ChannelConfig.new ChannelType.ReliableOrdered with
            message_resend_time := 0 } : ChannelConfig).kind = ChannelType.ReliableOrdered
          then pdR8
          else { channel_index := 0, messages := pdR8.messages.map fun p => (0, p.2) }, []) :=
  c8_roundtrip serFin desFin
    (by
      intro m rest
      simp [serFin, desFin, Nat.mod_eq_of_lt m.isLt, Fin.ext_iff])
    configR8 _ 0 rfl (by omega) pdR8 rfl (by decide) (by decide) (by decide)
    (by decide) []

end YojimboRs

namespace YojimboRs

/-! ## Claim C2: budget safety of generate_packet -/

theorem msgBytes_append (ser : α → List Nat) (l : List (Nat × α)) (p : Nat × α) :
    msgBytes ser (l ++ [p]) = msgBytes ser l + (ser p.2).length := by
  simp [msgBytes]

/-- Bit accounting of the unreliable pop loop: the returned used-bits
figure is exactly 32 plus 8 bits per packed byte, and it never exceeds
the budget when anything was packed. -/
theorem unreliablePackLoop_bits (ser : α → List Nat) (maxm seq avail : Nat) :
    ∀ (q : List α) (used : Nat) (acc : List (Nat × α)),
      used = 32 + 8 * msgBytes ser acc → (acc ≠ [] → used ≤ avail) →
      (unreliablePackLoop ser maxm seq avail q used acc).2.1 =
        32 + 8 * msgBytes ser (unreliablePackLoop ser maxm seq avail q used acc).1 ∧
      ((unreliablePackLoop ser maxm seq avail q used acc).1 ≠ [] →
        (unreliablePackLoop ser maxm seq avail q used acc).2.1 ≤ avail) := by
  intro q
  induction q with
  | nil =>
    intro used acc h1 h2
    exact ⟨h1, h2⟩
  | cons m rest ih =>
    intro used acc h1 h2
    rw [unreliablePackLoop]
    by_cases hb1 : avail - used < 32
    · rw [if_pos hb1]
      exact ⟨h1, h2⟩
    · rw [if_neg hb1]
      by_cases hb2 : (acc.length == maxm) = true
      · rw [if_pos hb2]
        exact ⟨h1, h2⟩
      · rw [if_neg hb2]
        by_cases hb3 : used + 8 * (ser m).length > avail
        · rw [if_pos hb3]
          exact ih used acc h1 h2
        · rw [if_neg hb3]
          refine ih (used + 8 * (ser m).length) (acc ++ [(seq, m)]) ?_ ?_
          · rw [msgBytes_append]
            dsimp only
            omega
          · intro _
            omega

theorem flatten_writeU16_length (ids : List Nat) :
    ((ids.map writeU16LE).flatten).length = 2 * ids.length := by
  induction ids with
  | nil => rfl
  | cons id ids ih =>
    simp only [List.map_cons, List.flatten_cons, List.length_append, ih, writeU16LE]
    simp
    omega

/-- The serialized byte length of a nonempty `ChannelPacketData`: 4 header
bytes, the ids (reliable only), and the message bodies. -/
theorem serialize_length (ser : α → List Nat) (config : ConnectionConfig)
    (cfg : ChannelConfig) (hci : config.channels.get? 0 = some cfg)
    (d : ChannelPacketData α) (hidx : d.channel_index = 0)
    (hne : d.messages ≠ [])
    (hlen2 : d.messages.length ≤ cfg.max_messages_per_packet)
    (hmax : cfg.max_messages_per_packet ≤ 256) :
    ∃ bs, d.serialize config ser = some bs ∧
      bs.length = 4 +
        (if cfg.kind = ChannelType.ReliableOrdered then 2 * d.messages.length else 0) +
        msgBytes ser d.messages := by
  have hlen1 : 1 ≤ d.messages.length := by
    cases hm : d.messages with
    | nil => exact absurd hm hne
    | cons a l => simp [hm]
  have hne' : d.messages.isEmpty = false := by
    cases hm : d.messages with
    | nil => exact absurd hm hne
    | cons a l => simp [hm]
  have hcnt : d.messages.length - 1 ≤ 255 := by omega
  refine ⟨writeU16LE 0 ++ [1, d.messages.length - 1] ++
    (match cfg.kind with
      | ChannelType.UnreliableUnordered => d.serialize_unordered ser
      | ChannelType.ReliableOrdered => d.serialize_ordered ser), ?_, ?_⟩
  · unfold ChannelPacketData.serialize
    rw [hidx]
    simp only [u16TryInto, if_pos (by omega : (0:Nat) ≤ 65535), Option.bind_eq_bind,
      Option.some_bind]
    rw [show config.channels.get? 0 = some cfg from hci]
    simp only [Option.some_bind, hne', Bool.false_eq_true, if_false]
    rw [if_neg (by omega)]
    simp only [u8TryInto, if_pos hcnt, Option.some_bind]
    rfl
  · rcases hkind : cfg.kind with _ | _
    · simp only [if_pos rfl, ChannelPacketData.serialize_ordered]
      have h1 : (d.messages.map fun p => writeU16LE p.1) =
          (d.messages.map Prod.fst).map writeU16LE := by
        simp [List.map_map]
      rw [h1]
      simp only [List.length_append, flatten_writeU16_length, List.length_map, writeU16LE,
        msgBytes]
      simp
      omega
    · rw [if_neg (by simp)]
      simp only [ChannelPacketData.serialize_unordered, List.length_append, writeU16LE,
        msgBytes]
      simp

/-- Spec of `Unreliable::packet_data`: either nothing is contributed, or
the returned data is nonempty, addressed to the channel, within budget,
with the exact bit accounting. -/
theorem unreliable_packet_data_spec (ser : α → List Nat) (u : Unreliable α)
    (cfg : ChannelConfig) (ci seq avail : Nat) :
    (u.packet_data ser cfg ci seq avail).2.1 = 0 ∧
      (u.packet_data ser cfg ci seq avail).1.messages = [] ∨
    (u.packet_data ser cfg ci seq avail).1.channel_index = ci ∧
      (u.packet_data ser cfg ci seq avail).1.messages ≠ [] ∧
      (u.packet_data ser cfg ci seq avail).2.1 ≤ avail ∧
      (u.packet_data ser cfg ci seq avail).2.1 =
        32 + 8 * msgBytes ser (u.packet_data ser cfg ci seq avail).1.messages ∧
      (u.packet_data ser cfg ci seq avail).1.messages.length ≤ cfg.max_messages_per_packet := by
  unfold Unreliable.packet_data
  by_cases h0 : u.message_send_queue.isEmpty = true
  · rw [if_pos h0]
    left
    exact ⟨rfl, rfl⟩
  · rw [if_neg h0]
    dsimp only
    generalize havail : (match cfg.packet_budget with
      | some packet_budget => min (packet_budget * 8) avail
      | none => avail) = avail'
    have hav : avail' ≤ avail := by
      rw [← havail]
      cases cfg.packet_budget with
      | none => exact le_refl _
      | some pb => exact Nat.min_le_right _ _
    have hbits := unreliablePackLoop_bits ser cfg.max_messages_per_packet seq avail'
      u.message_send_queue 32 [] (by simp [msgBytes]) (by intro h; exact absurd rfl h)
    obtain ⟨n, tail, hn, hq, hm, hsub, hseq, hlen⟩ :=
      unreliablePackLoop_spec ser cfg.max_messages_per_packet seq avail'
        u.message_send_queue 32 [] (by simp)
    rcases hloop : unreliablePackLoop ser cfg.max_messages_per_packet seq avail'
        u.message_send_queue 32 [] with ⟨msgs, used, rest⟩
    rw [hloop] at hbits hlen
    dsimp only at hbits hlen ⊢
    by_cases hmsgs : msgs.isEmpty = true
    · rw [if_pos hmsgs]
      left
      exact ⟨rfl, rfl⟩
    · rw [if_neg hmsgs]
      right
      have hmne : msgs ≠ [] := by
        intro h
        rw [h] at hmsgs
        simp at hmsgs
      exact ⟨rfl, hmne, le_trans (hbits.2 hmne) hav, hbits.1, hlen⟩

end YojimboRs

namespace YojimboRs

theorem idsBits_nil (q : SequenceBuffer (MessageSendQueueEntry α)) : idsBits q [] = 0 := rfl

theorem idsBits_append (q : SequenceBuffer (MessageSendQueueEntry α)) (ids : List Nat)
    (id : Nat) :
    idsBits q (ids ++ [id]) =
      idsBits q ids + (((q.get id).map fun e => e.measured_bits + 16).getD 0) := by
  simp [idsBits]

theorem idsBits_touch (q : SequenceBuffer (MessageSendQueueEntry α)) (hwf : QWF q)
    (s : Nat) (now : Int) (ids : List Nat) :
    idsBits (touchTimeLastSent q s now) ids = idsBits q ids := by
  unfold idsBits
  congr 1
  apply List.map_congr_left
  intro id _
  rw [get_touchTimeLastSent q hwf s now id]
  by_cases h : id = s
  · rw [if_pos h, h]
    cases q.get s <;> rfl
  · rw [if_neg h]

/-- Invariant of the reliable packing scan: exact bit accounting, budget
bound, message-count bound, and presence of every picked id, threaded
through the loop. -/
theorem gmtsLoop_spec (ser : α → List Nat) (resend now : Int) (cap maxm oldest avail : Nat) :
    ∀ (count i : Nat) (q : SequenceBuffer (MessageSendQueueEntry α)) (ids : List Nat)
      (used giveUp : Nat),
      QWF q →
      (∀ k e, q.get k = some e → e.measured_bits = 8 * (ser e.message).length) →
      used = 32 + idsBits q ids →
      (ids ≠ [] → used ≤ avail) →
      ids.length < maxm →
      (∀ id ∈ ids, ((q.get id).isSome : Prop)) →
      QWF (gmtsLoop resend now cap maxm oldest avail i count q ids used giveUp).2.2 ∧
      (∀ k e, (gmtsLoop resend now cap maxm oldest avail i count q ids used giveUp).2.2.get k = some e →
        e.measured_bits = 8 * (ser e.message).length) ∧
      (gmtsLoop resend now cap maxm oldest avail i count q ids used giveUp).2.1 =
        32 + idsBits (gmtsLoop resend now cap maxm oldest avail i count q ids used giveUp).2.2
          (gmtsLoop resend now cap maxm oldest avail i count q ids used giveUp).1 ∧
      ((gmtsLoop resend now cap maxm oldest avail i count q ids used giveUp).1 ≠ [] →
        (gmtsLoop resend now cap maxm oldest avail i count q ids used giveUp).2.1 ≤ avail) ∧
      (gmtsLoop resend now cap maxm oldest avail i count q ids used giveUp).1.length ≤ maxm ∧
      (∀ id ∈ (gmtsLoop resend now cap maxm oldest avail i count q ids used giveUp).1,
        (((gmtsLoop resend now cap maxm oldest avail i count q ids used giveUp).2.2.get id).isSome : Prop)) := by
  intro count
  induction count with
  | zero =>
    intro i q ids used giveUp h1 h2 h3 h4 h5 h6
    exact ⟨h1, h2, h3, h4, (by omega : ids.length ≤ maxm), h6⟩
  | succ n ih =>
    intro i q ids used giveUp h1 h2 h3 h4 h5 h6
    rw [gmtsLoop]
    by_cases hb1 : wrapSub64 avail used < 32
    · rw [if_pos hb1]
      exact ⟨h1, h2, h3, h4, (by omega : ids.length ≤ maxm), h6⟩
    · rw [if_neg hb1]
      by_cases hb2 : giveUp > cap
      · rw [if_pos hb2]
        exact ⟨h1, h2, h3, h4, (by omega : ids.length ≤ maxm), h6⟩
      · rw [if_neg hb2]
        dsimp only
        cases hget : q.get (wrapAdd oldest i) with
        | none => exact ih (i + 1) q ids used giveUp h1 h2 h3 h4 h5 h6
        | some entry =>
          dsimp only
          by_cases hc : entry.time_last_sent + resend ≤ now ∧ avail ≥ entry.measured_bits
          · rw [if_pos hc]
            by_cases hover : used + (entry.measured_bits + 16) > avail
            · rw [if_pos hover]
              exact ih (i + 1) q ids used (giveUp + 1) h1 h2 h3 h4 h5 h6
            · rw [if_neg hover]
              have hq' := touchTimeLastSent_es q (wrapAdd oldest i) now
              have hQWF' : QWF (touchTimeLastSent q (wrapAdd oldest i) now) := hq'.2.2.2 h1
              have hmeas' : ∀ k e,
                  (touchTimeLastSent q (wrapAdd oldest i) now).get k = some e →
                  e.measured_bits = 8 * (ser e.message).length := by
                intro k e he
                rw [get_touchTimeLastSent q h1 (wrapAdd oldest i) now k] at he
                by_cases hk : k = wrapAdd oldest i
                · rw [if_pos hk, hget] at he
                  dsimp only [Option.map] at he
                  injection he with he
                  subst he
                  exact h2 (wrapAdd oldest i) entry hget
                · rw [if_neg hk] at he
                  exact h2 k e he
              have hbits' : used + (entry.measured_bits + 16) =
                  32 + idsBits (touchTimeLastSent q (wrapAdd oldest i) now)
                    (ids ++ [wrapAdd oldest i]) := by
                rw [idsBits_append, idsBits_touch q h1,
                  get_touchTimeLastSent q h1 (wrapAdd oldest i) now (wrapAdd oldest i),
                  if_pos rfl, hget]
                simp only [Option.map_some', Option.getD_some]
                omega
              have hsome' : ∀ id ∈ ids ++ [wrapAdd oldest i],
                  (((touchTimeLastSent q (wrapAdd oldest i) now).get id).isSome : Prop) := by
                intro id hid
                rw [get_touchTimeLastSent q h1 (wrapAdd oldest i) now id]
                by_cases hk : id = wrapAdd oldest i
                · rw [if_pos hk, hget]
                  rfl
                · rw [if_neg hk]
                  rcases List.mem_append.mp hid with hid | hid
                  · exact h6 id hid
                  · exact absurd (by simpa using hid) hk
              by_cases hfull : (ids ++ [wrapAdd oldest i]).length ≥ maxm
              · rw [if_pos hfull]
                refine ⟨hQWF', hmeas', hbits',
                  fun _ => (by omega : used + (entry.measured_bits + 16) ≤ avail),
                  (by simp only [List.length_append, List.length_cons, List.length_nil]; omega :
                    (ids ++ [wrapAdd oldest i]).length ≤ maxm), hsome'⟩
              · rw [if_neg hfull]
                exact ih (i + 1) (touchTimeLastSent q (wrapAdd oldest i) now)
                  (ids ++ [wrapAdd oldest i]) (used + (entry.measured_bits + 16)) giveUp
                  hQWF' hmeas' hbits' (fun _ => by omega) (by omega) hsome'
          · rw [if_neg hc]
            rw [if_neg (by omega : ¬ ids.length ≥ maxm)]
            exact ih (i + 1) q ids used giveUp h1 h2 h3 h4 h5 h6

/-- The mapM of `get_message_packet_data` succeeds when every id is
present, with the byte accounting tying the cloned messages to
`idsBits`. -/
theorem gmpd_mapM_spec (ser : α → List Nat) (q : SequenceBuffer (MessageSendQueueEntry α))
    (hmeas : ∀ k e, q.get k = some e → e.measured_bits = 8 * (ser e.message).length) :
    ∀ ids : List Nat, (∀ id ∈ ids, ((q.get id).isSome : Prop)) →
      ∃ msgs : List (Nat × α),
        (ids.mapM fun id => (q.get id).map fun e => (id, e.message)) = some msgs ∧
        msgs.length = ids.length ∧
        8 * msgBytes ser msgs + 16 * ids.length = idsBits q ids := by
  intro ids
  induction ids with
  | nil =>
    intro _
    exact ⟨[], rfl, rfl, by simp [msgBytes, idsBits]⟩
  | cons id ids ih =>
    intro h
    have hid : ((q.get id).isSome : Prop) := h id (by simp)
    cases hget : q.get id with
    | none => rw [hget] at hid; simp at hid
    | some e =>
      obtain ⟨msgs, hm, hlen, hbytes⟩ := ih fun j hj => h j (by simp [hj])
      refine ⟨(id, e.message) :: msgs, ?_, by simp [hlen], ?_⟩
      · rw [List.mapM_cons, hget]
        simp only [Option.map_some', Option.bind_eq_bind, Option.some_bind, hm]
        rfl
      · have hme := hmeas id e hget
        simp only [msgBytes, idsBits, List.map_cons, List.flatten_cons, List.length_append,
          List.sum_cons, List.length_cons, hget, Option.map_some', Option.getD_some] at *
        rw [Nat.mul_add, Nat.mul_add]
        omega

end YojimboRs

namespace YojimboRs

theorem wrapSub64_eq (a b : Nat) (h1 : b ≤ a) (h2 : a < 18446744073709551616) :
    wrapSub64 a b = a - b := by
  unfold wrapSub64
  have hb : b % 18446744073709551616 = b := Nat.mod_eq_of_lt (by omega)
  rw [hb]
  have h3 : a + 18446744073709551616 - b = (a - b) + 18446744073709551616 := by omega
  rw [h3, Nat.add_mod_right]
  exact Nat.mod_eq_of_lt (by omega)

/-- Spec of `Reliable::packet_data`: no panic, and either an empty
contribution or a nonempty one within budget with exact bit
accounting. -/
theorem reliable_packet_data_spec (ser : α → List Nat) (s : Reliable α)
    (ci seq avail : Nat) (hwf : QWF s.message_send_queue)
    (hmeas : ∀ k e, s.message_send_queue.get k = some e →
      e.measured_bits = 8 * (ser e.message).length)
    (hmaxm : 1 ≤ s.config.max_messages_per_packet) :
    ∃ pd bits s', s.packet_data ci seq avail = some (pd, bits, s') ∧
      (bits = 0 ∧ pd.messages = [] ∨
        (pd.channel_index = ci ∧ pd.messages ≠ [] ∧ bits ≤ avail ∧
          8 * (4 + 2 * pd.messages.length + msgBytes ser pd.messages) = bits ∧
          pd.messages.length ≤ s.config.max_messages_per_packet)) := by
  unfold Reliable.packet_data
  by_cases hhas : s.has_messages_to_send = true
  · rw [if_neg (by simp [hhas])]
    unfold Reliable.get_messages_to_send
    rw [if_neg (by simp [hhas])]
    dsimp only
    have hav : (match s.config.packet_budget with
        | some packet_budget => min (packet_budget * 8) avail
        | none => avail) ≤ avail := by
      cases s.config.packet_budget with
      | none => exact le_refl _
      | some pb => exact Nat.min_le_right _ _
    generalize havp : (match s.config.packet_budget with
      | some packet_budget => min (packet_budget * 8) avail
      | none => avail) = avail' at hav
    have hspec := gmtsLoop_spec ser s.config.message_resend_time s.time
      s.message_send_queue.capacity s.config.max_messages_per_packet
      s.oldest_unacked_message_id avail'
      (min s.message_receive_queue.capacity s.message_send_queue.capacity) 0
      s.message_send_queue [] 32 0 hwf hmeas (by simp [idsBits_nil])
      (fun h => absurd rfl h) (by simp only [List.length_nil]; omega) (by simp)
    rcases hloop : gmtsLoop s.config.message_resend_time s.time
        s.message_send_queue.capacity s.config.max_messages_per_packet
        s.oldest_unacked_message_id avail'
        0 (min s.message_receive_queue.capacity s.message_send_queue.capacity)
        s.message_send_queue [] 32 0 with ⟨ids, used, q'⟩
    rw [hloop] at hspec
    obtain ⟨hwf', hmeas', hused, hbound, hlen, hsome⟩ := hspec
    dsimp only at hwf' hmeas' hused hbound hlen hsome ⊢
    by_cases hids : ids.isEmpty = true
    · rw [if_pos hids]
      exact ⟨_, _, _, rfl, Or.inl ⟨rfl, rfl⟩⟩
    · rw [if_neg hids]
      have hne : ids ≠ [] := by
        intro h
        rw [h] at hids
        simp at hids
      unfold Reliable.get_message_packet_data
      obtain ⟨msgs, hmapm, hmlen, hmbytes⟩ := gmpd_mapM_spec ser q' hmeas' ids hsome
      rw [hmapm]
      simp only [Option.bind_eq_bind, Option.some_bind]
      refine ⟨_, _, _, rfl, Or.inr ⟨rfl, ?_, ?_, ?_, ?_⟩⟩
      · intro h
        have h' : msgs = [] := h
        rw [h'] at hmlen
        simp at hmlen
        exact hne (List.eq_nil_of_length_eq_zero hmlen.symm)
      · exact le_trans (hbound hne) hav
      · dsimp only
        rw [hmlen]
        omega
      · dsimp only
        rw [hmlen]
        exact hlen
  · rw [if_pos (by simpa using hhas)]
    exact ⟨_, _, _, rfl, Or.inl ⟨rfl, rfl⟩⟩

end YojimboRs

namespace YojimboRs

/-- Spec of `Channel::packet_data` (either processor kind): no panic, and
either an empty contribution with zero bits or a nonempty one within
budget whose serialized byte length times 8 is the reported bits. -/
theorem channel_packet_data_spec (ser : α → List Nat) (ch : Channel α)
    (cfg : ChannelConfig) (seq avail : Nat)
    (hcc : ch.config = cfg) (hpm : procMatches ch.processor cfg)
    (hpc : procConfig ch.processor cfg) (hwfc : WFC2 ser ch)
    (hm1 : 1 ≤ cfg.max_messages_per_packet) :
    ∃ pd bits ch', ch.packet_data ser seq avail = some (pd, bits, ch') ∧
      (bits = 0 ∧ pd.messages = [] ∨
        (pd.channel_index = 0 ∧ pd.messages ≠ [] ∧ bits ≤ avail ∧
          8 * (4 + (if cfg.kind = ChannelType.ReliableOrdered
              then 2 * pd.messages.length else 0) +
            msgBytes ser pd.messages) = bits ∧
          pd.messages.length ≤ cfg.max_messages_per_packet)) := by
  obtain ⟨hidx0, hwfp⟩ := hwfc
  unfold Channel.packet_data
  cases hp : ch.processor with
  | reliable sR =>
    rw [hp] at hwfp hpm hpc
    dsimp only at hwfp hpm hpc ⊢
    unfold procMatches at hpm
    have hkind : cfg.kind = ChannelType.ReliableOrdered := by
      cases hk : cfg.kind with
      | ReliableOrdered => rfl
      | UnreliableUnordered =>
        rw [hk] at hpm
        exact absurd hpm (by simp)
    unfold procConfig at hpc
    dsimp only at hpc
    obtain ⟨pd, bits, s', hpd, hdisj⟩ :=
      reliable_packet_data_spec ser sR ch.channel_index seq avail hwfp.1 hwfp.2
        (by rw [hpc]; exact hm1)
    rw [hpd]
    refine ⟨pd, bits, _, rfl, ?_⟩
    rcases hdisj with ⟨hb, hm⟩ | ⟨h1, h2, h3, h4, h5⟩
    · exact Or.inl ⟨hb, hm⟩
    · refine Or.inr ⟨h1.trans hidx0, h2, h3, ?_, ?_⟩
      · rw [if_pos hkind]
        exact h4
      · rw [← hpc]
        exact h5
  | unreliable u =>
    rw [hp] at hpm
    dsimp only
    unfold procMatches at hpm
    have hkind : cfg.kind = ChannelType.UnreliableUnordered := by
      cases hk : cfg.kind with
      | UnreliableUnordered => rfl
      | ReliableOrdered =>
        rw [hk] at hpm
        exact absurd hpm (by simp)
    have hspec := unreliable_packet_data_spec ser u ch.config ch.channel_index seq avail
    rcases hupd : u.packet_data ser ch.config ch.channel_index seq avail with ⟨pd, bits, u'⟩
    rw [hupd] at hspec
    dsimp only at hspec
    refine ⟨pd, bits, _, rfl, ?_⟩
    rcases hspec with ⟨hb, hm⟩ | ⟨h1, h2, h3, h4, h5⟩
    · exact Or.inl ⟨hb, hm⟩
    · refine Or.inr ⟨h1.trans hidx0, h2, h3, ?_, ?_⟩
      · rw [if_neg (by rw [hkind]; simp), h4]
        omega
      · rw [← hcc]
        exact h5

end YojimboRs

namespace YojimboRs

/-- C2 (amended): for a connection with a single consistently configured
channel (well-formed state, `1 ≤ max_messages_per_packet ≤ 256`,
`2 ≤ max_packet_size < 2^61`), `generate_packet` into a buffer of
`max_packet_size` bytes returns normally and the number of bytes
written never exceeds `max_packet_size`. -/
theorem c2_generate_packet_budget (ser : α → List Nat) (conn : Connection α)
    (ch : Channel α) (cfg : ChannelConfig) (seq : Nat)
    (hchs : conn.channels = [ch]) (hcfgs : conn.config.channels = [cfg])
    (hcc : ch.config = cfg) (hpm : procMatches ch.processor cfg)
    (hpc : procConfig ch.processor cfg) (hwfc : WFC2 ser ch)
    (hL1 : 2 ≤ conn.config.max_packet_size)
    (hL2 : conn.config.max_packet_size < 2305843009213693952)
    (hm1 : 1 ≤ cfg.max_messages_per_packet)
    (hm2 : cfg.max_messages_per_packet ≤ 256) :
    ∃ n conn',
      conn.generate_packet ser seq conn.config.max_packet_size = some (n, conn') ∧
      n ≤ conn.config.max_packet_size := by
  unfold Connection.generate_packet
  rw [hchs]
  rw [if_neg (by simp)]
  rw [if_neg (by simp; omega)]
  dsimp only
  have havail : wrapSub64 (conn.config.max_packet_size * 8) 16 =
      conn.config.max_packet_size * 8 - 16 :=
    wrapSub64_eq _ _ (by omega) (by omega)
  rw [havail]
  obtain ⟨pd, bits, ch', hch, hdisj⟩ :=
    channel_packet_data_spec ser ch cfg seq (conn.config.max_packet_size * 8 - 16)
      hcc hpm hpc hwfc hm1
  simp only [generateLoop, hch, Option.bind_eq_bind, Option.some_bind]
  rcases hdisj with ⟨hb, _⟩ | ⟨h1, h2, h3, h4, h5⟩
  · rw [hb]
    simp only [gt_iff_lt, lt_self_iff_false, if_false, ite_false]
    exact ⟨0, _, rfl, by omega⟩
  · have hbpos : 0 < bits := by omega
    rw [if_pos hbpos]
    simp only [List.nil_append, List.isEmpty_cons, Bool.false_eq_true, if_false, ite_false]
    unfold ConnectionPacket.serialize
    rw [if_neg (by simp)]
    rw [if_neg (by simp)]
    obtain ⟨bs, hser, hblen⟩ := serialize_length ser conn.config cfg
      (by rw [hcfgs]; rfl) pd h1 h2 h5 hm2
    simp only [List.mapM_cons, List.mapM_nil, hser, Option.pure_def, Option.bind_eq_bind,
      Option.some_bind, Option.map_some']
    have hlen : (writeU16LE [pd].length ++ [bs].flatten).length = 2 + bs.length := by
      simp [writeU16LE]
      omega
    rw [if_neg (by rw [hlen]; omega)]
    exact ⟨_, _, rfl, by rw [hlen]; omega⟩

end YojimboRs

namespace YojimboRs

/-- C2 counterexample: a connection whose `max_packet_size` is 1, holding
one queued 4-byte unreliable message, panics inside `generate_packet`
(the serialized packet is larger than the buffer and the cursor write is
`unwrap`ed), so "never exceeds max_packet_size" does not hold as a
totality statement for every configuration. -/
theorem c2_counterexample : Connection.generate_packet serC2 connC2 0 1 = none := by
  decide

theorem c2_budget_witness :
    ∃ n conn',
      Connection.generate_packet serC2 connC5 0 connC5.config.max_packet_size =
        some (n, conn') ∧
      n ≤ connC5.config.max_packet_size :=
  c2_generate_packet_budget serC2 connC5 chC5 cfgC2 0 rfl rfl rfl (by trivial) (by trivial)
    ⟨rfl, trivial⟩ (by decide) (by decide) (by decide) (by decide)

/-- Budget safety fails with two configured channels even when the buffer
meets every size bound: on `connC2b` (two consistently configured,
well-formed unreliable channels, `max_packet_size = 10`) the running
budget wraps between channels — `available_bits -= 32; available_bits -=
bits` underflows after channel 0's 64-bit contribution — channel 1 then
packs against the wrapped budget, and the oversized packet panics the
unwrap-ed cursor write.  This is why the amended budget-safety statement
is restricted to a connection with exactly one configured channel. -/
theorem c2_multi_channel_underflow :
    Connection.generate_packet serC2 connC2b 0 connC2b.config.max_packet_size = none := by
  decide

end YojimboRs


namespace YojimboRs

/-! ## Consecutive-insert lemmas (claim C7) -/

theorem seqGT_succ (k : Nat) (h : k < 65536) :
    sequence_greater_than (wrapAdd k 1) k = true := by
  simp only [sequence_greater_than, wrapAdd, Bool.or_eq_true, Bool.and_eq_true,
    decide_eq_true_eq]
  omega

theorem seqGT_zero_false (k : Nat) (h1 : 32768 ≤ k) (h2 : k < 65536) :
    sequence_greater_than (wrapAdd k 1) 0 = false := by
  simp only [sequence_greater_than, wrapAdd, Bool.or_eq_false_iff, Bool.and_eq_false_iff,
    decide_eq_false_iff_not, not_le, not_lt]
  omega

theorem seqGT_wrapAdd_false (x e : Nat) (hx : x < 65536) (he : e < 32768) :
    sequence_greater_than x (wrapAdd x e) = false := by
  simp only [sequence_greater_than, wrapAdd, Bool.or_eq_false_iff, Bool.and_eq_false_iff,
    decide_eq_false_iff_not, not_le, not_lt]
  omega

theorem seqLT_stale_false (k N : Nat) (hN1 : 1 ≤ N) (hN2 : N ≤ 32768)
    (h1 : 65536 - N ≤ k) (h2 : k < 65536) :
    sequence_less_than k (wrapSub 0 N) = false := by
  simp only [sequence_less_than, sequence_greater_than, wrapSub, Bool.or_eq_false_iff,
    Bool.and_eq_false_iff, decide_eq_false_iff_not, not_le, not_lt]
  omega

theorem mod_shift_ne (N x t : Nat) (h1 : 0 < t) (h2 : t < N) :
    (x + t) % N ≠ x % N := by
  have ha : (x + t) % N = (x % N + t) % N := by
    rw [Nat.add_mod, Nat.mod_eq_of_lt h2]
  intro h
  rw [ha] at h
  have hx : x % N < N := Nat.mod_lt _ (by omega)
  by_cases hlt : x % N + t < N
  · rw [Nat.mod_eq_of_lt hlt] at h
    omega
  · rw [Nat.mod_eq_sub_mod (by omega), Nat.mod_eq_of_lt (by omega)] at h
    omega

theorem clearRange_replicate (N : Nat) :
    ∀ (c s : Nat), SequenceBuffer.clearRange (List.replicate N (none : Option Nat)) N s c =
      List.replicate N none := by
  intro c
  induction c with
  | zero => intro s; rfl
  | succ c ih =>
    intro s
    rw [SequenceBuffer.clearRange]
    have hset : (List.replicate N (none : Option Nat)).set (s % N) none =
        List.replicate N none := by
      apply List.ext_getElem?
      intro j
      rw [List.getElem?_set]
      split
      · next hj =>
        rw [← hj]
        split
        · next hlt =>
          rw [List.getElem?_replicate, if_pos (by simpa using hlt)]
        · next hlt =>
          rw [List.getElem?_replicate, if_neg (by simpa using hlt)]
      · rfl
    rw [hset]
    exact ih (s + 1)

theorem remove_entries_new (α : Type) (N s e : Nat) :
    (SequenceBuffer.new α N).remove_entries s e = SequenceBuffer.new α N := by
  unfold SequenceBuffer.remove_entries
  simp only [SequenceBuffer.new, SequenceBuffer.capacity, List.length_replicate,
    List.map_replicate]
  split
  · rw [clearRange_replicate]
    split <;> rfl
  · rw [clearRange_replicate]
    split <;> rfl

theorem remove_entries_self (b : SequenceBuffer α) (k : Nat) (h : 0 < b.capacity) :
    b.remove_entries k k =
      { b with entrySequence := b.entrySequence.set (k % b.capacity) none } := by
  unfold SequenceBuffer.remove_entries
  dsimp only
  rw [if_neg (lt_irrefl k), Nat.sub_self, if_pos h]
  rfl

end YojimboRs

namespace YojimboRs

/-- Writing the next consecutive key into its slot preserves the
consecutive-run shape (capacity divides 65536, so the wrapped key's slot
agrees with the linear index's slot). -/
theorem ShapeC7_step (N k0 : Nat) (v : Nat → α) (n : Nat) (hdvd : N ∣ 65536)
    (hN1 : 1 ≤ N) (b b' : SequenceBuffer α) (hS : ShapeC7 N k0 v n b)
    (hes : b'.entrySequence = b.entrySequence.set ((k0 + n) % N) (some ((k0 + n) % 65536)))
    (hen : b'.entries = b.entries.set ((k0 + n) % N) (some (v n))) :
    ShapeC7 N k0 v (n + 1) b' := by
  obtain ⟨hl1, hl2, hpos, hall⟩ := hS
  have hidx : (k0 + n) % N < N := Nat.mod_lt _ (by omega)
  refine ⟨by rw [hes, List.length_set, hl1], by rw [hen, List.length_set, hl2], ?_, ?_⟩
  · intro i hi hiN
    by_cases hin : i = n
    · subst hin
      constructor
      · rw [hes, List.getD_eq_getElem?_getD,
          List.getElem?_set_self (by rw [hl1]; exact hidx)]
        rfl
      · rw [hen, List.getD_eq_getElem?_getD,
          List.getElem?_set_self (by rw [hl2]; exact hidx)]
        rfl
    · have hne : (k0 + n) % N ≠ (k0 + i) % N := by
        have h := mod_shift_ne N (k0 + i) (n - i) (by omega) (by omega)
        rw [show k0 + i + (n - i) = k0 + n from by omega] at h
        exact h
      constructor
      · rw [hes, List.getD_eq_getElem?_getD, List.getElem?_set_ne hne,
          ← List.getD_eq_getElem?_getD]
        exact (hpos i (by omega) (by omega)).1
      · rw [hen, List.getD_eq_getElem?_getD, List.getElem?_set_ne hne,
          ← List.getD_eq_getElem?_getD]
        exact (hpos i (by omega) (by omega)).2
  · intro s hs
    by_cases hsn : s = (k0 + n) % N
    · exact Or.inr ⟨n, by omega, by omega, hsn⟩
    · have hunch : b'.entrySequence.getD s none = b.entrySequence.getD s none := by
        rw [hes, List.getD_eq_getElem?_getD, List.getElem?_set_ne (fun hh => hsn hh.symm),
          ← List.getD_eq_getElem?_getD]
      rw [hunch]
      rcases hall s hs with hnone | ⟨i, hi1, hi2, hi3⟩
      · exact Or.inl hnone
      · by_cases hi4 : n + 1 ≤ i + N
        · exact Or.inr ⟨i, by omega, hi4, hi3⟩
        · exfalso
          apply hsn
          rw [hi3, show k0 + i = k0 + i from rfl]
          have hn : k0 + n = k0 + i + N := by omega
          rw [hn, Nat.add_mod_right]

end YojimboRs

namespace YojimboRs

/-- A fresh-buffer state has the 0-insert shape. -/
theorem ShapeC7_new (N k0 : Nat) (v : Nat → α) (b : SequenceBuffer α)
    (h1 : b.entrySequence = List.replicate N none) (h2 : b.entries.length = N) :
    ShapeC7 N k0 v 0 b := by
  refine ⟨by rw [h1, List.length_replicate], h2, ?_, ?_⟩
  · intro i hi
    omega
  · intro s hs
    left
    rw [h1, List.getD_eq_getElem?_getD, List.getElem?_replicate]
    split <;> rfl

/-- Invariant of a consecutive-insert run with capacity dividing 65536
and a start that is either below the wrap threshold or within one
capacity of the wrap: every insert returns true, the buffer holds
exactly the last `min n N` keys, and the cursor follows `cursorC7`. -/
theorem runInserts_inv (α : Type) (N k0 : Nat) (v : Nat → α) (hdvd : N ∣ 65536)
    (hN1 : 1 ≤ N) (hN2 : N ≤ 32768) (hk0' : k0 < 65536)
    (hk0 : k0 ≤ 32767 ∨ 65536 - N ≤ k0) :
    ∀ n, 1 ≤ n →
      (runInserts α N k0 v n).1 = true ∧
      ShapeC7 N k0 v n (runInserts α N k0 v n).2 ∧
      (runInserts α N k0 v n).2.sequence = cursorC7 k0 n := by
  intro n
  induction n with
  | zero => intro h; omega
  | succ m ih =>
    intro _
    rcases Nat.eq_zero_or_pos m with hm | hm
    · subst hm
      have hnew2 : (SequenceBuffer.new α N).entries.length = N := by
        simp [SequenceBuffer.new]
      have hcap : (SequenceBuffer.new α N).capacity = N := hnew2
      have hshape0 : ShapeC7 N k0 v 0 (SequenceBuffer.new α N) :=
        ShapeC7_new N k0 v _ rfl hnew2
      have hK : (k0 + 0) % 65536 = k0 := by omega
      rcases hk0 with hA | hB
      · have hins : (SequenceBuffer.new α N).insert_with ((k0 + 0) % 65536) (fun _ => v 0) =
            (true, { sequence := wrapAdd ((k0 + 0) % 65536) 1,
                     entrySequence := (List.replicate N none).set ((k0 + 0) % N)
                       (some ((k0 + 0) % 65536)),
                     entries := (List.replicate N none).set ((k0 + 0) % N) (some (v 0)) }) := by
          unfold SequenceBuffer.insert_with
          rw [show (SequenceBuffer.new α N).sequence = 0 from rfl]
          rw [if_pos (by
            rw [hK]
            simp only [sequence_greater_than, wrapAdd, Bool.or_eq_true, Bool.and_eq_true,
              decide_eq_true_eq]
            omega)]
          rw [remove_entries_new]
          dsimp only
          unfold SequenceBuffer.place SequenceBuffer.sequence_index SequenceBuffer.capacity
          dsimp only
          rw [show (SequenceBuffer.new α N).entries = List.replicate N none from rfl,
            show (SequenceBuffer.new α N).entrySequence = List.replicate N none from rfl,
            List.length_replicate, Nat.mod_mod_of_dvd _ hdvd]
        rw [runInserts, runInserts]
        dsimp only
        rw [hins]
        refine ⟨rfl, ?_, ?_⟩
        · exact ShapeC7_step N k0 v 0 hdvd hN1 (SequenceBuffer.new α N) _ hshape0 rfl rfl
        · show wrapAdd ((k0 + 0) % 65536) 1 = cursorC7 k0 1
          rw [hK]
          unfold cursorC7
          rw [if_neg (by omega)]
          rfl
      · have hins : (SequenceBuffer.new α N).insert_with ((k0 + 0) % 65536) (fun _ => v 0) =
            (true, (SequenceBuffer.new α N).place ((k0 + 0) % 65536) (v 0)) := by
          unfold SequenceBuffer.insert_with
          rw [show (SequenceBuffer.new α N).sequence = 0 from rfl]
          rw [if_neg (by rw [hK, seqGT_zero_false k0 (by omega) hk0']; simp)]
          rw [hcap, if_neg (by rw [hK, seqLT_stale_false k0 N hN1 hN2 (by omega) hk0']; simp)]
        rw [runInserts, runInserts]
        dsimp only
        rw [hins]
        refine ⟨rfl, ?_, ?_⟩
        · refine ShapeC7_step N k0 v 0 hdvd hN1 (SequenceBuffer.new α N) _ hshape0 ?_ ?_
          · unfold SequenceBuffer.place SequenceBuffer.sequence_index
            dsimp only
            rw [hcap, Nat.mod_mod_of_dvd _ hdvd]
          · unfold SequenceBuffer.place SequenceBuffer.sequence_index
            dsimp only
            rw [hcap, Nat.mod_mod_of_dvd _ hdvd]
        · show (SequenceBuffer.new α N).sequence = cursorC7 k0 1
          unfold cursorC7
          rw [if_pos ⟨by omega, by omega⟩]
          rfl
    · obtain ⟨hok, hshape, hcur⟩ := ih hm
      rcases hrb : runInserts α N k0 v m with ⟨ok, b⟩
      rw [hrb] at hok hshape hcur
      dsimp only at hok hshape hcur
      have hl2 : b.entries.length = N := hshape.2.1
      have hcap : b.capacity = N := hl2
      have hKlt : (k0 + m) % 65536 < 65536 := Nat.mod_lt _ (by omega)
      by_cases hphase : 32768 ≤ k0 ∧ k0 + m ≤ 65535
      · have hB : 65536 - N ≤ k0 := by
          rcases hk0 with h | h
          · omega
          · exact h
        have hK : (k0 + m) % 65536 = k0 + m := Nat.mod_eq_of_lt (by omega)
        have hcur0 : b.sequence = 0 := by
          rw [hcur]
          unfold cursorC7
          rw [if_pos ⟨hphase.1, by omega⟩]
        have hins : b.insert_with ((k0 + m) % 65536) (fun _ => v m) =
            (true, b.place ((k0 + m) % 65536) (v m)) := by
          unfold SequenceBuffer.insert_with
          rw [hcur0]
          rw [if_neg (by rw [hK, seqGT_zero_false (k0 + m) (by omega) (by omega)]; simp)]
          rw [hcap, if_neg (by
            rw [hK, seqLT_stale_false (k0 + m) N hN1 hN2 (by omega) (by omega)]; simp)]
        rw [runInserts, hrb]
        dsimp only
        rw [hins]
        refine ⟨by rw [hok]; rfl, ?_, ?_⟩
        · refine ShapeC7_step N k0 v m hdvd hN1 b _ hshape ?_ ?_
          · unfold SequenceBuffer.place SequenceBuffer.sequence_index
            dsimp only
            rw [hcap, Nat.mod_mod_of_dvd _ hdvd]
          · unfold SequenceBuffer.place SequenceBuffer.sequence_index
            dsimp only
            rw [hcap, Nat.mod_mod_of_dvd _ hdvd]
        · show b.sequence = cursorC7 k0 (m + 1)
          rw [hcur0]
          unfold cursorC7
          rw [if_pos ⟨hphase.1, by omega⟩]
      · have hcurK : b.sequence = (k0 + m) % 65536 := by
          rw [hcur]
          unfold cursorC7
          split
          · next hc => omega
          · rfl
        have hins : b.insert_with ((k0 + m) % 65536) (fun _ => v m) =
            (true, { sequence := wrapAdd ((k0 + m) % 65536) 1,
                     entrySequence := b.entrySequence.set ((k0 + m) % N)
                       (some ((k0 + m) % 65536)),
                     entries := b.entries.set ((k0 + m) % N) (some (v m)) }) := by
          unfold SequenceBuffer.insert_with
          rw [hcurK, if_pos (seqGT_succ _ hKlt)]
          rw [remove_entries_self b _ (by rw [hcap]; omega)]
          dsimp only
          unfold SequenceBuffer.place SequenceBuffer.sequence_index SequenceBuffer.capacity
          dsimp only
          rw [hl2, List.set_set, Nat.mod_mod_of_dvd _ hdvd]
        rw [runInserts, hrb]
        dsimp only
        rw [hins]
        refine ⟨by rw [hok]; rfl, ?_, ?_⟩
        · exact ShapeC7_step N k0 v m hdvd hN1 b _ hshape rfl rfl
        · show wrapAdd ((k0 + m) % 65536) 1 = cursorC7 k0 (m + 1)
          unfold wrapAdd cursorC7
          rw [Nat.mod_add_mod]
          rw [if_neg (fun hc => hphase ⟨hc.1, by omega⟩)]
          omega

end YojimboRs

namespace YojimboRs

/-- A key among the last `min m N` inserted is never wrap-older than
`cursor - N` after a consecutive run. -/
theorem window_not_stale (N k0 m i : Nat) (hN1 : 1 ≤ N) (hN2 : N ≤ 32768)
    (hk0' : k0 < 65536) (hk0 : k0 ≤ 32767 ∨ 65536 - N ≤ k0)
    (hi1 : i < m) (hi2 : m ≤ i + N) :
    sequence_less_than ((k0 + i) % 65536) (wrapSub (cursorC7 k0 m) N) = false := by
  unfold cursorC7
  split
  · next hph =>
    have hB : 65536 - N ≤ k0 := by
      rcases hk0 with h | h
      · omega
      · exact h
    simp only [sequence_less_than, sequence_greater_than, wrapSub, Bool.or_eq_false_iff,
      Bool.and_eq_false_iff, decide_eq_false_iff_not, not_le, not_lt]
    omega
  · next hph =>
    simp only [sequence_less_than, sequence_greater_than, wrapSub, Bool.or_eq_false_iff,
      Bool.and_eq_false_iff, decide_eq_false_iff_not, not_le, not_lt]
    omega

/-- C7 (amended): for a `SequenceBuffer` whose capacity `N` divides the
key space 65536 (with `N ≤ 32768` and a start key for which every insert
succeeds), after inserting `m ≥ 1` consecutive wrapping keys
`k0, k0+1, ...` into a fresh buffer, every insert returned true, `exists`
and `get` succeed for each of the last `min m N` keys (returning the
value stored under that key), and they fail (`false` / `None`) for every
key wrap-older than `cursor - N`.  The original claim (arbitrary `N`) is
false: a capacity not dividing 65536 aliases slots across the 16-bit
wrap (counterexample). -/
theorem c7_consecutive_inserts (α : Type) (N k0 m : Nat) (v : Nat → α)
    (hdvd : N ∣ 65536) (hN1 : 1 ≤ N) (hN2 : N ≤ 32768) (hk0' : k0 < 65536)
    (hk0 : k0 ≤ 32767 ∨ 65536 - N ≤ k0) (hm : 1 ≤ m) :
    (runInserts α N k0 v m).1 = true ∧
    (∀ i, i < m → m ≤ i + N →
      (runInserts α N k0 v m).2.existsAt ((k0 + i) % 65536) = true ∧
      (runInserts α N k0 v m).2.get ((k0 + i) % 65536) = some (v i)) ∧
    (∀ x, x < 65536 →
      sequence_less_than x (wrapSub (runInserts α N k0 v m).2.sequence N) = true →
      (runInserts α N k0 v m).2.existsAt x = false ∧
      (runInserts α N k0 v m).2.get x = none) := by
  obtain ⟨hok, hshape, hcur⟩ := runInserts_inv α N k0 v hdvd hN1 hN2 hk0' hk0 m hm
  rcases hrb : runInserts α N k0 v m with ⟨ok, b⟩
  rw [hrb] at hok hshape hcur
  dsimp only at hok hshape hcur
  obtain ⟨hl1, hl2, hpos, hall⟩ := hshape
  refine ⟨hok, ?_, ?_⟩
  · intro i hi hiN
    have hex : b.existsAt ((k0 + i) % 65536) = true := by
      unfold SequenceBuffer.existsAt SequenceBuffer.sequence_index SequenceBuffer.capacity
      rw [hl2, Nat.mod_mod_of_dvd _ hdvd, (hpos i hi hiN).1]
      simp
    refine ⟨hex, ?_⟩
    unfold SequenceBuffer.get
    rw [if_pos hex]
    unfold SequenceBuffer.sequence_index SequenceBuffer.capacity
    rw [hl2, Nat.mod_mod_of_dvd _ hdvd]
    exact (hpos i hi hiN).2
  · intro x hx hstale
    rw [hcur] at hstale
    have hxlt : x % N < N := Nat.mod_lt _ (by omega)
    have hcontent : ¬ b.entrySequence.getD (x % N) none = some x := by
      rcases hall (x % N) hxlt with hn | ⟨i, hi1, hi2, hi3⟩
      · rw [hn]
        simp
      · rw [hi3, (hpos i hi1 hi2).1]
        intro hcon
        have hxi : (k0 + i) % 65536 = x := Option.some.inj hcon
        have hns := window_not_stale N k0 m i hN1 hN2 hk0' hk0 hi1 hi2
        rw [← hxi, hns] at hstale
        exact absurd hstale (by simp)
    have hex : b.existsAt x = false := by
      unfold SequenceBuffer.existsAt SequenceBuffer.sequence_index SequenceBuffer.capacity
      rw [hl2]
      simp only [beq_eq_false_iff_ne, ne_eq]
      exact hcontent
    refine ⟨hex, ?_⟩
    unfold SequenceBuffer.get
    rw [if_neg (by rw [hex]; simp)]

/-- C7 counterexample: with capacity 3 (which does not divide 65536),
inserting the consecutive keys 65534, 65535, 0 succeeds each time, yet
key 65535 — one of the last three inserted — is no longer retrievable:
key 0 lands on slot 0 = 65535 mod 3 across the 16-bit wrap and evicts
it.  This refutes the unqualified claim. -/
theorem c7_counterexample :
    (runInserts Nat 3 65534 (fun i => i) 3).1 = true ∧
    (runInserts Nat 3 65534 (fun i => i) 3).2.existsAt 65535 = false := by
  decide

theorem c7_witness :
    (runInserts Nat 4 65532 (fun i => i + 100) 6).1 = true ∧
    (∀ i, i < 6 → 6 ≤ i + 4 →
      (runInserts Nat 4 65532 (fun i => i + 100) 6).2.existsAt ((65532 + i) % 65536) = true ∧
      (runInserts Nat 4 65532 (fun i => i + 100) 6).2.get ((65532 + i) % 65536) =
        some (i + 100)) ∧
    (∀ x, x < 65536 →
      sequence_less_than x
        (wrapSub (runInserts Nat 4 65532 (fun i => i + 100) 6).2.sequence 4) = true →
      (runInserts Nat 4 65532 (fun i => i + 100) 6).2.existsAt x = false ∧
      (runInserts Nat 4 65532 (fun i => i + 100) 6).2.get x = none) :=
  c7_consecutive_inserts Nat 4 65532 6 (fun i => i + 100) (by decide) (by decide)
    (by decide) (by decide) (Or.inr (by decide)) (by decide)

end YojimboRs

namespace YojimboRs

/-! ## Queue-preservation lemmas for the ordering claim (C1) -/

/-- `gmtsLoop` only updates `time_last_sent` through `touchTimeLastSent`:
any time-independent per-entry property of the send queue survives it. -/
theorem gmtsLoop_get_pres (resend now : Int) (cap maxm oldest avail : Nat)
    (P : Nat → MessageSendQueueEntry α → Prop)
    (hP : ∀ j (e : MessageSendQueueEntry α) (t : Int),
      P j e → P j { e with time_last_sent := t }) :
    ∀ (count i : Nat) (q : SequenceBuffer (MessageSendQueueEntry α)) (ids : List Nat)
      (used giveUp : Nat),
      QWF q → (∀ j e, q.get j = some e → P j e) →
      QWF (gmtsLoop resend now cap maxm oldest avail i count q ids used giveUp).2.2 ∧
      (∀ j e,
        (gmtsLoop resend now cap maxm oldest avail i count q ids used giveUp).2.2.get j =
          some e → P j e) := by
  intro count
  induction count with
  | zero =>
    intro i q ids used giveUp h1 h2
    exact ⟨h1, h2⟩
  | succ n ih =>
    intro i q ids used giveUp h1 h2
    rw [gmtsLoop]
    by_cases hb1 : wrapSub64 avail used < 32
    · rw [if_pos hb1]
      exact ⟨h1, h2⟩
    · rw [if_neg hb1]
      by_cases hb2 : giveUp > cap
      · rw [if_pos hb2]
        exact ⟨h1, h2⟩
      · rw [if_neg hb2]
        dsimp only
        cases hget : q.get (wrapAdd oldest i) with
        | none => exact ih (i + 1) q ids used giveUp h1 h2
        | some entry =>
          dsimp only
          by_cases hc : entry.time_last_sent + resend ≤ now ∧ avail ≥ entry.measured_bits
          · rw [if_pos hc]
            by_cases hover : used + (entry.measured_bits + 16) > avail
            · rw [if_pos hover]
              exact ih (i + 1) q ids used (giveUp + 1) h1 h2
            · rw [if_neg hover]
              have hq' := touchTimeLastSent_es q (wrapAdd oldest i) now
              have hQWF' : QWF (touchTimeLastSent q (wrapAdd oldest i) now) := hq'.2.2.2 h1
              have hpres' : ∀ j e,
                  (touchTimeLastSent q (wrapAdd oldest i) now).get j = some e → P j e := by
                intro j e he
                rw [get_touchTimeLastSent q h1 (wrapAdd oldest i) now j] at he
                by_cases hk : j = wrapAdd oldest i
                · rw [if_pos hk, hget] at he
                  dsimp only [Option.map] at he
                  injection he with he
                  subst he
                  subst hk
                  exact hP _ entry now (h2 _ entry hget)
                · rw [if_neg hk] at he
                  exact h2 j e he
              by_cases hfull : (ids ++ [wrapAdd oldest i]).length ≥ maxm
              · rw [if_pos hfull]
                exact ⟨hQWF', hpres'⟩
              · rw [if_neg hfull]
                exact ih (i + 1) (touchTimeLastSent q (wrapAdd oldest i) now)
                  (ids ++ [wrapAdd oldest i]) (used + (entry.measured_bits + 16)) giveUp
                  hQWF' hpres'
          · rw [if_neg hc]
            by_cases hfull : ids.length ≥ maxm
            · rw [if_pos hfull]
              exact ⟨h1, h2⟩
            · rw [if_neg hfull]
              exact ih (i + 1) q ids used giveUp h1 h2

/-- The message list built by `get_message_packet_data` pairs each id with
the message of that id's send-queue entry. -/
theorem gmpd_mem (q : SequenceBuffer (MessageSendQueueEntry α)) :
    ∀ (ids : List Nat) (msgs : List (Nat × α)),
      (ids.mapM fun id => (q.get id).map fun e => (id, e.message)) = some msgs →
      ∀ p ∈ msgs, ∃ e, q.get p.1 = some e ∧ p.2 = e.message := by
  intro ids
  induction ids with
  | nil =>
    intro msgs h p hp
    have h' : some ([] : List (Nat × α)) = some msgs := h
    injection h' with h'
    rw [← h'] at hp
    exact absurd hp (by simp)
  | cons id rest ih =>
    intro msgs h p hp
    rw [List.mapM_cons] at h
    cases hget : q.get id with
    | none =>
      rw [hget] at h
      simp at h
    | some e =>
      rw [hget] at h
      simp only [Option.map_some', Option.pure_def, Option.bind_eq_bind,
        Option.some_bind] at h
      cases hrest : rest.mapM fun id => (q.get id).map fun e => (id, e.message) with
      | none =>
        rw [hrest] at h
        simp at h
      | some msgs' =>
        rw [hrest] at h
        have h' : some ((id, e.message) :: msgs') = some msgs := h
        injection h' with h'
        rw [← h'] at hp
        rcases List.mem_cons.mp hp with hp | hp
        · subst hp
          exact ⟨e, hget, rfl⟩
        · exact ih msgs' hrest p hp

/-- `ackLoop` only removes send-queue entries. -/
theorem ackLoop_pres :
    ∀ (ids : List Nat) (q q' : SequenceBuffer (MessageSendQueueEntry α))
      (oldest oldest' : Nat),
      QWF q → ackLoop q oldest ids = some (q', oldest') →
      QWF q' ∧ (∀ j e, q'.get j = some e → q.get j = some e) := by
  intro ids
  induction ids with
  | nil =>
    intro q q' oldest oldest' h1 h
    rw [ackLoop] at h
    injection h with h
    injection h with ha hb
    subst ha
    exact ⟨h1, fun j e he => he⟩
  | cons id rest ih =>
    intro q q' oldest oldest' h1 h
    rw [ackLoop] at h
    dsimp only at h
    rw [SequenceBuffer.take_fst] at h
    cases hget : q.get id with
    | none =>
      rw [hget] at h
      exact ih q q' oldest oldest' h1 h
    | some entry =>
      rw [hget] at h
      dsimp only at h
      split at h
      · exact absurd h (by simp)
      · split at h
        · exact absurd h (by simp)
        · obtain ⟨h2, h3⟩ := ih _ q' _ oldest' (SequenceBuffer.QWF_take q id h1) h
          exact ⟨h2, fun j e he => SequenceBuffer.get_take q h1 id j e (h3 j e he)⟩

/-- `rppLoop` preserves the receive-queue invariant when every delivered
pair is a sent message under its id. -/
theorem rppLoop_pres (sent : List α) (minId maxId : Nat) :
    ∀ (msgs : List (Nat × α)) (q q' : SequenceBuffer (MessageReceiveQueueEntry α)),
      QWF q → RQInv sent q → (∀ p ∈ msgs, sent.get? p.1 = some p.2) →
      rppLoop minId maxId q msgs = some q' →
      QWF q' ∧ RQInv sent q' := by
  intro msgs
  induction msgs with
  | nil =>
    intro q q' h1 h2 h3 h
    rw [rppLoop] at h
    injection h with h
    rw [← h]
    exact ⟨h1, h2⟩
  | cons p rest ih =>
    rcases p with ⟨id, m⟩
    intro q q' h1 h2 h3 h
    rw [rppLoop] at h
    split at h
    · exact ih q q' h1 h2 (fun p hp => h3 p (by simp [hp])) h
    · split at h
      · exact absurd h (by simp)
      · dsimp only at h
        split at h
        · next hok =>
          refine ih _ q' (SequenceBuffer.QWF_insert_with q id _ h1) ?_
            (fun p hp => h3 p (by simp [hp])) h
          intro j e he
          rcases SequenceBuffer.get_insert_with q h1 id _ j e he with ⟨hj, hee⟩ | hold
          · subst hj
            rw [hee]
            exact ⟨rfl, h3 (j, m) (by simp)⟩
          · exact h2 j e hold
        · exact absurd h (by simp)

end YojimboRs

namespace YojimboRs

theorem get?_lt (l : List α) (k : Nat) (x : α) (h : l.get? k = some x) : k < l.length := by
  rw [List.get?_eq_getElem?] at h
  exact (List.getElem?_eq_some.mp h).1

theorem get?_append_pres (l l2 : List α) (k : Nat) (x : α) (h : l.get? k = some x) :
    (l ++ l2).get? k = some x := by
  rw [List.get?_eq_getElem?] at h ⊢
  rw [List.getElem?_append, if_pos (List.getElem?_eq_some.mp h).1]
  exact h

theorem get?_concat_self (l : List α) (a : α) : (l ++ [a]).get? l.length = some a := by
  rw [List.get?_eq_getElem?]
  exact List.getElem?_concat_length l a

theorem SQInv_append (sent : List α) (m : α) (q : SequenceBuffer (MessageSendQueueEntry α))
    (h : SQInv sent q) : SQInv (sent ++ [m]) q := by
  intro k e he
  exact ⟨(h k e he).1, get?_append_pres _ _ _ _ (h k e he).2⟩

theorem RQInv_append (sent : List α) (m : α)
    (q : SequenceBuffer (MessageReceiveQueueEntry α)) (h : RQInv sent q) :
    RQInv (sent ++ [m]) q := by
  intro k e he
  exact ⟨(h k e he).1, get?_append_pres _ _ _ _ (h k e he).2⟩

theorem PoolInv_append (sent : List α) (m : α) (pool : List (ChannelPacketData α))
    (h : PoolInv sent pool) : PoolInv (sent ++ [m]) pool := by
  intro pd hpd p hp
  exact get?_append_pres _ _ _ _ (h pd hpd p hp)

/-- The two prefix conjuncts of `C1Inv` survive appending to `sent`. -/
theorem prefix_append (sent delivered : List α) (m : α)
    (h1 : delivered = sent.take delivered.length) (h2 : delivered.length ≤ sent.length) :
    delivered = (sent ++ [m]).take delivered.length ∧
      delivered.length ≤ (sent ++ [m]).length := by
  constructor
  · rw [List.take_append_of_le_length h2]
    exact h1
  · rw [List.length_append]
    omega

end YojimboRs


namespace YojimboRs

/-- Spec of a successful `Reliable::send_message`: the id advances by one
(wrapping) and the queue gains exactly the entry for the sent message. -/
theorem send_message_spec (ser : α → List Nat) (s : Reliable α) (m : α) (s' : Reliable α)
    (hwf : QWF s.message_send_queue) (h : s.send_message ser m = some s') :
    s'.send_message_id = wrapAdd s.send_message_id 1 ∧
    QWF s'.message_send_queue ∧
    (∀ j e, s'.message_send_queue.get j = some e →
      (j = s.send_message_id ∧ e.message_id = s.send_message_id ∧ e.message = m) ∨
      s.message_send_queue.get j = some e) := by
  unfold Reliable.send_message at h
  split at h
  · exact absurd h (by simp)
  · dsimp only at h
    split at h
    · injection h with h
      subst h
      refine ⟨rfl, ?_, ?_⟩
      · exact SequenceBuffer.QWF_insert_with s.message_send_queue s.send_message_id
          (fun _ =>
            { message_id := s.send_message_id, message := m,
              measured_bits := 8 * (ser m).length, time_last_sent := -1 }) hwf
      · intro j e he
        have hgi := SequenceBuffer.get_insert_with s.message_send_queue hwf
          s.send_message_id
          (fun _ =>
            { message_id := s.send_message_id, message := m,
              measured_bits := 8 * (ser m).length, time_last_sent := -1 }) j e
        rcases hgi he with ⟨hj, hee⟩ | hold
        · left
          exact ⟨hj, by rw [hee], by rw [hee]⟩
        · exact Or.inr hold
    · exact absurd h (by simp)

end YojimboRs

namespace YojimboRs

/-- A send event preserves the execution invariant (under the no-wrap
send budget). -/
theorem c1_step_send (ser : α → List Nat) (st : Exec α) (m : α)
    (hInv : C1Inv st) (hlen : st.sent.length + 1 ≤ 65535) :
    C1Inv (Exec.step ser st (Ev.send m)) ∧
    (Exec.step ser st (Ev.send m)).sent.length ≤ st.sent.length + 1 := by
  obtain ⟨hpre, hle, hrest⟩ := hInv
  by_cases hhal : st.halted = true
  · unfold Exec.step
    rw [if_pos hhal]
    exact ⟨⟨hpre, hle, hrest⟩, by omega⟩
  · obtain ⟨s, r, hps, hpr, hss, hrs, hpi⟩ := hrest (by
      revert hhal
      cases st.halted <;> simp)
    have hpfx := prefix_append st.sent st.delivered m hpre hle
    unfold Exec.step
    rw [if_neg hhal]
    dsimp only
    unfold Channel.send_message
    by_cases herr : st.sender.error_level = ChannelErrorLevel.None
    · rw [if_neg (by simp [herr])]
      by_cases hcan : st.sender.can_send_message = true
      · rw [if_neg (by simp [hcan])]
        rw [hps]
        dsimp only
        cases hsm : s.send_message ser m with
        | none =>
          simp only [Option.map_none']
          refine ⟨⟨hpfx.1, hpfx.2, ?_⟩, by simp⟩
          intro h
          simp at h
        | some s' =>
          obtain ⟨hid, hqwf, hget⟩ := send_message_spec ser s m s' hss.2.1 hsm
          simp only [Option.map_some']
          refine ⟨⟨hpfx.1, hpfx.2, ?_⟩, by simp⟩
          intro _
          refine ⟨s', r, rfl, hpr, ⟨?_, hqwf, ?_⟩,
            ⟨hrs.1, hrs.2.1, RQInv_append _ _ _ hrs.2.2⟩, PoolInv_append _ _ _ hpi⟩
          · intro _
            rw [hid, hss.1 herr]
            unfold wrapAdd
            rw [List.length_append]
            simp only [List.length_cons, List.length_nil]
            omega
          · intro j e he
            rcases hget j e he with ⟨hj, hmi, hmm⟩ | hold
            · have hj' : j = st.sent.length := by rw [hj, hss.1 herr]
              refine ⟨by rw [hmi, hj], ?_⟩
              rw [hmm, hj']
              exact get?_concat_self st.sent m
            · exact SQInv_append _ _ _ hss.2.2 j e hold
      · rw [if_pos hcan]
        refine ⟨⟨hpfx.1, hpfx.2, ?_⟩, by simp⟩
        intro _
        refine ⟨s, r, hps, hpr, ⟨?_, hss.2.1, SQInv_append _ _ _ hss.2.2⟩,
          ⟨hrs.1, hrs.2.1, RQInv_append _ _ _ hrs.2.2⟩, PoolInv_append _ _ _ hpi⟩
        intro h
        exact absurd h (by simp)
    · rw [if_pos herr]
      refine ⟨⟨hpfx.1, hpfx.2, ?_⟩, by simp⟩
      intro _
      refine ⟨s, r, hps, hpr, ⟨fun h => absurd h herr, hss.2.1, SQInv_append _ _ _ hss.2.2⟩,
        ⟨hrs.1, hrs.2.1, RQInv_append _ _ _ hrs.2.2⟩, PoolInv_append _ _ _ hpi⟩

end YojimboRs

namespace YojimboRs

/-- Spec of a successful `Reliable::process_ack`: the send id is unchanged
and the send queue only loses entries. -/
theorem process_ack_spec (s s2 : Reliable α) (a : Nat)
    (hwf : QWF s.message_send_queue) (h : s.process_ack a = some s2) :
    s2.send_message_id = s.send_message_id ∧ QWF s2.message_send_queue ∧
    (∀ j e, s2.message_send_queue.get j = some e → s.message_send_queue.get j = some e) := by
  unfold Reliable.process_ack at h
  split at h
  · injection h with h
    subst h
    exact ⟨rfl, hwf, fun j e he => he⟩
  · split at h
    · exact absurd h (by simp)
    · dsimp only at h
      split at h
      · exact absurd h (by simp)
      · split at h
        · exact absurd h (by simp)
        · next q' oldest' heq =>
          injection h with h
          subst h
          obtain ⟨h1, h2⟩ := ackLoop_pres _ s.message_send_queue q' _ oldest' hwf heq
          exact ⟨rfl, h1, h2⟩

/-- Spec of a successful `Reliable::packet_data` for the ordering
invariant: ids and queue invariants survive, and every packed pair is a
sent message under its id. -/
theorem packet_data_spec_c1 (s : Reliable α) (ci seq avail : Nat)
    (pd : ChannelPacketData α) (bits : Nat) (s2 : Reliable α) (sent : List α)
    (hwf : QWF s.message_send_queue) (hsq : SQInv sent s.message_send_queue)
    (h : s.packet_data ci seq avail = some (pd, bits, s2)) :
    s2.send_message_id = s.send_message_id ∧
    QWF s2.message_send_queue ∧ SQInv sent s2.message_send_queue ∧
    (∀ p ∈ pd.messages, sent.get? p.1 = some p.2) := by
  unfold Reliable.packet_data at h
  split at h
  · injection h with h
    injection h with h1 h
    injection h with h2 h3
    subst h1
    subst h3
    refine ⟨rfl, hwf, hsq, ?_⟩
    intro p hp
    rw [show (ChannelPacketData.empty α).messages = [] from rfl] at hp
    exact absurd hp (by simp)
  · split at h
    · exact absurd h (by simp)
    · next message_ids message_bits sMid heq =>
      unfold Reliable.get_messages_to_send at heq
      split at heq
      · exact absurd heq (by simp)
      · generalize hA : (match s.config.packet_budget with
          | some packet_budget => min (packet_budget * 8) avail
          | none => avail) = availX at heq
        dsimp only at heq
        injection heq with heq
        injection heq with heqA heqB
        injection heqA with hidsA hbitsA
        obtain ⟨hwf', hsq'⟩ := gmtsLoop_get_pres (α := α) s.config.message_resend_time
          s.time s.message_send_queue.capacity s.config.max_messages_per_packet
          s.oldest_unacked_message_id availX
          (fun j e => e.message_id = j ∧ sent.get? j = some e.message)
          (fun j e t hP => hP)
          (min s.message_receive_queue.capacity s.message_send_queue.capacity) 0
          s.message_send_queue [] 32 0 hwf hsq
        subst heqB
        subst hidsA
        split at h
        · injection h with h
          injection h with h1 h
          injection h with h2 h3
          subst h1
          subst h3
          refine ⟨rfl, hwf', hsq', ?_⟩
          intro p hp
          rw [show (ChannelPacketData.empty α).messages = [] from rfl] at hp
          exact absurd hp (by simp)
        · unfold Reliable.get_message_packet_data at h
          split at h
          · exact absurd h (by simp)
          · next pdv hpd =>
            rcases Option.bind_eq_some.mp hpd with ⟨msgs, hmapm, hpure⟩
            injection hpure with hpure
            injection h with h
            injection h with h1 h
            injection h with h2 h3
            subst h1
            subst h3
            refine ⟨rfl, hwf', hsq', ?_⟩
            intro p hp
            rw [← hpure] at hp
            obtain ⟨e, hge, hpe⟩ := gmpd_mem _ _ msgs hmapm p hp
            obtain ⟨hmi, hsm⟩ := hsq' p.1 e hge
            rw [hpe, ← hsm]

end YojimboRs

namespace YojimboRs

/-- Spec of a successful `Reliable::process_packet_data`: the receive id
is unchanged and the queue invariant survives when every delivered pair
is a sent message under its id. -/
theorem process_packet_data_spec_c1 (r r2 : Reliable α) (pd : ChannelPacketData α)
    (seq : Nat) (sent : List α) (hwf : QWF r.message_receive_queue)
    (hrq : RQInv sent r.message_receive_queue)
    (hpd : ∀ p ∈ pd.messages, sent.get? p.1 = some p.2)
    (h : r.process_packet_data pd seq = some r2) :
    r2.receive_message_id = r.receive_message_id ∧
    QWF r2.message_receive_queue ∧ RQInv sent r2.message_receive_queue := by
  unfold Reliable.process_packet_data at h
  dsimp only at h
  cases hpp : rppLoop r.receive_message_id
      (wrapAdd r.receive_message_id (wrapSub64 r.message_receive_queue.capacity 1 % 65536))
      r.message_receive_queue pd.messages with
  | none =>
    rw [hpp] at h
    exact absurd h (by simp)
  | some q2 =>
    rw [hpp] at h
    simp only [Option.map_some'] at h
    injection h with h
    subst h
    obtain ⟨h1, h2⟩ := rppLoop_pres sent r.receive_message_id
      (wrapAdd r.receive_message_id (wrapSub64 r.message_receive_queue.capacity 1 % 65536))
      pd.messages r.message_receive_queue q2 hwf hrq hpd hpp
    exact ⟨rfl, h1, h2⟩

/-- Spec of `Reliable::receive_message`. -/
theorem receive_message_spec (r : Reliable α) (res : Option (Nat × α)) (r2 : Reliable α)
    (hwf : QWF r.message_receive_queue) (h : r.receive_message = some (res, r2)) :
    (res = none ∧ r2 = r) ∨
    (∃ entry : MessageReceiveQueueEntry α,
      r.message_receive_queue.get r.receive_message_id = some entry ∧
      res = some (r.receive_message_id, entry.message) ∧
      r2.receive_message_id = wrapAdd r.receive_message_id 1 ∧
      QWF r2.message_receive_queue ∧
      (∀ j e, r2.message_receive_queue.get j = some e →
        r.message_receive_queue.get j = some e)) := by
  unfold Reliable.receive_message at h
  dsimp only at h
  rw [SequenceBuffer.take_fst] at h
  cases hget : r.message_receive_queue.get r.receive_message_id with
  | none =>
    rw [hget] at h
    injection h with h
    injection h with hres hr2
    exact Or.inl ⟨hres.symm, hr2.symm⟩
  | some entry =>
    rw [hget] at h
    dsimp only at h
    split at h
    · exact absurd h (by simp)
    · next hne =>
      have hid : entry.message_id = r.receive_message_id := not_not.mp hne
      injection h with h
      injection h with hres hr2
      subst hr2
      refine Or.inr ⟨entry, rfl, ?_, rfl, ?_, ?_⟩
      · rw [← hres, hid]
      · exact SequenceBuffer.QWF_take r.message_receive_queue r.receive_message_id hwf
      · intro j e he
        exact SequenceBuffer.get_take r.message_receive_queue hwf r.receive_message_id j e he

end YojimboRs

namespace YojimboRs

/-- A packet-generation event preserves the execution invariant. -/
theorem c1_step_gen (ser : α → List Nat) (st : Exec α) (bits seq : Nat)
    (hInv : C1Inv st) :
    C1Inv (Exec.step ser st (Ev.gen bits seq)) ∧
    (Exec.step ser st (Ev.gen bits seq)).sent = st.sent := by
  obtain ⟨hpre, hle, hrest⟩ := hInv
  by_cases hhal : st.halted = true
  · unfold Exec.step
    rw [if_pos hhal]
    exact ⟨⟨hpre, hle, hrest⟩, rfl⟩
  · obtain ⟨s, r, hps, hpr, hss, hrs, hpi⟩ := hrest (by
      revert hhal
      cases st.halted <;> simp)
    unfold Exec.step
    rw [if_neg hhal]
    dsimp only
    unfold Channel.packet_data
    rw [hps]
    dsimp only
    cases hpd : s.packet_data st.sender.channel_index (seq % 65536) bits with
    | none =>
      simp only [Option.map_none']
      refine ⟨⟨hpre, hle, ?_⟩, by simp⟩
      intro h
      simp at h
    | some t =>
      rcases t with ⟨pd, pdBits, s2⟩
      obtain ⟨hid, hqwf, hsq2, hpairs⟩ := packet_data_spec_c1 s st.sender.channel_index
        (seq % 65536) bits pd pdBits s2 st.sent hss.2.1 hss.2.2 hpd
      simp only [Option.map_some']
      refine ⟨⟨hpre, hle, ?_⟩, by simp⟩
      intro _
      refine ⟨s2, r, rfl, hpr, ⟨?_, hqwf, hsq2⟩, hrs, ?_⟩
      · intro herr2
        rw [hid]
        exact hss.1 herr2
      · intro pd' hpd' p hp
        by_cases hb : pdBits > 0
        · rw [if_pos hb] at hpd'
          rcases List.mem_append.mp hpd' with hmem | hmem
          · exact hpi pd' hmem p hp
          · have hpdeq : pd' = pd := by simpa using hmem
            subst hpdeq
            exact hpairs p hp
        · rw [if_neg hb] at hpd'
          exact hpi pd' hpd' p hp

/-- A packet-delivery event preserves the execution invariant (the pool
entry may be any previously generated packet: losses, duplicates and
reordering are all admissible). -/
theorem c1_step_deliver (ser : α → List Nat) (st : Exec α) (i seq : Nat)
    (hInv : C1Inv st) :
    C1Inv (Exec.step ser st (Ev.deliver i seq)) ∧
    (Exec.step ser st (Ev.deliver i seq)).sent = st.sent := by
  obtain ⟨hpre, hle, hrest⟩ := hInv
  by_cases hhal : st.halted = true
  · unfold Exec.step
    rw [if_pos hhal]
    exact ⟨⟨hpre, hle, hrest⟩, rfl⟩
  · obtain ⟨s, r, hps, hpr, hss, hrs, hpi⟩ := hrest (by
      revert hhal
      cases st.halted <;> simp)
    unfold Exec.step
    rw [if_neg hhal]
    dsimp only
    cases hpl : st.pool.get? i with
    | none => exact ⟨⟨hpre, hle, hrest⟩, rfl⟩
    | some pd =>
      have hmem : pd ∈ st.pool := List.get?_mem hpl
      dsimp only
      unfold Channel.process_packet_data
      by_cases herr : st.receiver.error_level = ChannelErrorLevel.None
      · rw [if_neg (by simp [herr])]
        rw [hpr]
        dsimp only
        cases hppd : r.process_packet_data pd (seq % 65536) with
        | none =>
          simp only [Option.map_none']
          refine ⟨⟨hpre, hle, ?_⟩, by simp⟩
          intro h
          simp at h
        | some r2 =>
          obtain ⟨hrid, hqwf, hrq2⟩ := process_packet_data_spec_c1 r r2 pd (seq % 65536)
            st.sent hrs.2.1 hrs.2.2 (fun p hp => hpi pd hmem p hp) hppd
          simp only [Option.map_some']
          refine ⟨⟨hpre, hle, ?_⟩, by simp⟩
          intro _
          refine ⟨s, r2, hps, rfl, hss, ⟨?_, hqwf, hrq2⟩, hpi⟩
          rw [hrid]
          exact hrs.1
      · rw [if_pos herr]
        exact ⟨⟨hpre, hle, fun _ => ⟨s, r, hps, hpr, hss, hrs, hpi⟩⟩, rfl⟩

/-- An ack event preserves the execution invariant. -/
theorem c1_step_ack (ser : α → List Nat) (st : Exec α) (seq : Nat) (hInv : C1Inv st) :
    C1Inv (Exec.step ser st (Ev.ack seq)) ∧
    (Exec.step ser st (Ev.ack seq)).sent = st.sent := by
  obtain ⟨hpre, hle, hrest⟩ := hInv
  by_cases hhal : st.halted = true
  · unfold Exec.step
    rw [if_pos hhal]
    exact ⟨⟨hpre, hle, hrest⟩, rfl⟩
  · obtain ⟨s, r, hps, hpr, hss, hrs, hpi⟩ := hrest (by
      revert hhal
      cases st.halted <;> simp)
    unfold Exec.step
    rw [if_neg hhal]
    dsimp only
    unfold Channel.process_ack
    rw [hps]
    dsimp only
    cases hpa : s.process_ack (seq % 65536) with
    | none =>
      simp only [Option.map_none']
      refine ⟨⟨hpre, hle, ?_⟩, by simp⟩
      intro h
      simp at h
    | some s2 =>
      obtain ⟨hid, hqwf, hpres⟩ := process_ack_spec s s2 (seq % 65536) hss.2.1 hpa
      simp only [Option.map_some']
      refine ⟨⟨hpre, hle, ?_⟩, by simp⟩
      intro _
      refine ⟨s2, r, rfl, hpr, ⟨?_, hqwf, ?_⟩, hrs, hpi⟩
      · intro herr2
        rw [hid]
        exact hss.1 herr2
      · intro j e he
        exact hss.2.2 j e (hpres j e he)

/-- A time event preserves the execution invariant. -/
theorem c1_step_time (ser : α → List Nat) (st : Exec α) (ts tr : Int) (hInv : C1Inv st) :
    C1Inv (Exec.step ser st (Ev.time ts tr)) ∧
    (Exec.step ser st (Ev.time ts tr)).sent = st.sent := by
  obtain ⟨hpre, hle, hrest⟩ := hInv
  by_cases hhal : st.halted = true
  · unfold Exec.step
    rw [if_pos hhal]
    exact ⟨⟨hpre, hle, hrest⟩, rfl⟩
  · obtain ⟨s, r, hps, hpr, hss, hrs, hpi⟩ := hrest (by
      revert hhal
      cases st.halted <;> simp)
    unfold Exec.step
    rw [if_neg hhal]
    dsimp only
    unfold Channel.advance_time
    rw [hps, hpr]
    dsimp only
    refine ⟨⟨hpre, hle, ?_⟩, rfl⟩
    intro _
    exact ⟨s.advance_time ts, r.advance_time tr, rfl, rfl,
      ⟨hss.1, hss.2.1, hss.2.2⟩, ⟨hrs.1, hrs.2.1, hrs.2.2⟩, hpi⟩

/-- A receive event preserves the execution invariant (the delivered list
grows only by the next in-order sent message). -/
theorem c1_step_recv (ser : α → List Nat) (st : Exec α) (hInv : C1Inv st)
    (hcap : st.sent.length ≤ 65535) :
    C1Inv (Exec.step ser st Ev.recv) ∧
    (Exec.step ser st Ev.recv).sent = st.sent := by
  obtain ⟨hpre, hle, hrest⟩ := hInv
  by_cases hhal : st.halted = true
  · unfold Exec.step
    rw [if_pos hhal]
    exact ⟨⟨hpre, hle, hrest⟩, rfl⟩
  · obtain ⟨s, r, hps, hpr, hss, hrs, hpi⟩ := hrest (by
      revert hhal
      cases st.halted <;> simp)
    unfold Exec.step
    rw [if_neg hhal]
    dsimp only
    unfold Channel.receive_message
    by_cases herr : st.receiver.error_level = ChannelErrorLevel.None
    · rw [if_neg (by simp [herr])]
      rw [hpr]
      dsimp only
      cases hrm : r.receive_message with
      | none =>
        simp only [Option.map_none']
        refine ⟨⟨hpre, hle, ?_⟩, by simp⟩
        intro h
        simp at h
      | some t =>
        rcases t with ⟨res, r2⟩
        have hspec := receive_message_spec r res r2 hrs.2.1 hrm
        simp only [Option.map_some']
        rcases hspec with ⟨hres, hr2⟩ | ⟨entry, hget, hres, hrid, hqwf, hpres⟩
        · subst hres
          dsimp only
          refine ⟨⟨hpre, hle, ?_⟩, by simp⟩
          intro _
          refine ⟨s, r2, hps, rfl, hss, ?_, hpi⟩
          rw [hr2]
          exact hrs
        · subst hres
          dsimp only
          obtain ⟨hmi, hsm⟩ := hrs.2.2 r.receive_message_id entry hget
          have hidlen : r.receive_message_id = st.delivered.length := hrs.1
          have hlt : st.delivered.length < st.sent.length := by
            rw [← hidlen]
            exact get?_lt _ _ _ hsm
          refine ⟨⟨?_, ?_, ?_⟩, by simp⟩
          · rw [List.length_append]
            simp only [List.length_cons, List.length_nil]
            rw [List.take_succ, ← hpre]
            have hgs : st.sent[st.delivered.length]? = some entry.message := by
              rw [← List.get?_eq_getElem?, ← hidlen]
              exact hsm
            rw [hgs]
            rfl
          · rw [List.length_append]
            simp only [List.length_cons, List.length_nil]
            omega
          · intro _
            refine ⟨s, r2, hps, rfl, hss, ⟨?_, hqwf, ?_⟩, hpi⟩
            · rw [hrid, hidlen]
              unfold wrapAdd
              rw [List.length_append]
              simp only [List.length_cons, List.length_nil]
              omega
            · intro j e he
              exact hrs.2.2 j e (hpres j e he)
    · rw [if_pos herr]
      exact ⟨⟨hpre, hle, fun _ => ⟨s, r, hps, hpr, hss, hrs, hpi⟩⟩, rfl⟩

end YojimboRs

namespace YojimboRs

/-- The initial execution state satisfies the invariant. -/
theorem C1Inv_init (α : Type) (config : ChannelConfig) (t0 : Int) :
    C1Inv (Exec.init α config t0) := by
  refine ⟨rfl, by simp [Exec.init], ?_⟩
  intro _
  refine ⟨Reliable.new α config t0, Reliable.new α config t0, rfl, rfl, ?_, ?_, ?_⟩
  · refine ⟨fun _ => rfl, by simp [Reliable.new, QWF, SequenceBuffer.new], ?_⟩
    intro k e he
    rw [show (Reliable.new α config t0).message_send_queue =
      SequenceBuffer.new _ config.message_send_queue_size from rfl,
      SequenceBuffer.get_new] at he
    exact absurd he (by simp)
  · refine ⟨rfl, by simp [Reliable.new, QWF, SequenceBuffer.new], ?_⟩
    intro k e he
    rw [show (Reliable.new α config t0).message_receive_queue =
      SequenceBuffer.new _ config.message_receive_queue_size from rfl,
      SequenceBuffer.get_new] at he
    exact absurd he (by simp)
  · intro pd hpd
    exact absurd hpd (by simp [Exec.init])

theorem sendCount_cons (ev : Ev α) (rest : List (Ev α)) :
    sendCount (ev :: rest) = sendCount [ev] + sendCount rest := by
  cases ev <;> simp [sendCount] <;> omega

/-- Every event preserves the invariant under the send budget. -/
theorem c1_step_inv (ser : α → List Nat) (st : Exec α) (ev : Ev α) (hInv : C1Inv st)
    (hlen : st.sent.length + sendCount [ev] ≤ 65535) :
    C1Inv (Exec.step ser st ev) ∧
    (Exec.step ser st ev).sent.length ≤ st.sent.length + sendCount [ev] := by
  cases ev with
  | send m =>
    have h := c1_step_send ser st m hInv (by
      simp only [sendCount] at hlen
      omega)
    refine ⟨h.1, ?_⟩
    simp only [sendCount]
    omega
  | gen bits seq =>
    have h := c1_step_gen ser st bits seq hInv
    exact ⟨h.1, by rw [h.2]; omega⟩
  | deliver i seq =>
    have h := c1_step_deliver ser st i seq hInv
    exact ⟨h.1, by rw [h.2]; omega⟩
  | ack seq =>
    have h := c1_step_ack ser st seq hInv
    exact ⟨h.1, by rw [h.2]; omega⟩
  | recv =>
    have h := c1_step_recv ser st hInv (by
      simp only [sendCount] at hlen
      omega)
    exact ⟨h.1, by rw [h.2]; omega⟩
  | time ts tr =>
    have h := c1_step_time ser st ts tr hInv
    exact ⟨h.1, by rw [h.2]; omega⟩

/-- Folding any event list under the total send budget preserves the
invariant. -/
theorem c1_run_inv (ser : α → List Nat) :
    ∀ (evs : List (Ev α)) (st : Exec α), C1Inv st →
      st.sent.length + sendCount evs ≤ 65535 →
      C1Inv (evs.foldl (Exec.step ser) st) := by
  intro evs
  induction evs with
  | nil =>
    intro st h _
    simpa using h
  | cons ev rest ih =>
    intro st h hb
    rw [List.foldl_cons]
    rw [sendCount_cons] at hb
    obtain ⟨h1, h2⟩ := c1_step_inv ser st ev h (by omega)
    exact ih _ h1 (by omega)

/-- C1 (amended): on a single reliable-ordered channel, for every
execution in which the receiver is fed any selection of the sender's
generated packets in any order, with any losses and duplicates, and at
most 65535 messages are sent in total, the delivered sequence is a
prefix of the sent sequence in exactly the send order.  Without the
send budget the claim is false: ids are 16-bit and wrap after 65536
sends, and a duplicate of the first packet is then accepted again
(counterexample). -/
theorem c1_reliable_ordering (ser : α → List Nat) (config : ChannelConfig) (t0 : Int)
    (evs : List (Ev α)) (hload : sendCount evs ≤ 65535) :
    ∃ t, (Exec.run ser config t0 evs).delivered ++ t = (Exec.run ser config t0 evs).sent := by
  have hInv : C1Inv (Exec.run ser config t0 evs) :=
    c1_run_inv ser evs (Exec.init α config t0) (C1Inv_init α config t0)
      (by simpa [Exec.init] using hload)
  obtain ⟨hpre, hle, hrest⟩ := hInv
  have hsplit := List.take_append_drop (Exec.run ser config t0 evs).delivered.length
    (Exec.run ser config t0 evs).sent
  rw [← hpre] at hsplit
  exact ⟨_, hsplit⟩

theorem c1_ordering_witness :
    ∃ t, (Exec.run serCE cfgCE 0
        [Ev.send 5, Ev.gen 10000 0, Ev.deliver 0 0, Ev.recv]).delivered ++ t =
      (Exec.run serCE cfgCE 0 [Ev.send 5, Ev.gen 10000 0, Ev.deliver 0 0, Ev.recv]).sent :=
  c1_reliable_ordering serCE cfgCE 0 [Ev.send 5, Ev.gen 10000 0, Ev.deliver 0 0, Ev.recv]
    (by decide)

end YojimboRs

namespace YojimboRs

/-! ## Capacity-1 buffer computations (claim C1 counterexample) -/

theorem insert_emptyBuf1 (β : Type) (k : Nat) (hk : k < 65536) (f : Unit → β) :
    (emptyBuf1 β k).insert_with k f =
      (true, { sequence := (k + 1) % 65536, entrySequence := [some k],
               entries := [some (f ())] }) := by
  unfold SequenceBuffer.insert_with
  rw [show (emptyBuf1 β k).sequence = k from rfl]
  rw [if_pos (seqGT_succ k hk)]
  rw [remove_entries_self _ _ (by rw [show (emptyBuf1 β k).capacity = 1 from rfl]; omega)]
  dsimp only
  unfold SequenceBuffer.place SequenceBuffer.sequence_index SequenceBuffer.capacity wrapAdd
  dsimp only
  rw [show (emptyBuf1 β k).entries.length = 1 from rfl, Nat.mod_one]
  rfl

theorem get_singleton (β : Type) (c k : Nat) (v : β) :
    ({ sequence := c, entrySequence := [some k], entries := [some v] } :
      SequenceBuffer β).get k = some v := by
  unfold SequenceBuffer.get SequenceBuffer.existsAt SequenceBuffer.sequence_index
    SequenceBuffer.capacity
  simp [Nat.mod_one]

theorem take_singleton (β : Type) (c k : Nat) (v : β) :
    ({ sequence := c, entrySequence := [some k], entries := [some v] } :
      SequenceBuffer β).take k =
      (some v, emptyBuf1 β c) := by
  unfold SequenceBuffer.take SequenceBuffer.existsAt SequenceBuffer.sequence_index
    SequenceBuffer.capacity
  simp only [List.length_cons, List.length_nil, List.getD_eq_getElem?_getD, Nat.mod_one]
  rw [if_pos (by rw [Nat.mod_one]; simp)]
  rw [show k % 1 = 0 from Nat.mod_one k]
  simp [emptyBuf1]

theorem available_emptyBuf1 (β : Type) (c k : Nat) :
    (emptyBuf1 β c).available k = true := by
  unfold SequenceBuffer.available SequenceBuffer.sequence_index SequenceBuffer.capacity
  simp [emptyBuf1, Nat.mod_one]

theorem existsAt_emptyBuf1 (β : Type) (c k : Nat) :
    (emptyBuf1 β c).existsAt k = false := by
  unfold SequenceBuffer.existsAt SequenceBuffer.sequence_index SequenceBuffer.capacity
  simp [emptyBuf1, Nat.mod_one]

theorem succ_mod_ne (k : Nat) (h : k < 65536) : (k + 1) % 65536 ≠ k := by
  omega

end YojimboRs

namespace YojimboRs

theorem insert_singleton1 (β : Type) (c0 : Option Nat) (e0 : Option β) (k : Nat)
    (hk : k < 65536) (f : Unit → β) :
    ({ sequence := k, entrySequence := [c0], entries := [e0] } :
      SequenceBuffer β).insert_with k f =
      (true, { sequence := (k + 1) % 65536, entrySequence := [some k],
               entries := [some (f ())] }) := by
  unfold SequenceBuffer.insert_with
  rw [show ({ sequence := k, entrySequence := [c0], entries := [e0] } :
    SequenceBuffer β).sequence = k from rfl]
  rw [if_pos (seqGT_succ k hk)]
  rw [remove_entries_self _ _ (by
    rw [show ({ sequence := k, entrySequence := [c0], entries := [e0] } :
      SequenceBuffer β).capacity = 1 from rfl]
    omega)]
  dsimp only
  unfold SequenceBuffer.place SequenceBuffer.sequence_index SequenceBuffer.capacity wrapAdd
  dsimp only
  rw [show ([e0] : List (Option β)).length = 1 from rfl, Nat.mod_one]
  rfl

theorem existsAt_singleton (β : Type) (c k : Nat) (v : β) :
    ({ sequence := c, entrySequence := [some k], entries := [some v] } :
      SequenceBuffer β).existsAt k = true := by
  unfold SequenceBuffer.existsAt SequenceBuffer.sequence_index SequenceBuffer.capacity
  rw [show ([some v] : List (Option β)).length = 1 from rfl, Nat.mod_one]
  simp

theorem touch_singleton (c k : Nat) (e : MessageSendQueueEntry Nat) (now : Int) :
    touchTimeLastSent
      { sequence := c, entrySequence := [some k], entries := [some e] } k now =
      { sequence := c, entrySequence := [some k],
        entries := [some { e with time_last_sent := now }] } := by
  unfold touchTimeLastSent
  rw [if_pos (existsAt_singleton _ c k e)]
  unfold SequenceBuffer.sequence_index SequenceBuffer.capacity
  dsimp only
  rw [show ([some e] : List (Option (MessageSendQueueEntry Nat))).length = 1 from rfl,
    Nat.mod_one]
  rfl

theorem markAcked_singleton (c k : Nat) (e : SentPacketEntry) :
    markAcked { sequence := c, entrySequence := [some k], entries := [some e] } k =
      { sequence := c, entrySequence := [some k],
        entries := [some { e with acked := true }] } := by
  unfold markAcked
  rw [if_pos (existsAt_singleton _ c k e)]
  unfold SequenceBuffer.sequence_index SequenceBuffer.capacity
  dsimp only
  rw [show ([some e] : List (Option SentPacketEntry)).length = 1 from rfl, Nat.mod_one]
  rfl

theorem seqGT_self (a : Nat) : sequence_greater_than a a = false := by
  simp [sequence_greater_than]

theorem seqLT_self (a : Nat) : sequence_less_than a a = false := by
  simp [sequence_less_than, sequence_greater_than]

end YojimboRs

namespace YojimboRs

/-! ## One round of the wrap counterexample, processor level -/

/-- `send_message` in round `k = j+1` of the counterexample run. -/
theorem sendCE_step (j : Nat) (hj : j + 1 < 65536) :
    Reliable.send_message serCE
      { time := 0, config := cfgCE, send_message_id := j + 1, receive_message_id := 0,
        oldest_unacked_message_id := j + 1, sent_packet_message_ids := [j],
        sent_packets :=
          { sequence := j + 1, entrySequence := [some j],
            entries := [some { time_sent := 0, message_ids := (0, 1), acked := true }] },
        message_send_queue := emptyBuf1 _ (j + 1),
        message_receive_queue := emptyBuf1 _ 0 }
      (j + 1) =
    some
      { time := 0, config := cfgCE, send_message_id := (j + 1 + 1) % 65536,
        receive_message_id := 0,
        oldest_unacked_message_id := j + 1, sent_packet_message_ids := [j],
        sent_packets :=
          { sequence := j + 1, entrySequence := [some j],
            entries := [some { time_sent := 0, message_ids := (0, 1), acked := true }] },
        message_send_queue :=
          { sequence := (j + 1 + 1) % 65536, entrySequence := [some (j + 1)],
            entries := [some
              { message_id := j + 1, message := j + 1,
                measured_bits := 8, time_last_sent := -1 }] },
        message_receive_queue := emptyBuf1 _ 0 } := by
  unfold Reliable.send_message
  rw [if_neg (by simp [Reliable.can_send_message, available_emptyBuf1])]
  dsimp only
  rw [insert_emptyBuf1 _ _ hj]
  rfl

end YojimboRs

namespace YojimboRs

/-- The `get_messages_to_send` scan in round `k = j+1`: picks exactly the
queued message, 56 bits. -/
theorem gmtsCE_step (j : Nat) (hj : j + 1 < 65536) :
    gmtsLoop (α := Nat) 0 0 1 1 (j + 1) 10000 0 1
      { sequence := (j + 1 + 1) % 65536, entrySequence := [some (j + 1)],
        entries := [some
          { message_id := j + 1, message := j + 1,
            measured_bits := 8, time_last_sent := -1 }] }
      [] 32 0 =
    ([j + 1], 56,
      { sequence := (j + 1 + 1) % 65536, entrySequence := [some (j + 1)],
        entries := [some
          { message_id := j + 1, message := j + 1,
            measured_bits := 8, time_last_sent := 0 }] }) := by
  rw [gmtsLoop]
  rw [if_neg (by unfold wrapSub64; omega)]
  rw [if_neg (by omega)]
  rw [show wrapAdd (j + 1) 0 = j + 1 from by unfold wrapAdd; omega]
  dsimp only
  rw [get_singleton]
  dsimp only
  rw [if_pos (by constructor <;> norm_num)]
  rw [if_neg (by omega)]
  rw [touch_singleton]
  rw [if_pos (by simp)]
  rfl

end YojimboRs

namespace YojimboRs

/-- Forward computation rule for `get_messages_to_send`: once the result
of the message-gathering loop is known, the wrapper returns it together
with the updated send queue. -/
theorem gmts_run (s : Reliable α) (ab : Nat)
    (h : s.has_messages_to_send = true)
    (ids : List Nat) (used : Nat) (q' : SequenceBuffer (MessageSendQueueEntry α))
    (hloop : gmtsLoop s.config.message_resend_time s.time s.message_send_queue.capacity
      s.config.max_messages_per_packet s.oldest_unacked_message_id
      (match s.config.packet_budget with
        | some packet_budget => min (packet_budget * 8) ab
        | none => ab)
      0 (min s.message_receive_queue.capacity s.message_send_queue.capacity)
      s.message_send_queue [] 32 0 = (ids, used, q')) :
    s.get_messages_to_send ab = some ((ids, used), { s with message_send_queue := q' }) := by
  unfold Reliable.get_messages_to_send
  rw [if_neg (not_not_intro h)]
  dsimp only
  rw [hloop]

/-- Forward computation rule for `Reliable.packet_data` on a state that
has messages to send and gathers a nonempty id list: the cloned messages
are returned and the sent packet is recorded. -/
theorem reliable_packet_data_run (s : Reliable α) (ci ps ab : Nat)
    (h : s.has_messages_to_send = true)
    (mids : List Nat) (mbits : Nat) (s1 : Reliable α)
    (hg : s.get_messages_to_send ab = some ((mids, mbits), s1))
    (hne : mids.isEmpty = false)
    (pd : ChannelPacketData α)
    (hpd : s1.get_message_packet_data ci mids = some pd) :
    s.packet_data ci ps ab = some (pd, mbits, s1.add_message_packet_entry mids ps) := by
  unfold Reliable.packet_data
  rw [if_neg (not_not_intro h), hg]
  dsimp only
  rw [if_neg (by simp [hne]), hpd]

/-- `add_message_packet_entry` in round `k = j+1` of the counterexample
run: records packet `j+1` with its single message id in the singleton
sent-packet buffer. -/
theorem ampeCE_step (j : Nat) (hj : j + 1 < 65536) :
    Reliable.add_message_packet_entry
      { time := 0, config := cfgCE, send_message_id := (j + 1 + 1) % 65536,
        receive_message_id := 0,
        oldest_unacked_message_id := j + 1, sent_packet_message_ids := [j],
        sent_packets :=
          { sequence := j + 1, entrySequence := [some j],
            entries := [some { time_sent := 0, message_ids := (0, 1), acked := true }] },
        message_send_queue :=
          { sequence := (j + 1 + 1) % 65536, entrySequence := [some (j + 1)],
            entries := [some
              { message_id := j + 1, message := j + 1,
                measured_bits := 8, time_last_sent := 0 }] },
        message_receive_queue := emptyBuf1 _ 0 }
      [j + 1] (j + 1) =
      { time := 0, config := cfgCE, send_message_id := (j + 1 + 1) % 65536,
        receive_message_id := 0,
        oldest_unacked_message_id := j + 1, sent_packet_message_ids := [j + 1],
        sent_packets :=
          { sequence := (j + 1 + 1) % 65536, entrySequence := [some (j + 1)],
            entries := [some { time_sent := 0, message_ids := (0, 1), acked := false }] },
        message_send_queue :=
          { sequence := (j + 1 + 1) % 65536, entrySequence := [some (j + 1)],
            entries := [some
              { message_id := j + 1, message := j + 1,
                measured_bits := 8, time_last_sent := 0 }] },
        message_receive_queue := emptyBuf1 _ 0 } := by
  unfold Reliable.add_message_packet_entry
  dsimp only
  rw [show (j + 1) % cfgCE.sent_packet_buffer_size * cfgCE.max_messages_per_packet = 0 from by
    rw [show cfgCE.sent_packet_buffer_size = 1 from rfl, Nat.mod_one, Nat.zero_mul]]
  rw [insert_singleton1 _ _ _ _ hj]
  rfl

/-- `packet_data` in round `k = j+1` of the counterexample run: packs the
one queued message into a 56-bit contribution and records the sent
packet. -/
theorem packet_dataCE_step (j : Nat) (hj : j + 1 < 65536) :
    Reliable.packet_data
      { time := 0, config := cfgCE, send_message_id := (j + 1 + 1) % 65536,
        receive_message_id := 0,
        oldest_unacked_message_id := j + 1, sent_packet_message_ids := [j],
        sent_packets :=
          { sequence := j + 1, entrySequence := [some j],
            entries := [some { time_sent := 0, message_ids := (0, 1), acked := true }] },
        message_send_queue :=
          { sequence := (j + 1 + 1) % 65536, entrySequence := [some (j + 1)],
            entries := [some
              { message_id := j + 1, message := j + 1,
                measured_bits := 8, time_last_sent := -1 }] },
        message_receive_queue := emptyBuf1 _ 0 }
      0 (j + 1) 10000 =
    some
      ({ channel_index := 0, messages := [(j + 1, j + 1)] }, 56,
        { time := 0, config := cfgCE, send_message_id := (j + 1 + 1) % 65536,
          receive_message_id := 0,
          oldest_unacked_message_id := j + 1, sent_packet_message_ids := [j + 1],
          sent_packets :=
            { sequence := (j + 1 + 1) % 65536, entrySequence := [some (j + 1)],
              entries := [some { time_sent := 0, message_ids := (0, 1), acked := false }] },
          message_send_queue :=
            { sequence := (j + 1 + 1) % 65536, entrySequence := [some (j + 1)],
              entries := [some
                { message_id := j + 1, message := j + 1,
                  measured_bits := 8, time_last_sent := 0 }] },
          message_receive_queue := emptyBuf1 _ 0 }) := by
  have h1 : Reliable.has_messages_to_send
      { time := 0, config := cfgCE, send_message_id := (j + 1 + 1) % 65536,
        receive_message_id := 0,
        oldest_unacked_message_id := j + 1, sent_packet_message_ids := [j],
        sent_packets :=
          { sequence := j + 1, entrySequence := [some j],
            entries := [some { time_sent := 0, message_ids := (0, 1), acked := true }] },
        message_send_queue :=
          { sequence := (j + 1 + 1) % 65536, entrySequence := [some (j + 1)],
            entries := [some
              { message_id := j + 1, message := j + 1,
                measured_bits := 8, time_last_sent := -1 }] },
        message_receive_queue := emptyBuf1 _ 0 } = true := by
    simp only [Reliable.has_messages_to_send, bne_iff_ne, ne_eq]
    omega
  have hg : Reliable.get_messages_to_send
      { time := 0, config := cfgCE, send_message_id := (j + 1 + 1) % 65536,
        receive_message_id := 0,
        oldest_unacked_message_id := j + 1, sent_packet_message_ids := [j],
        sent_packets :=
          { sequence := j + 1, entrySequence := [some j],
            entries := [some { time_sent := 0, message_ids := (0, 1), acked := true }] },
        message_send_queue :=
          { sequence := (j + 1 + 1) % 65536, entrySequence := [some (j + 1)],
            entries := [some
              { message_id := j + 1, message := j + 1,
                measured_bits := 8, time_last_sent := -1 }] },
        message_receive_queue := emptyBuf1 _ 0 } 10000 =
      some (([j + 1], 56),
        { time := 0, config := cfgCE, send_message_id := (j + 1 + 1) % 65536,
          receive_message_id := 0,
          oldest_unacked_message_id := j + 1, sent_packet_message_ids := [j],
          sent_packets :=
            { sequence := j + 1, entrySequence := [some j],
              entries := [some { time_sent := 0, message_ids := (0, 1), acked := true }] },
          message_send_queue :=
            { sequence := (j + 1 + 1) % 65536, entrySequence := [some (j + 1)],
              entries := [some
                { message_id := j + 1, message := j + 1,
                  measured_bits := 8, time_last_sent := 0 }] },
          message_receive_queue := emptyBuf1 _ 0 }) :=
    gmts_run _ 10000 h1 [j + 1] 56 _ (gmtsCE_step j hj)
  have hpd : Reliable.get_message_packet_data
      { time := 0, config := cfgCE, send_message_id := (j + 1 + 1) % 65536,
        receive_message_id := 0,
        oldest_unacked_message_id := j + 1, sent_packet_message_ids := [j],
        sent_packets :=
          { sequence := j + 1, entrySequence := [some j],
            entries := [some { time_sent := 0, message_ids := (0, 1), acked := true }] },
        message_send_queue :=
          { sequence := (j + 1 + 1) % 65536, entrySequence := [some (j + 1)],
            entries := [some
              { message_id := j + 1, message := j + 1,
                measured_bits := 8, time_last_sent := 0 }] },
        message_receive_queue := emptyBuf1 _ 0 }
      0 [j + 1] =
      some { channel_index := 0, messages := [(j + 1, j + 1)] } := by
    unfold Reliable.get_message_packet_data
    rw [List.mapM_cons, get_singleton]
    simp only [Option.map_some', List.mapM_nil, Option.pure_def, Option.bind_eq_bind,
      Option.some_bind]
  rw [reliable_packet_data_run _ 0 (j + 1) 10000 h1 [j + 1] 56 _ hg rfl _ hpd]
  rw [ampeCE_step j hj]

end YojimboRs

namespace YojimboRs

/-- `process_packet_data` in round `k = j+1`: the packed message is
accepted into the receive queue. -/
theorem rppdCE_step (j : Nat) (hj : j + 1 < 65536) :
    Reliable.process_packet_data
      { time := 0, config := cfgCE, send_message_id := 0, receive_message_id := j + 1,
        oldest_unacked_message_id := 0, sent_packet_message_ids := [0],
        sent_packets := emptyBuf1 _ 0,
        message_send_queue := emptyBuf1 _ 0,
        message_receive_queue := emptyBuf1 _ (j + 1) }
      { channel_index := 0, messages := [(j + 1, j + 1)] } (j + 1) =
    some
      { time := 0, config := cfgCE, send_message_id := 0, receive_message_id := j + 1,
        oldest_unacked_message_id := 0, sent_packet_message_ids := [0],
        sent_packets := emptyBuf1 _ 0,
        message_send_queue := emptyBuf1 _ 0,
        message_receive_queue :=
          { sequence := (j + 1 + 1) % 65536, entrySequence := [some (j + 1)],
            entries := [some { message_id := j + 1, message := j + 1 }] } } := by
  unfold Reliable.process_packet_data
  dsimp only
  rw [show wrapAdd (j + 1)
      (wrapSub64 (emptyBuf1 (MessageReceiveQueueEntry Nat) (j + 1)).capacity 1 % 65536) =
      j + 1 from by
    rw [show (emptyBuf1 (MessageReceiveQueueEntry Nat) (j + 1)).capacity = 1 from rfl]
    unfold wrapAdd wrapSub64
    omega]
  rw [rppLoop]
  rw [if_neg (by rw [seqLT_self]; simp)]
  rw [if_neg (by rw [seqGT_self]; simp)]
  dsimp only
  rw [insert_emptyBuf1 _ _ hj]
  dsimp only
  rw [if_pos rfl]
  rw [rppLoop]
  rfl

/-- `receive_message` in round `k = j+1`: delivers the message. -/
theorem receiveCE_step (j : Nat) (hj : j + 1 < 65536) :
    Reliable.receive_message
      { time := 0, config := cfgCE, send_message_id := 0, receive_message_id := j + 1,
        oldest_unacked_message_id := 0, sent_packet_message_ids := [0],
        sent_packets := emptyBuf1 _ 0,
        message_send_queue := emptyBuf1 _ 0,
        message_receive_queue :=
          { sequence := (j + 1 + 1) % 65536, entrySequence := [some (j + 1)],
            entries := [some { message_id := j + 1, message := j + 1 }] } } =
    some (some (j + 1, j + 1),
      { time := 0, config := cfgCE, send_message_id := 0,
        receive_message_id := (j + 1 + 1) % 65536,
        oldest_unacked_message_id := 0, sent_packet_message_ids := [0],
        sent_packets := emptyBuf1 _ 0,
        message_send_queue := emptyBuf1 _ 0,
        message_receive_queue := emptyBuf1 _ ((j + 1 + 1) % 65536) }) := by
  unfold Reliable.receive_message
  dsimp only
  rw [take_singleton]
  dsimp only
  rw [if_neg (by simp)]
  rfl

/-- `process_ack` in round `k = j+1`: empties the send queue, marks the
sent packet acked, and advances the oldest-unacked id. -/
theorem ackCE_step (j : Nat) (hj : j + 1 < 65536) :
    Reliable.process_ack
      { time := 0, config := cfgCE, send_message_id := (j + 1 + 1) % 65536,
        receive_message_id := 0,
        oldest_unacked_message_id := j + 1, sent_packet_message_ids := [j + 1],
        sent_packets :=
          { sequence := (j + 1 + 1) % 65536, entrySequence := [some (j + 1)],
            entries := [some { time_sent := 0, message_ids := (0, 1), acked := false }] },
        message_send_queue :=
          { sequence := (j + 1 + 1) % 65536, entrySequence := [some (j + 1)],
            entries := [some
              { message_id := j + 1, message := j + 1,
                measured_bits := 8, time_last_sent := 0 }] },
        message_receive_queue := emptyBuf1 _ 0 }
      (j + 1) =
    some
      { time := 0, config := cfgCE, send_message_id := (j + 1 + 1) % 65536,
        receive_message_id := 0,
        oldest_unacked_message_id := (j + 1 + 1) % 65536,
        sent_packet_message_ids := [j + 1],
        sent_packets :=
          { sequence := (j + 1 + 1) % 65536, entrySequence := [some (j + 1)],
            entries := [some { time_sent := 0, message_ids := (0, 1), acked := true }] },
        message_send_queue := emptyBuf1 _ ((j + 1 + 1) % 65536),
        message_receive_queue := emptyBuf1 _ 0 } := by
  unfold Reliable.process_ack
  rw [get_singleton]
  dsimp only
  rw [if_neg (by simp)]
  rw [markAcked_singleton]
  dsimp only
  rw [if_neg (by simp)]
  rw [show ((([j + 1] : List Nat).drop 0).take 1) = [j + 1] from rfl]
  rw [ackLoop]
  dsimp only
  rw [take_singleton]
  dsimp only
  rw [if_neg (by simp)]
  have hupd : update_oldest_unacked_message_id
      (emptyBuf1 (MessageSendQueueEntry Nat) ((j + 1 + 1) % 65536)) 65536 (j + 1) =
      (j + 1 + 1) % 65536 := by
    show update_oldest_unacked_message_id _ (65535 + 1) (j + 1) = _
    rw [update_oldest_unacked_message_id]
    rw [if_neg (by
      simp only [existsAt_emptyBuf1, Bool.or_false, beq_iff_eq]
      simp only [emptyBuf1]
      omega)]
    rw [show wrapAdd (j + 1) 1 = (j + 1 + 1) % 65536 from rfl]
    show update_oldest_unacked_message_id _ (65534 + 1) _ = _
    rw [update_oldest_unacked_message_id]
    rw [if_pos (by simp [emptyBuf1])]
  rw [hupd]
  rw [if_neg (by simp [seqGT_self, emptyBuf1])]
  rw [ackLoop]

end YojimboRs

namespace YojimboRs

/-- `stateCE` at a positive round index, with the 16-bit mods reduced. -/
theorem stRound_eq (j : Nat) (hj : j < 65535) : stateCE (j + 1) = stRound j := by
  have hm1 : (j + 1) % 65536 = j + 1 := Nat.mod_eq_of_lt (by omega)
  have hm0 : j % 65536 = j := Nat.mod_eq_of_lt (by omega)
  simp only [stateCE]
  rw [hm1, hm0]
  rfl

theorem stepCE1 (j : Nat) (hj : j < 65535) :
    Exec.step serCE (stRound j) (Ev.send (j + 1)) = stA j := by
  have h65 : j + 1 < 65536 := by omega
  unfold stRound stA Exec.step
  rw [if_neg (by simp)]
  dsimp only
  unfold Channel.send_message
  rw [if_neg (by simp)]
  rw [if_neg (by simp [Channel.can_send_message, Reliable.can_send_message,
    available_emptyBuf1])]
  dsimp only
  rw [sendCE_step j h65]
  rfl

theorem stepCE2 (j : Nat) (hj : j < 65535) :
    Exec.step serCE (stA j) (Ev.gen 10000 (j + 1)) = stB j := by
  have h65 : j + 1 < 65536 := by omega
  have hm1 : (j + 1) % 65536 = j + 1 := Nat.mod_eq_of_lt (by omega)
  unfold stA stB stRound Exec.step
  rw [if_neg (by simp)]
  dsimp only
  unfold Channel.packet_data
  dsimp only
  rw [hm1]
  rw [packet_dataCE_step j h65]
  simp only [Option.map_some']
  rw [if_pos (by omega)]
  rfl

theorem stepCE3 (j : Nat) (hj : j < 65535) :
    Exec.step serCE (stB j) (Ev.deliver (j + 1) (j + 1)) = stC j := by
  have h65 : j + 1 < 65536 := by omega
  have hm1 : (j + 1) % 65536 = j + 1 := Nat.mod_eq_of_lt (by omega)
  unfold stB stC stA stRound Exec.step
  rw [if_neg (by simp)]
  dsimp only
  rw [show ((List.range (j + 1)).map packetCE ++
      [({ channel_index := 0, messages := [(j + 1, j + 1)] } : ChannelPacketData Nat)]).get?
        (j + 1) =
      some ({ channel_index := 0, messages := [(j + 1, j + 1)] } : ChannelPacketData Nat) from by
    rw [List.get?_eq_getElem?,
      List.getElem?_append_right (by simp [List.length_map, List.length_range])]
    simp [List.length_map, List.length_range]]
  dsimp only
  unfold Channel.process_packet_data
  rw [if_neg (by simp)]
  dsimp only
  rw [hm1]
  rw [rppdCE_step j h65]
  rfl

theorem stepCE4 (j : Nat) (hj : j < 65535) :
    Exec.step serCE (stC j) Ev.recv = stD j := by
  have h65 : j + 1 < 65536 := by omega
  unfold stC stD stB stA stRound Exec.step
  rw [if_neg (by simp)]
  dsimp only
  unfold Channel.receive_message
  rw [if_neg (by simp)]
  dsimp only
  rw [receiveCE_step j h65]
  rfl

theorem stepCE5 (j : Nat) (hj : j < 65535) :
    Exec.step serCE (stD j) (Ev.ack (j + 1)) = stE j := by
  have h65 : j + 1 < 65536 := by omega
  have hm1 : (j + 1) % 65536 = j + 1 := Nat.mod_eq_of_lt (by omega)
  unfold stD stE stC stB stA stRound Exec.step
  rw [if_neg (by simp)]
  dsimp only
  unfold Channel.process_ack
  dsimp only
  rw [hm1]
  rw [ackCE_step j h65]
  rfl

/-- The end of counterexample round `j+1` is the start of round `j+2`. -/
theorem stE_eq (j : Nat) (hj : j < 65535) : stE j = stateCE (j + 1 + 1) := by
  have hm1 : (j + 1) % 65536 = j + 1 := Nat.mod_eq_of_lt (by omega)
  simp only [stateCE]
  rw [hm1]
  rw [show List.range (j + 1 + 1) = List.range (j + 1) ++ [j + 1] from List.range_succ (j + 1),
    List.map_append]
  simp only [List.map_cons, List.map_nil, packetCE, hm1]
  unfold stE stD stC stB stA stRound
  rfl

/-- One complete positive round of the counterexample run. -/
theorem roundCE_step (j : Nat) (hj : j < 65535) :
    (roundCE (j + 1)).foldl (Exec.step serCE) (stateCE (j + 1)) = stateCE (j + 1 + 1) := by
  show List.foldl (Exec.step serCE) (stateCE (j + 1))
    [Ev.send (j + 1), Ev.gen 10000 (j + 1), Ev.deliver (j + 1) (j + 1), Ev.recv,
      Ev.ack (j + 1)] = stateCE (j + 1 + 1)
  simp only [List.foldl_cons, List.foldl_nil]
  rw [stRound_eq j hj, stepCE1 j hj, stepCE2 j hj, stepCE3 j hj, stepCE4 j hj,
    stepCE5 j hj, stE_eq j hj]

end YojimboRs

namespace YojimboRs

/-- Round 0 of the counterexample run (computed concretely). -/
theorem roundCE_zero :
    (roundCE 0).foldl (Exec.step serCE) (stateCE 0) = stateCE 1 := by
  decide

/-- The first `n ≤ 65536` rounds drive the execution to `stateCE n`. -/
theorem roundsCE :
    ∀ n, n ≤ 65536 →
      ((List.range n).map roundCE).flatten.foldl (Exec.step serCE) (stateCE 0) = stateCE n := by
  intro n
  induction n with
  | zero =>
    intro _
    rfl
  | succ m ih =>
    intro hm
    rw [List.range_succ, List.map_append, List.flatten_append, List.foldl_append]
    rw [ih (by omega)]
    simp only [List.map_cons, List.map_nil, List.flatten_cons, List.flatten_nil,
      List.append_nil]
    cases m with
    | zero => exact roundCE_zero
    | succ jj => exact roundCE_step jj (by omega)

end YojimboRs

namespace YojimboRs

/-- After 65536 complete rounds every 16-bit id has wrapped to 0. -/
theorem stateCE_last :
    stateCE (65535 + 1) =
    { sender :=
        { config := cfgCE, channel_index := 0, error_level := ChannelErrorLevel.None,
          processor := Proc.reliable
            { time := 0, config := cfgCE, send_message_id := 0, receive_message_id := 0,
              oldest_unacked_message_id := 0, sent_packet_message_ids := [65535],
              sent_packets :=
                { sequence := 0, entrySequence := [some 65535],
                  entries := [some { time_sent := 0, message_ids := (0, 1), acked := true }] },
              message_send_queue := emptyBuf1 _ 0,
              message_receive_queue := emptyBuf1 _ 0 } }
      receiver :=
        { config := cfgCE, channel_index := 0, error_level := ChannelErrorLevel.None,
          processor := Proc.reliable
            { time := 0, config := cfgCE, send_message_id := 0, receive_message_id := 0,
              oldest_unacked_message_id := 0, sent_packet_message_ids := [0],
              sent_packets := emptyBuf1 _ 0,
              message_send_queue := emptyBuf1 _ 0,
              message_receive_queue := emptyBuf1 _ 0 } }
      pool := (List.range 65536).map packetCE
      sent := List.range 65536
      delivered := List.range 65536
      halted := false } := by
  simp only [stateCE]

/-- The duplicate delivery of packet 0 after the wrap is accepted. -/
theorem stepCE_dup (st : Exec Nat) (hst : st = stateCE (65535 + 1)) :
    Exec.step serCE st (Ev.deliver 0 0) =
    { st with
        receiver :=
          { config := cfgCE, channel_index := 0, error_level := ChannelErrorLevel.None,
            processor := Proc.reliable
              { time := 0, config := cfgCE, send_message_id := 0, receive_message_id := 0,
                oldest_unacked_message_id := 0, sent_packet_message_ids := [0],
                sent_packets := emptyBuf1 _ 0,
                message_send_queue := emptyBuf1 _ 0,
                message_receive_queue :=
                  { sequence := 1, entrySequence := [some 0],
                    entries := [some { message_id := 0, message := 0 }] } } } } := by
  subst hst
  rw [stateCE_last]
  unfold Exec.step
  rw [if_neg (by simp)]
  dsimp only
  rw [show ((List.range 65536).map packetCE).get? 0 = some (packetCE 0) from by
    rw [List.get?_eq_getElem?, List.getElem?_map, List.getElem?_range (by norm_num)]
    rfl]
  dsimp only
  unfold Channel.process_packet_data
  rw [if_neg (by simp)]
  dsimp only
  rw [show Reliable.process_packet_data
      { time := 0, config := cfgCE, send_message_id := 0, receive_message_id := 0,
        oldest_unacked_message_id := 0, sent_packet_message_ids := [0],
        sent_packets := emptyBuf1 _ 0,
        message_send_queue := emptyBuf1 _ 0,
        message_receive_queue := emptyBuf1 _ 0 }
      (packetCE 0) (0 % 65536) =
    some
      { time := 0, config := cfgCE, send_message_id := 0, receive_message_id := 0,
        oldest_unacked_message_id := 0, sent_packet_message_ids := [0],
        sent_packets := emptyBuf1 _ 0,
        message_send_queue := emptyBuf1 _ 0,
        message_receive_queue :=
          { sequence := 1, entrySequence := [some 0],
            entries := [some { message_id := 0, message := 0 }] } } from by decide]
  simp only [Option.map_some']

end YojimboRs

namespace YojimboRs

/-- Receiving after the duplicate delivery hands message 0 to the
application a second time. -/
theorem stepCE_dup_recv :
    Exec.step serCE
      { sender :=
          { config := cfgCE, channel_index := 0, error_level := ChannelErrorLevel.None,
            processor := Proc.reliable
              { time := 0, config := cfgCE, send_message_id := 0, receive_message_id := 0,
                oldest_unacked_message_id := 0, sent_packet_message_ids := [65535],
                sent_packets :=
                  { sequence := 0, entrySequence := [some 65535],
                    entries := [some { time_sent := 0, message_ids := (0, 1), acked := true }] },
                message_send_queue := emptyBuf1 _ 0,
                message_receive_queue := emptyBuf1 _ 0 } }
        receiver :=
          { config := cfgCE, channel_index := 0, error_level := ChannelErrorLevel.None,
            processor := Proc.reliable
              { time := 0, config := cfgCE, send_message_id := 0, receive_message_id := 0,
                oldest_unacked_message_id := 0, sent_packet_message_ids := [0],
                sent_packets := emptyBuf1 _ 0,
                message_send_queue := emptyBuf1 _ 0,
                message_receive_queue :=
                  { sequence := 1, entrySequence := [some 0],
                    entries := [some { message_id := 0, message := 0 }] } } }
        pool := (List.range 65536).map packetCE
        sent := List.range 65536
        delivered := List.range 65536
        halted := false }
      Ev.recv =
    { sender :=
        { config := cfgCE, channel_index := 0, error_level := ChannelErrorLevel.None,
          processor := Proc.reliable
            { time := 0, config := cfgCE, send_message_id := 0, receive_message_id := 0,
              oldest_unacked_message_id := 0, sent_packet_message_ids := [65535],
              sent_packets :=
                { sequence := 0, entrySequence := [some 65535],
                  entries := [some { time_sent := 0, message_ids := (0, 1), acked := true }] },
              message_send_queue := emptyBuf1 _ 0,
              message_receive_queue := emptyBuf1 _ 0 } }
      receiver :=
        { config := cfgCE, channel_index := 0, error_level := ChannelErrorLevel.None,
          processor := Proc.reliable
            { time := 0, config := cfgCE, send_message_id := 0, receive_message_id := 1,
              oldest_unacked_message_id := 0, sent_packet_message_ids := [0],
              sent_packets := emptyBuf1 _ 0,
              message_send_queue := emptyBuf1 _ 0,
              message_receive_queue := emptyBuf1 _ 1 } }
      pool := (List.range 65536).map packetCE
      sent := List.range 65536
      delivered := List.range 65536 ++ [0]
      halted := false } := by
  unfold Exec.step
  rw [if_neg (by simp)]
  dsimp only
  unfold Channel.receive_message
  rw [if_neg (by simp)]
  dsimp only
  rw [show Reliable.receive_message
      { time := 0, config := cfgCE, send_message_id := 0, receive_message_id := 0,
        oldest_unacked_message_id := 0, sent_packet_message_ids := [0],
        sent_packets := emptyBuf1 _ 0,
        message_send_queue := emptyBuf1 _ 0,
        message_receive_queue :=
          { sequence := 1, entrySequence := [some 0],
            entries := [some { message_id := 0, message := 0 }] } } =
    some (some (0, 0),
      { time := 0, config := cfgCE, send_message_id := 0, receive_message_id := 1,
        oldest_unacked_message_id := 0, sent_packet_message_ids := [0],
        sent_packets := emptyBuf1 _ 0,
        message_send_queue := emptyBuf1 _ 0,
        message_receive_queue := emptyBuf1 _ 1 }) from by decide]
  simp only [Option.map_some']

/-- A list extending `List.range n ++ [0]` can never equal `List.range n`:
it is strictly longer. -/
theorem range_concat_ne (n : Nat) (t : List Nat)
    (ht : List.range n ++ [0] ++ t = List.range n) : False := by
  have hlen := congrArg List.length ht
  simp only [List.length_append, List.length_range, List.length_cons,
    List.length_nil] at hlen
  omega

/-- C1 counterexample: after 65536 complete send/deliver/ack rounds the
16-bit ids have wrapped; a duplicate of the very first packet then passes
every receive-window check and message 0 is delivered to the application
a second time, so the delivered sequence (length 65537) is no longer a
prefix of the sent sequence (length 65536). -/
theorem c1_counterexample :
    ¬ ∃ t, (Exec.run serCE cfgCE 0 evsCE).delivered ++ t =
      (Exec.run serCE cfgCE 0 evsCE).sent := by
  have hrun : (Exec.run serCE cfgCE 0 evsCE).delivered = List.range 65536 ++ [0] ∧
      (Exec.run serCE cfgCE 0 evsCE).sent = List.range 65536 := by
    unfold Exec.run evsCE
    rw [List.foldl_append]
    rw [show Exec.init Nat cfgCE 0 = stateCE 0 from rfl]
    rw [roundsCE 65536 (le_refl _)]
    simp only [List.foldl_cons, List.foldl_nil]
    rw [show (65536 : Nat) = 65535 + 1 from rfl]
    rw [stepCE_dup (stateCE (65535 + 1)) rfl]
    rw [stateCE_last]
    dsimp only
    rw [stepCE_dup_recv]
    rw [show (65535 + 1 : Nat) = 65536 from rfl]
    refine ⟨rfl, ?_⟩
    dsimp only
  obtain ⟨hd, hs⟩ := hrun
  intro hex
  obtain ⟨t, ht⟩ := hex
  rw [hd, hs] at ht
  exact range_concat_ne 65536 t ht

end YojimboRs
